import Mathlib

/-!
Row expansion engine of go-xlsx-templater (`xlst.go`).

A shallow embedding of the row expansion engine: the three directive patterns,
the directive scanner (`getRangeProp`, `getListProp`), the range matcher
(`getRangeEndIndex`), the context resolver (`getRangeCtx`, `isArray`,
`mergeCtx`), the recursive engine `renderRows` with the row and cell helpers
it drives, and the calls on the template struct (`getCtx`,
`RenderWithOptions`, `Save`, `Write`).

The spreadsheet library and the template evaluator are collaborators of the
engine; what the engine needs from them is collected in `Env` and `Doc`.

The engine is read twice.  In the first reading a context is the list of its
bindings, and a call hands back the map it was given.  In the second reading
(`Mem`) the maps live in a store and a context is the address of one, which
is what the statement on the maps a range block can write to needs.
-/

namespace Xlst

/-! ## Regular expressions

The three patterns of `xlst.go` are sequences of character classes, each taken
once, under `*` or under `+`, with at most one capture group.  `Atom` is one
such class; a pattern is a `List Atom`.  The matcher is the backtracking
matcher with greedy repetition, which for these operators finds the same
leftmost-first match as Go's `regexp`. -/

/-- Repetition of a character class inside a pattern. -/
inductive Rep where
  | one
  | star
  | plus
  deriving DecidableEq, Repr

/-- One character class of a pattern, its repetition, and whether the
characters it consumes belong to capture group 1. -/
structure Atom where
  cls : Char → Bool
  rep : Rep
  cap : Bool

/-- Go's `\w`: `[0-9A-Za-z_]`. -/
def isWord (c : Char) : Bool :=
  (48 ≤ c.toNat && c.toNat ≤ 57) || (65 ≤ c.toNat && c.toNat ≤ 90) ||
    (97 ≤ c.toNat && c.toNat ≤ 122) || c.toNat == 95

/-- Go's `\s`: `[\t\n\f\r ]`. -/
def isSpace (c : Char) : Bool :=
  c.toNat == 9 || c.toNat == 10 || c.toNat == 12 || c.toNat == 13 || c.toNat == 32

/-- A literal character. -/
def lit (c : Char) : Atom := ⟨fun d => d == c, Rep.one, false⟩

/-- Prepends a consumed character to the capture when the atom captures. -/
def keep (cap : Bool) (c : Char) (g : List Char) : List Char :=
  if cap then c :: g else g

/-- Greedy repetition of a class followed by the continuation `k` (the rest of
the pattern): consume as long as possible, give back on failure. -/
def matchStar (p : Char → Bool) (cap : Bool) (k : List Char → Option (List Char)) :
    List Char → Option (List Char)
  | [] => k []
  | c :: cs =>
    if p c then
      match matchStar p cap k cs with
      | some g => some (keep cap c g)
      | none => k (c :: cs)
    else k (c :: cs)

/-- Match of one atom followed by the continuation `k` (the rest of the
pattern). -/
def matchAtom (a : Atom) (k : List Char → Option (List Char)) (s : List Char) :
    Option (List Char) :=
  match a.rep with
  | Rep.one =>
    match s with
    | [] => none
    | c :: cs => if a.cls c then (k cs).map (keep a.cap c) else none
  | Rep.star => matchStar a.cls a.cap k s
  | Rep.plus =>
    match s with
    | [] => none
    | c :: cs => if a.cls c then (matchStar a.cls a.cap k cs).map (keep a.cap c) else none

/-- Match of a pattern anchored at the start of the input; the result is the
text of capture group 1 of the preferred match. -/
def matchAt : List Atom → List Char → Option (List Char)
  | [], _ => some []
  | a :: as, s => matchAtom a (matchAt as) s

/-- Leftmost match of a pattern anywhere in the input (capture group 1 of it). -/
def findFirst (re : List Atom) : List Char → Option (List Char)
  | [] => matchAt re []
  | c :: cs =>
    match matchAt re (c :: cs) with
    | some g => some g
    | none => findFirst re cs

/-- The pattern matching `regexp.MatchString`. -/
def matchString (re : List Atom) (s : String) : Bool :=
  (findFirst re s.data).isSome

/-- The value of `match[0][1]` for `match := re.FindAllStringSubmatch(s, -1)`,
or `none` when `match` is nil. -/
def firstSubmatch (re : List Atom) (s : String) : Option String :=
  (findFirst re s.data).map String.mk

/-- The atoms of `\{\{\s*`. -/
def openBraces : List Atom :=
  [lit '{', lit '{', ⟨isSpace, Rep.star, false⟩]

/-- The atoms of `\s*\}\}`. -/
def closeBraces : List Atom :=
  [⟨isSpace, Rep.star, false⟩, lit '}', lit '}']

/-- The pattern `rgx = \{\{\s*(\w+)\.\w+\s*\}\}`. -/
def rgx : List Atom :=
  openBraces ++ [⟨isWord, Rep.plus, true⟩, lit '.', ⟨isWord, Rep.plus, false⟩] ++ closeBraces

/-- The pattern `rangeRgx = \{\{\s*range\s+(\w+)\s*\}\}`. -/
def rangeRgx : List Atom :=
  openBraces ++ [lit 'r', lit 'a', lit 'n', lit 'g', lit 'e', ⟨isSpace, Rep.plus, false⟩,
    ⟨isWord, Rep.plus, true⟩] ++ closeBraces

/-- The pattern `rangeEndRgx = \{\{\s*end\s*\}\}`. -/
def rangeEndRgx : List Atom :=
  openBraces ++ [lit 'e', lit 'n', lit 'd'] ++ closeBraces

/-! ## Document model: cells and rows -/

/-- A cell: its text, the wrap-text flag of its style and its rich text runs. -/
structure Cell where
  Value : String
  WrapText : Bool := false
  RichText : List String := []
  deriving DecidableEq, Repr

/-- A template row: the cells `ForEachCell` visits, `Sheet.MaxCol` of the sheet
that owns the row, and the row height (a `float64` the engine only compares
with 0 and copies). -/
structure Row where
  cells : List Cell
  MaxCol : Nat
  height : Nat := 0
  deriving DecidableEq, Repr

/-- The cell `in.GetCell(i)`: the cell at column `i`, an empty cell when the
row is shorter. -/
def Row.GetCell (r : Row) (i : Nat) : Cell :=
  r.cells.getD i ⟨"", false, []⟩

/-! ## Directive scanner -/

/-- Scan of the columns `i, i+1, ..` of `getListProp`, `n` columns remaining. -/
def getListPropFrom (r : Row) : Nat → Nat → String
  | 0, _ => ""
  | n + 1, i =>
    let cell := r.GetCell i
    if cell.Value = "" then getListPropFrom r n (i + 1)
    else
      match firstSubmatch rgx cell.Value with
      | some p => p
      | none => getListPropFrom r n (i + 1)

/-- The property named by the first list-field placeholder of the row, `""`
when there is none. -/
def getListProp (r : Row) : String :=
  getListPropFrom r r.MaxCol 0

/-- The property named by a range-start directive in the first cell of the
row, `""` when there is none. -/
def getRangeProp (r : Row) : String :=
  if r.MaxCol ≠ 0 then
    match firstSubmatch rangeRgx (r.GetCell 0).Value with
    | some p => p
    | none => ""
  else ""

/-! ## Range matcher -/

/-- The loop of `getRangeEndIndex` from row index `idx` on, with the current
nesting counter. -/
def getRangeEndIndexFrom : List Row → Nat → Nat → Option Nat
  | [], _, _ => none
  | r :: rs, nesting, idx =>
    if r.MaxCol = 0 then getRangeEndIndexFrom rs nesting (idx + 1)
    else if matchString rangeEndRgx (r.GetCell 0).Value then
      if nesting = 0 then some idx
      else getRangeEndIndexFrom rs (nesting - 1) (idx + 1)
    else if matchString rangeRgx (r.GetCell 0).Value then
      getRangeEndIndexFrom rs (nesting + 1) (idx + 1)
    else getRangeEndIndexFrom rs nesting (idx + 1)

/-- Index of the range-end row that closes the range whose body starts at the
head of `rows`; `none` stands for the result `-1`. -/
def getRangeEndIndex (rows : List Row) : Option Nat :=
  getRangeEndIndexFrom rows 0 0

/-! ## Contexts

The data a caller passes in is made of Go values.  `Value` lists the dynamic
types the engine tells apart: it asserts `map[string]interface{}`,
`[]interface{}` and `[]map[string]interface{}` and asks `reflect` whether a
value is an array or a slice.  A map or slice that may be nil is an `Option`;
a map is the list of its bindings, read by `lookup` (the first binding of a key
is the one the map holds). -/

/-- A Go value held in an `interface{}`. -/
inductive Value where
  /-- the nil interface value -/
  | null
  | str (s : String)
  | int (n : Int)
  | bool (b : Bool)
  /-- a `map[string]interface{}`, `none` being the nil map -/
  | map (m : Option (List (String × Value)))
  /-- a `[]map[string]interface{}`, `none` being the nil slice -/
  | maps (xs : Option (List (Option (List (String × Value)))))
  /-- a `[]interface{}` -/
  | ifaces (xs : List Value)
  /-- an array or slice of any other type, such as `[]string` or `[2]int`,
  given by what `Index(i).Interface()` returns for each index -/
  | arr (xs : List Value)

instance : Inhabited Value := ⟨Value.null⟩

/-- The bindings of a non-nil map. -/
abbrev Bindings := List (String × Value)

/-- A context: a `map[string]interface{}`, `none` being the nil map. -/
abbrev Ctx := Option Bindings

/-- The read `m[k]` on the bindings of a map. -/
def Bindings.lookup : Bindings → String → Option Value
  | [], _ => none
  | (k, v) :: rest, key => if k = key then some v else Bindings.lookup rest key

/-- The write `m[k] = v` on the bindings of a map. -/
def Bindings.insert : Bindings → String → Value → Bindings
  | [], key, v => [(key, v)]
  | (k, w) :: rest, key, v =>
    if k = key then (k, v) :: rest else (k, w) :: Bindings.insert rest key v

/-- The two-valued read `val, ok := ctx[prop]`: `none` when `ok` is false.
Reading a nil map finds nothing. -/
def Ctx.lookup (ctx : Ctx) (prop : String) : Option Value :=
  match ctx with
  | none => none
  | some m => m.lookup prop

/-- The bindings a `for k, v := range m` loop visits; none for a nil map. -/
def Ctx.entries (ctx : Ctx) : Bindings :=
  match ctx with
  | none => []
  | some m => m

/-- An error value returned by the engine, by origin, or a run-time panic. -/
inductive Err where
  /-- `fmt.Errorf("End of range %q not found", prop)` -/
  | rangeNotClosed (prop : String)
  /-- `fmt.Errorf("Not expected context property for range %q", prop)` -/
  | invalidRangeContext (prop : String)
  /-- `errors.New("Report was not generated")` -/
  | noReport
  /-- an error returned by the spreadsheet library or by the evaluator -/
  | collab (msg : String)
  /-- a run-time panic -/
  | panic (msg : String)
  deriving DecidableEq, Repr

/-- The text of `%q` for a property name, which consists of word characters. -/
def quote (prop : String) : String := "\"" ++ prop ++ "\""

/-- The message `err.Error()` carries. -/
def Err.message : Err → String
  | Err.rangeNotClosed p => "End of range " ++ quote p ++ " not found"
  | Err.invalidRangeContext p => "Not expected context property for range " ++ quote p
  | Err.noReport => "Report was not generated"
  | Err.collab msg => msg
  | Err.panic msg => "panic: " ++ msg

/-- The write `ctx[prop] = v`; writing to a nil map panics. -/
def Ctx.assign (ctx : Ctx) (prop : String) (v : Value) : Except Err Ctx :=
  match ctx with
  | none => Except.error (Err.panic "assignment to entry in nil map")
  | some m => Except.ok (some (m.insert prop v))

/-! ## Context resolver -/

/-- The sub-contexts of a range, `none` when `getRangeCtx` returns nil. -/
def getRangeCtx (ctx : Ctx) (prop : String) : Option (List Ctx) :=
  match ctx.lookup prop with
  | none => none
  | some (Value.maps propCtx) => propCtx
  | some _ => none

/-- One pass of `for k, v := range from { ctx[k] = v }`.  The order in which
Go visits a map is unspecified; the bindings are written last to first, so
that of two bindings of one key the one `lookup` reads is written last. -/
def copyInto (src : Bindings) (ctx : Bindings) : Bindings :=
  src.foldr (fun kv acc => acc.insert kv.1 kv.2) ctx

/-- A fresh map holding the bindings of `global` overwritten by those of
`local`. -/
def mergeCtx (loc glob : Ctx) : Ctx :=
  some (copyInto loc.entries (copyInto glob.entries []))

/-- Whether `reflect.TypeOf(val).Kind()` is `Array` or `Slice`, for a value
that is not the nil interface. -/
def Value.isSeq : Value → Bool
  | Value.maps _ => true
  | Value.ifaces _ => true
  | Value.arr _ => true
  | _ => false

/-- The elements `arr.Index(i).Interface()` for `i < arr.Len()` of
`arr := reflect.ValueOf(val)`. -/
def Value.elems : Value → List Value
  | Value.maps (some xs) => xs.map Value.map
  | Value.ifaces xs => xs
  | Value.arr xs => xs
  | _ => []

/-- Whether the property is bound to an array or slice.  `reflect.TypeOf` of
the nil interface is nil, and calling `Kind` on it panics. -/
def isArray (ctx : Ctx) (prop : String) : Except Err Bool :=
  match ctx.lookup prop with
  | none => Except.ok false
  | some Value.null =>
    Except.error (Err.panic "invalid memory address or nil pointer dereference")
  | some val => Except.ok val.isSeq

/-! ## Collaborators -/

/-- What the engine asks of the template evaluator and of the spreadsheet
library. -/
structure Env where
  /-- the result of `raymond.Parse(tpl)` followed by `template.Exec(ctx)` -/
  exec : String → Ctx → Except String String
  /-- the fresh cell after `from.MarshalBinary()` and `to.UnmarshalBinary(..)`,
  and the error either of them returned -/
  copy : Cell → Cell × Option String

/-- The render options. -/
structure Options where
  WrapTextInAllCells : Bool := false
  deriving DecidableEq, Repr

/-- A row of the report: the cells added to it so far and its height. -/
structure NewRow where
  cells : List Cell
  height : Nat := 0
  deriving DecidableEq, Repr

/-- The state a call of the engine leaves behind: the rows of the output
sheet, the caller's context map, and the error returned (`none` for nil).
The only writes of the engine to a map are the assignments `ctx[prop] = ..` to
the map the call was given; that map is threaded through `ctx`.  A map that is
reachable only as a value (a sub-context of a range, a nested mapping) is never
written, so values are immutable here. -/
structure Res where
  sheet : List NewRow
  ctx : Ctx
  err : Option Err

/-! ## Cloning and rendering one row -/

/-- The cell `to` after `cloneCell(from, to, options)`, and the error returned.
`GetStyle` hands out the style of the template cell by pointer, so forcing
`WrapText` also sets it on the template cell; within one render this changes
nothing a later clone reads, since the option forces the flag again. -/
def cloneCell (env : Env) (src : Cell) (options : Options) : Cell × Option Err :=
  match env.copy src with
  | (dst, some msg) => (dst, some (Err.collab msg))
  | (dst, none) =>
    let wrap := if options.WrapTextInAllCells then true else src.WrapText
    let dst := { dst with WrapText := wrap }
    if src.Value = "" ∧ src.RichText.length > 0 then
      ({ dst with RichText := src.RichText }, none)
    else (dst, none)

/-- The loop of `from.ForEachCell` in `cloneRow`: `acc` holds the cells added
to the new row so far. -/
def cloneCells (env : Env) (options : Options) : List Cell → List Cell → List Cell × Option Err
  | [], acc => (acc, none)
  | c :: cs, acc =>
    match cloneCell env c options with
    | (dst, some e) => (acc ++ [dst], some e)
    | (dst, none) => cloneCells env options cs (acc ++ [dst])

/-- The fresh row `to` after `cloneRow(from, to, options)`, and the error
returned. -/
def cloneRow (env : Env) (src : Row) (options : Options) : NewRow × Option Err :=
  let h := if src.height ≠ 0 then src.height else 0
  let r := cloneCells env options src.cells []
  (⟨r.1, h⟩, r.2)

/-- The text `strings.Replace(s, old, new, -1)` for a two-character `old`
(`a` followed by `b`): occurrences are found left to right, without overlap. -/
def replacePair (a b : Char) (new : List Char) : List Char → List Char
  | [] => []
  | [c] => [c]
  | c :: d :: rest =>
    if c = a ∧ d = b then new ++ replacePair a b new rest
    else c :: replacePair a b new (d :: rest)

/-- The template text `renderCell` hands to the evaluator. -/
def escape (value : String) : String :=
  String.mk (replacePair '}' '}' ['}', '}', '}']
    (replacePair '{' '{' ['{', '{', '{'] value.data))

/-- The cell after `renderCell(cell, ctx)`, or the error returned. -/
def renderCell (env : Env) (cell : Cell) (ctx : Ctx) : Except Err Cell :=
  match env.exec (escape cell.Value) ctx with
  | Except.error msg => Except.error (Err.collab msg)
  | Except.ok out => Except.ok { cell with Value := out }

/-- The loop of `in.ForEachCell` in `renderRow`: it stops at the first cell
that fails, leaving it and the cells after it as they were. -/
def renderCells (env : Env) (ctx : Ctx) : List Cell → List Cell × Option Err
  | [] => ([], none)
  | c :: cs =>
    match renderCell env c ctx with
    | Except.error e => (c :: cs, some e)
    | Except.ok c1 =>
      let r := renderCells env ctx cs
      (c1 :: r.1, r.2)

/-- The row after `renderRow(in, ctx)`, and the error returned. -/
def renderRow (env : Env) (row : NewRow) (ctx : Ctx) : NewRow × Option Err :=
  let r := renderCells env ctx row.cells
  ({ row with cells := r.1 }, r.2)

/-! ## The row expansion engine -/

/-- The body shared by a plain row and a list-field row whose property is not
an array: `sheet.AddRow()`, `cloneRow`, `renderRow`. -/
def renderOne (env : Env) (options : Options) (row : Row) (ctx : Ctx)
    (sheet : List NewRow) : Res :=
  match cloneRow env row options with
  | (newRow, some e) => ⟨sheet ++ [newRow], ctx, some e⟩
  | (newRow, none) =>
    match renderRow env newRow ctx with
    | (r, e) => ⟨sheet ++ [r], ctx, e⟩

/-- The loop `for i := 0; i < arr.Len(); i++` of a list-field row over the
elements still to visit.  It returns as soon as cloning or rendering fails. -/
def fanOut (env : Env) (options : Options) (row : Row) (prop : String) :
    List Value → Ctx → List NewRow → Res
  | [], ctx, sheet => ⟨sheet, ctx, none⟩
  | v :: vs, ctx, sheet =>
    match cloneRow env row options with
    | (newRow, some e) => ⟨sheet ++ [newRow], ctx, some e⟩
    | (newRow, none) =>
      match ctx.assign prop v with
      | Except.error e => ⟨sheet ++ [newRow], ctx, some e⟩
      | Except.ok ctx1 =>
        match renderRow env newRow ctx1 with
        | (r, some e) => ⟨sheet ++ [r], ctx1, some e⟩
        | (r, none) => fanOut env options row prop vs ctx1 (sheet ++ [r])

/-- The loop `for idx := range rangeCtx` of a range block: `body` is the
recursive call on the rows of the block, run under each merged context. -/
def rangeLoop (body : Ctx → List NewRow → Res) (ctx : Ctx) :
    List Ctx → List NewRow → List NewRow × Option Err
  | [], sheet => (sheet, none)
  | sub :: subs, sheet =>
    match (body (mergeCtx sub ctx) sheet).err with
    | some e => ((body (mergeCtx sub ctx) sheet).sheet, some e)
    | none => rangeLoop body ctx subs (body (mergeCtx sub ctx) sheet).sheet

/-- The engine: `renderRows(sheet, rows, ctx, options)`.  `rows` is the slice
still to scan (`rows[ri:]`); the result holds the output sheet, the caller's
context map and the error after the call. -/
def renderRows (env : Env) (options : Options) (rows : List Row) (ctx : Ctx)
    (sheet : List NewRow) : Res :=
  match rows with
  | [] => ⟨sheet, ctx, none⟩
  | row :: rest =>
    if getRangeProp row ≠ "" then
      match getRangeEndIndex rest with
      | none => ⟨sheet, ctx, some (Err.rangeNotClosed (getRangeProp row))⟩
      | some rangeEndIndex =>
        match getRangeCtx ctx (getRangeProp row) with
        | none => ⟨sheet, ctx, some (Err.invalidRangeContext (getRangeProp row))⟩
        | some rangeCtx =>
          match rangeLoop (fun c s => renderRows env options (rest.take rangeEndIndex) c s)
              ctx rangeCtx sheet with
          | (sheet1, some e) => ⟨sheet1, ctx, some e⟩
          | (sheet1, none) =>
            renderRows env options (rest.drop (rangeEndIndex + 1)) ctx sheet1
    else if getListProp row = "" then
      match renderOne env options row ctx sheet with
      | ⟨sheet1, ctx1, some e⟩ => ⟨sheet1, ctx1, some e⟩
      | ⟨sheet1, ctx1, none⟩ => renderRows env options rest ctx1 sheet1
    else
      match isArray ctx (getListProp row) with
      | Except.error e => ⟨sheet, ctx, some e⟩
      | Except.ok false =>
        match renderOne env options row ctx sheet with
        | ⟨sheet1, ctx1, some e⟩ => ⟨sheet1, ctx1, some e⟩
        | ⟨sheet1, ctx1, none⟩ => renderRows env options rest ctx1 sheet1
      | Except.ok true =>
        let arrBackup := (ctx.lookup (getListProp row)).getD Value.null
        match fanOut env options row (getListProp row) arrBackup.elems ctx sheet with
        | ⟨sheet1, ctx1, some e⟩ => ⟨sheet1, ctx1, some e⟩
        | ⟨sheet1, ctx1, none⟩ =>
          match ctx1.assign (getListProp row) arrBackup with
          | Except.error e => ⟨sheet1, ctx1, some e⟩
          | Except.ok ctx2 => renderRows env options rest ctx2 sheet1
termination_by rows.length
decreasing_by
  all_goals simp_wf
  all_goals omega

/-! ## Row classes and renderings used by the statements -/

/-- The first cell of the row matches the range-end pattern (and the sheet has
a column), the test `getRangeEndIndex` makes first. -/
def isRangeEnd (r : Row) : Bool :=
  r.MaxCol != 0 && matchString rangeEndRgx (r.GetCell 0).Value

/-- The first cell of the row matches the range-start pattern (and the sheet
has a column), the test `getRangeEndIndex` makes second. -/
def isRangeStart (r : Row) : Bool :=
  r.MaxCol != 0 && matchString rangeRgx (r.GetCell 0).Value

/-- A row the directive scanner classifies as a range start. -/
def ScannerStart (r : Row) : Prop := getRangeProp r ≠ ""

/-- A row the range matcher counts as a range start: its first cell matches
the range-start pattern and not the range-end pattern. -/
def MatcherStart (r : Row) : Prop := isRangeStart r = true ∧ isRangeEnd r = false

/-- Row lists built from rows that are neither a start nor an end and from
complete blocks `start :: body ++ [end]`, nested or side by side, for a given
notion of start row. -/
inductive WellNested (start : Row → Prop) : List Row → Prop
  | nil : WellNested start []
  | row (r : Row) (rs : List Row) : ¬ start r → isRangeEnd r = false →
      WellNested start rs → WellNested start (r :: rs)
  | block (s : Row) (body : List Row) (e : Row) (rs : List Row) : start s →
      WellNested start body → isRangeEnd e = true → WellNested start rs →
      WellNested start (s :: body ++ e :: rs)

/-- A template row with the given cell texts on a sheet as wide as the row. -/
def textRow (texts : List String) : Row :=
  ⟨texts.map (fun t => ⟨t, false, []⟩), texts.length, 0⟩

/-! ## Sample rows -/

/-- A row whose first cell opens a range on `a`. -/
def rowRangeA : Row := textRow ["{{range a}}"]

/-- A row whose first cell opens a range on `b`. -/
def rowRangeB : Row := textRow ["{{ range b }}"]

/-- A row whose first cell closes a range. -/
def rowEnd : Row := textRow ["{{end}}"]

/-- A row with no directive. -/
def rowText : Row := textRow ["total", "{{sum}}"]

/-- A row whose first cell holds a range-start directive followed by a
range-end directive. -/
def rowRangeEnd : Row := textRow ["{{range a}}{{end}}"]

/-! ## Renderings -/

/-- The report row made from template row `r` under `ctx`: the clone of `r`
with every cell rendered. -/
def rendering (env : Env) (o : Options) (r : Row) (ctx : Ctx) : NewRow :=
  (renderRow env (cloneRow env r o).1 ctx).1

/-- Cloning `r` and evaluating every cell of the clone under `ctx` succeed. -/
def RendersOk (env : Env) (o : Options) (r : Row) (ctx : Ctx) : Prop :=
  (cloneRow env r o).2 = none ∧ (renderRow env (cloneRow env r o).1 ctx).2 = none

instance (env : Env) (o : Options) (r : Row) (ctx : Ctx) : Decidable (RendersOk env o r ctx) := by
  unfold RendersOk
  infer_instance

/-- The rows a range block appends: for each sub-context in order, the
rendering of each body row under the merged context. -/
def rangeOutput (env : Env) (o : Options) (body : List Row) (ctx : Ctx) (subs : List Ctx) :
    List NewRow :=
  subs.flatMap (fun sub => body.map (fun b => rendering env o b (mergeCtx sub ctx)))

/-- What the loop body of `renderRows` does with one row that is not a range
start (lines 156 to 194 of `xlst.go`): the state after the row, before the loop
goes on to the next row. -/
def rowStep (env : Env) (o : Options) (row : Row) (ctx : Ctx) (sheet : List NewRow) : Res :=
  if getListProp row = "" then renderOne env o row ctx sheet
  else
    match isArray ctx (getListProp row) with
    | Except.error e => ⟨sheet, ctx, some e⟩
    | Except.ok false => renderOne env o row ctx sheet
    | Except.ok true =>
      match fanOut env o row (getListProp row)
          ((ctx.lookup (getListProp row)).getD Value.null).elems ctx sheet with
      | ⟨sheet1, ctx1, some e⟩ => ⟨sheet1, ctx1, some e⟩
      | ⟨sheet1, ctx1, none⟩ =>
        match ctx1.assign (getListProp row) ((ctx.lookup (getListProp row)).getD Value.null) with
        | Except.error e => ⟨sheet1, ctx1, some e⟩
        | Except.ok ctx2 => ⟨sheet1, ctx2, none⟩

/-- The scan positions of one call of `renderRows`: `Reaches env o ctx rows sheet
rows1 sheet1` when the loop, started on `rows` with the output sheet `sheet`,
arrives at the head of the loop with the rows `rows1` still to scan and the
sheet `sheet1`.  One step of the loop either passes a row that is not a range
start, processed without error, or a whole range block whose iterations all
succeed. -/
inductive Reaches (env : Env) (o : Options) (ctx : Ctx) :
    List Row → List NewRow → List Row → List NewRow → Prop
  | here (rows : List Row) (sheet : List NewRow) : Reaches env o ctx rows sheet rows sheet
  | row (r : Row) (rest : List Row) (sheet : List NewRow) (rows1 : List Row)
      (sheet1 : List NewRow) : getRangeProp r = "" →
      (rowStep env o r ctx sheet).err = none →
      Reaches env o ctx rest (rowStep env o r ctx sheet).sheet rows1 sheet1 →
      Reaches env o ctx (r :: rest) sheet rows1 sheet1
  | block (r : Row) (rest : List Row) (sheet : List NewRow) (e : Nat) (subs : List Ctx)
      (sheet2 : List NewRow) (rows1 : List Row) (sheet1 : List NewRow) :
      getRangeProp r ≠ "" → getRangeEndIndex rest = some e →
      getRangeCtx ctx (getRangeProp r) = some subs →
      rangeLoop (renderRows env o (rest.take e)) ctx subs sheet = (sheet2, none) →
      Reaches env o ctx (rest.drop (e + 1)) sheet2 rows1 sheet1 →
      Reaches env o ctx (r :: rest) sheet rows1 sheet1

/-- The property is absent from the context, or bound to a value that is not a
`[]map[string]interface{}`. -/
def NoRangeCtx (ctx : Ctx) (prop : String) : Prop :=
  ctx.lookup prop = none ∨ ∃ v, ctx.lookup prop = some v ∧ ∀ xs, v ≠ Value.maps xs

/-- An error that comes from a collaborator or from a panic, not one of the
errors the engine makes itself. -/
def Err.external : Err → Prop
  | Err.collab _ => True
  | Err.panic _ => True
  | _ => False

/-- The state `r`, reached from the empty sheet, placed after the rows `sheet`
that were there before. -/
def Res.onto (sheet : List NewRow) (r : Res) : Res :=
  ⟨sheet ++ r.sheet, r.ctx, r.err⟩

/-! ## Sample collaborators and contexts -/

/-- Collaborators that never fail: the evaluator returns the template text it
is given and the cell copy returns the cell. -/
def envId : Env := ⟨fun tpl _ => Except.ok tpl, fun c => (c, none)⟩

/-- Collaborators whose evaluator rejects the template text `\x7b\x7b\x7b`, an
expression that is opened and not closed, and returns any other text as it is. -/
def envFail : Env :=
  ⟨fun tpl _ => if tpl = "\x7b\x7b\x7b" then Except.error "parse error" else Except.ok tpl,
    fun c => (c, none)⟩

/-- The start row of a range on `employees` whose cell carries extra text. -/
def rowRangeEmployees : Row := textRow ["Name: {{range employees}}"]

/-- A body row with a placeholder and no directive. -/
def rowHello : Row := textRow ["Hello {{name}}", "x"]

/-- A context binding `employees` to a `[]map[string]interface{}` of two maps. -/
def ctxEmployees : Ctx :=
  some [("employees", Value.maps (some [some [("name", Value.str "Ann")],
    some [("name", Value.str "Bo")]])), ("title", Value.str "Staff")]

/-- A context binding `employees` to a `[]interface{}` whose one element is a
map, as `encoding/json` decodes an array of objects. -/
def ctxEmployeesIfaces : Ctx :=
  some [("employees", Value.ifaces [Value.map (some [("name", Value.str "Ann")])])]

/-- A list-field row on `xs`. -/
def rowXs : Row := textRow ["{{xs.v}}", "k"]

/-- A list-field row on `xs` whose second cell opens an expression and does not
close it. -/
def rowXsOpen : Row := textRow ["{{xs.v}}", "\x7b\x7b"]

/-- A context binding `xs` to a `[]string` of two elements. -/
def ctxXs : Ctx := some [("n", Value.int 1), ("xs", Value.arr [Value.str "a", Value.str "b"])]

/-- A list-field row on `item`. -/
def rowItem : Row := textRow ["{{item.name}}"]

/-- A context binding `item` to nil, as `encoding/json` decodes `null`. -/
def ctxItemNull : Ctx := some [("item", Value.null)]

/-- A context binding `employees` to a `[]map[string]interface{}` of two maps
and `xs` to a `[]string` of two elements. -/
def ctxStaff : Ctx :=
  some [("employees", Value.maps (some [some [("name", Value.str "Ann")],
      some [("name", Value.str "Bo")]])),
    ("xs", Value.arr [Value.str "a", Value.str "b"]), ("title", Value.str "Staff")]

/-! ## Escaping, in the words of the specification -/

/-- The text holds the character `a` immediately followed by `b`. -/
def hasPair (a b : Char) : List Char → Bool
  | [] => false
  | [_] => false
  | c :: d :: rest => (c == a && d == b) || hasPair a b (d :: rest)

/-- The specification of replacing every occurrence of `old` by `new`:
occurrences are taken left to right and do not overlap, and every other
character is kept in its place. -/
inductive Replaced (old new : List Char) : List Char → List Char → Prop
  | done : Replaced old new [] []
  | hit (rest out : List Char) : Replaced old new rest out →
      Replaced old new (old ++ rest) (new ++ out)
  | keep (c : Char) (rest out : List Char) : ¬ old <+: (c :: rest) →
      Replaced old new rest out → Replaced old new (c :: rest) (c :: out)

/-! ## Rendering a document -/

/-- The context of sheet number `i`: `getCtx(in, i)`.  The index is the
position of a sheet in the template, never negative. -/
def getCtx (payload : Value) (i : Nat) : Ctx :=
  match payload with
  | Value.map ctx => ctx
  | Value.ifaces ctxSlice =>
    if ctxSlice.length > i then
      match ctxSlice.getD i Value.null with
      | Value.map ctx => ctx
      | _ => none
    else none
  | _ => none

/-- A column description of a sheet; the engine only passes it on. -/
structure Col where
  Min : Nat
  Max : Nat
  deriving DecidableEq, Repr

/-- A sheet of the template: its name, the rows `ForEachRow` visits and its
columns. -/
structure Sheet where
  Name : String
  rows : List Row
  Cols : List Col
  deriving DecidableEq, Repr

/-- A sheet of the report. -/
structure NewSheet where
  Name : String
  rows : List NewRow
  Cols : List Col
  deriving DecidableEq, Repr

/-- What `RenderWithOptions`, `Save` and `Write` ask of the spreadsheet
library. -/
structure Doc where
  /-- the error of `report.AddSheet(name)`, given the names of the sheets the
  report already has -/
  addSheet : List String → String → Option String
  /-- the error `st.ForEachRow` returns -/
  forEachRow : Sheet → Option String
  /-- the column store after `Cols.Add(col)` -/
  addCol : List Col → Col → List Col
  /-- the error of `report.Save(path)` -/
  save : List NewSheet → String → Option String
  /-- the error of `report.Write(writer)` -/
  write : List NewSheet → Option String

/-- The rows of a sheet, or the error of `ForEachRow`: `m.getRows(st)`. -/
def getRows (doc : Doc) (st : Sheet) : Except Err (List Row) :=
  match doc.forEachRow st with
  | some msg => Except.error (Err.collab msg)
  | none => Except.ok st.rows

/-- The sheet `to` after `cloneSheet(from, to)`: each column of `from` is
added to it. -/
def cloneSheet (doc : Doc) (src : Sheet) (dst : NewSheet) : NewSheet :=
  { dst with Cols := src.Cols.foldl doc.addCol dst.Cols }

/-- The cells of a template row after `cloneRow` has run over them.  The style
`from.GetStyle()` returns is the style of the template cell itself, by
pointer, so `style.Alignment.WrapText = true` is a write to the template.
`cloneCell` makes it once the binary copy has succeeded, and `ForEachCell`
stops at the first cell whose copy fails, which is left as it was together
with the cells after it. -/
def wrapCells (env : Env) (options : Options) : List Cell → List Cell
  | [] => []
  | c :: cs =>
    match (cloneCell env c options).2 with
    | some _ => c :: cs
    | none =>
      { c with WrapText := if options.WrapTextInAllCells then true else c.WrapText } ::
        wrapCells env options cs

/-- The loop `for idx := range rangeCtx` seen from the template: the rows the
iterations clone, given the rows one run of the body clones (`body`) and the
error one run of the body returns (`err`).  The loop stops after the first
iteration that fails. -/
def clonedLoop (body : Ctx → List Nat) (err : Ctx → Option Err) (ctx : Ctx) :
    List Ctx → List Nat
  | [] => []
  | sub :: subs =>
    match err (mergeCtx sub ctx) with
    | some _ => body (mergeCtx sub ctx)
    | none => body (mergeCtx sub ctx) ++ clonedLoop body err ctx subs

/-- The template rows `renderRows(sheet, rows, ctx, options)` hands to
`cloneRow`, by their index in the template, one entry for each call in the
order of the calls: `rows` is the slice still to scan and `ri` the index of its
first row.  The rows of a range block are cloned by the iterations of the
block; a row that is not a range start is cloned once for each row the loop
body adds to the sheet, each `sheet.AddRow()` being followed by `cloneRow`; the
scan goes on to the next row when the step returned no error. -/
def clonedRows (env : Env) (options : Options) (ri : Nat) (rows : List Row) (ctx : Ctx) :
    List Nat :=
  match rows with
  | [] => []
  | row :: rest =>
    if getRangeProp row ≠ "" then
      match getRangeEndIndex rest with
      | none => []
      | some rangeEndIndex =>
        match getRangeCtx ctx (getRangeProp row) with
        | none => []
        | some rangeCtx =>
          clonedLoop (fun c => clonedRows env options (ri + 1) (rest.take rangeEndIndex) c)
              (fun c => (renderRows env options (rest.take rangeEndIndex) c []).err)
              ctx rangeCtx ++
            match (rangeLoop (fun c s => renderRows env options (rest.take rangeEndIndex) c s)
                ctx rangeCtx []).2 with
            | some _ => []
            | none =>
              clonedRows env options (ri + 1 + rangeEndIndex + 1)
                (rest.drop (rangeEndIndex + 1)) ctx
    else
      List.replicate (rowStep env options row ctx []).sheet.length ri ++
        match (rowStep env options row ctx []).err with
        | some _ => []
        | none => clonedRows env options (ri + 1) rest (rowStep env options row ctx []).ctx
termination_by rows.length
decreasing_by
  all_goals simp_wf
  all_goals omega

/-- The template rows after a call of `renderRows` that cloned the rows at the
indices `log`: `ri` is the index of the first row of the list. -/
def wrapRows (env : Env) (options : Options) (log : List Nat) : Nat → List Row → List Row
  | _, [] => []
  | ri, row :: rest =>
    (if ri ∈ log then { row with cells := wrapCells env options row.cells } else row) ::
      wrapRows env options log (ri + 1) rest

/-- The template sheet after `renderRows` has run over its rows under `ctx`. -/
def wrapSheet (env : Env) (options : Options) (sheet : Sheet) (ctx : Ctx) : Sheet :=
  { sheet with
    rows := wrapRows env options (clonedRows env options 0 sheet.rows ctx) 0 sheet.rows }

/-- The loop `for si, sheet := range m.file.Sheets` of `RenderWithOptions`
over the sheets still to render: `si` is the index of the next sheet and
`report` holds the sheets added so far.  The result holds the template sheets
as the loop leaves them, the rows that were cloned carrying the writes of
`cloneCell`, and the report or the error.  A call of `renderRows` that returns
without error returns the context map as it was given, so every sheet reads
the payload as the caller passed it. -/
def renderSheets (env : Env) (doc : Doc) (payload : Value) (options : Options) :
    List Sheet → Nat → List NewSheet → List Sheet × Except Err (List NewSheet)
  | [], _, report => ([], Except.ok report)
  | sheet :: rest, si, report =>
    let ctx := getCtx payload si
    match doc.addSheet (report.map (fun s => s.Name)) sheet.Name with
    | some msg => (sheet :: rest, Except.error (Err.collab msg))
    | none =>
      let newSheet := cloneSheet doc sheet ⟨sheet.Name, [], []⟩
      match getRows doc sheet with
      | Except.error e => (sheet :: rest, Except.error e)
      | Except.ok rows =>
        match renderRows env options rows ctx newSheet.rows with
        | ⟨_, _, some e⟩ => (wrapSheet env options sheet ctx :: rest, Except.error e)
        | ⟨sheet1, _, none⟩ =>
          let r := renderSheets env doc payload options rest (si + 1)
            (report ++ [{ newSheet with rows := sheet1,
                                        Cols := sheet.Cols.foldl doc.addCol newSheet.Cols }])
          (wrapSheet env options sheet ctx :: r.1, r.2)

set_option linter.dupNamespace false in
/-- The template struct: the template file and the stored report, each `none`
when the pointer is nil. -/
structure Xlst where
  file : Option (List Sheet)
  report : Option (List NewSheet)
  deriving DecidableEq, Repr

/-- The struct made by `New()`. -/
def New : Xlst := ⟨none, none⟩

/-- The result of `NewFromBinary(content)`, given what `xlsx.OpenBinary`
returns for the content. -/
def NewFromBinary (opened : Except String (List Sheet)) : Except Err Xlst :=
  match opened with
  | Except.error msg => Except.error (Err.collab msg)
  | Except.ok file => Except.ok ⟨some file, none⟩

/-- The struct after `m.ReadTemplate(path)` and the error returned, given what
`xlsx.OpenFile` returns for the path. -/
def ReadTemplate (m : Xlst) (opened : Except String (List Sheet)) : Xlst × Option Err :=
  match opened with
  | Except.error msg => (m, some (Err.collab msg))
  | Except.ok file => ({ m with file := some file }, none)

/-- The struct after `m.RenderWithOptions(in, options)` and the error returned
(`options` is `none` for a nil pointer).  Ranging over the sheets of a nil file
panics.  The template file is the one the loop leaves, on success and on
failure; the report is stored only when every sheet was rendered. -/
def RenderWithOptions (env : Env) (doc : Doc) (m : Xlst) (payload : Value)
    (options : Option Options) : Xlst × Option Err :=
  let options := options.getD {}
  match m.file with
  | none => (m, some (Err.panic "invalid memory address or nil pointer dereference"))
  | some sheets =>
    match renderSheets env doc payload options sheets 0 [] with
    | (file, Except.error e) => ({ m with file := some file }, some e)
    | (file, Except.ok report) => (⟨some file, some report⟩, none)

/-- The struct after `m.Render(in)` and the error returned. -/
def Render (env : Env) (doc : Doc) (m : Xlst) (payload : Value) : Xlst × Option Err :=
  RenderWithOptions env doc m payload none

/-- The error `m.Save(path)` returns. -/
def Save (doc : Doc) (m : Xlst) (path : String) : Option Err :=
  match m.report with
  | none => some Err.noReport
  | some report => (doc.save report path).map Err.collab

/-- The error `m.Write(writer)` returns. -/
def Write (doc : Doc) (m : Xlst) : Option Err :=
  match m.report with
  | none => some Err.noReport
  | some report => (doc.write report).map Err.collab

/-- A call on an `Xlst`. -/
inductive Op where
  | readTemplate (opened : Except String (List Sheet))
  | render (payload : Value) (options : Option Options)
  | save (path : String)
  | write

/-- The struct after one call. -/
def applyOp (env : Env) (doc : Doc) (m : Xlst) : Op → Xlst
  | Op.readTemplate opened => (ReadTemplate m opened).1
  | Op.render payload options => (RenderWithOptions env doc m payload options).1
  | Op.save _ => m
  | Op.write => m

/-- The struct after a sequence of calls. -/
def applyOps (env : Env) (doc : Doc) (m : Xlst) : List Op → Xlst
  | [] => m
  | op :: ops => applyOps env doc (applyOp env doc m op) ops

/-- Whether the call is a render call that returns without error. -/
def renderOk (env : Env) (doc : Doc) (m : Xlst) : Op → Bool
  | Op.render payload options => (RenderWithOptions env doc m payload options).2.isNone
  | _ => false

/-- Whether one of the render calls of the sequence returned without error. -/
def renderSucceeded (env : Env) (doc : Doc) (m : Xlst) : List Op → Bool
  | [] => false
  | op :: ops => renderOk env doc m op || renderSucceeded env doc (applyOp env doc m op) ops

/-- A library whose operations never fail. -/
def docOk : Doc :=
  ⟨fun _ _ => none, fun _ => none, fun cols col => cols ++ [col], fun _ _ => none, fun _ => none⟩

/-- A template of one sheet whose only row is a plain row. -/
def fileHello : List Sheet := [⟨"Sheet1", [rowHello], []⟩]

/-- A template of one sheet: a plain row, then the start of a range that is
never closed. -/
def fileHelloUnclosed : List Sheet := [⟨"Sheet1", [rowHello, rowRangeEmployees], []⟩]

/-- A template of one sheet whose only row opens a range that is never closed. -/
def fileUnclosed : List Sheet := [⟨"Sheet1", [rowRangeEmployees, rowHello], []⟩]

/-! ## The range matcher, in the words of the specification -/

/-- The first cell of the row matches the range-end pattern. -/
def endCell (r : Row) : Bool := matchString rangeEndRgx (r.GetCell 0).Value

/-- The first cell of the row matches the range-start pattern and not the
range-end pattern. -/
def startCell (r : Row) : Bool := matchString rangeRgx (r.GetCell 0).Value && !endCell r

/-- Row `i` is an end, and before it `nesting` more ends than starts are
missing: `nesting` plus the number of starts in `rows[0..i)` is the number of
ends in `rows[0..i)`. -/
def BalancedEnd (nesting : Nat) (rows : List Row) (i : Nat) : Prop :=
  ∃ r, rows[i]? = some r ∧ endCell r = true ∧
    nesting + (rows.take i).countP startCell = (rows.take i).countP endCell

/-! ## Context maps as references

A Go map is a reference: a function that is handed a map and writes to it writes
to the map of its caller, and a map stored in a slice or in another map is the
same map for everyone who reaches it.  In the definitions above a context is
the list of its bindings and the value the engine hands back, which is enough to
follow the writes a call makes to the map it was given.  To state which maps a
call can write to at all, the engine is read here a second time with the maps
kept in a store: a context is the address of a map, `mergeCtx` allocates the map
it makes, and `ctx[prop] = v` changes the store at the address of `ctx`. -/

namespace Mem

/-- A Go value held in an `interface{}`, a map being given by its address. -/
inductive Value where
  /-- the nil interface value -/
  | null
  | str (s : String)
  | int (n : Int)
  | bool (b : Bool)
  /-- a `map[string]interface{}`: the address of the map, `none` being the nil map -/
  | map (m : Option Nat)
  /-- a `[]map[string]interface{}`, `none` being the nil slice -/
  | maps (xs : Option (List (Option Nat)))
  /-- a `[]interface{}` -/
  | ifaces (xs : List Value)
  /-- an array or slice of any other type, given by what `Index(i).Interface()`
  returns for each index -/
  | arr (xs : List Value)

instance : Inhabited Value := ⟨Value.null⟩

/-- The bindings of a map. -/
abbrev Bindings := List (String × Value)

/-- A context: the address of a `map[string]interface{}`, `none` being the nil
map. -/
abbrev Ctx := Option Nat

/-- The maps that have been made so far, by address; `make` takes the next
address. -/
abbrev Store := List Bindings

/-- The read `m[k]` on the bindings of a map. -/
def Bindings.lookup : Bindings → String → Option Value
  | [], _ => none
  | (k, v) :: rest, key => if k = key then some v else Bindings.lookup rest key

/-- The write `m[k] = v` on the bindings of a map. -/
def Bindings.insert : Bindings → String → Value → Bindings
  | [], key, v => [(key, v)]
  | (k, w) :: rest, key, v =>
    if k = key then (k, v) :: rest else (k, w) :: Bindings.insert rest key v

/-- The context is the nil map or the address of a map of the store. -/
def Store.has (h : Store) (ctx : Ctx) : Prop :=
  match ctx with
  | none => True
  | some a => a < h.length

/-- The bindings a `for k, v := range m` loop visits; none for a nil map. -/
def Store.entries (h : Store) (ctx : Ctx) : Bindings :=
  match ctx with
  | none => []
  | some a => h.getD a []

/-- The two-valued read `val, ok := ctx[prop]`: `none` when `ok` is false. -/
def Store.lookup (h : Store) (ctx : Ctx) (prop : String) : Option Value :=
  (h.entries ctx).lookup prop

/-- The store after the write `ctx[prop] = v`; writing to a nil map panics. -/
def Store.assign (h : Store) (ctx : Ctx) (prop : String) (v : Value) : Except Err Store :=
  match ctx with
  | none => Except.error (Err.panic "assignment to entry in nil map")
  | some a => Except.ok (h.set a ((h.getD a []).insert prop v))

/-- The sub-contexts of a range, `none` when `getRangeCtx` returns nil. -/
def getRangeCtx (h : Store) (ctx : Ctx) (prop : String) : Option (List Ctx) :=
  match h.lookup ctx prop with
  | none => none
  | some (Value.maps propCtx) => propCtx
  | some _ => none

/-- One pass of `for k, v := range from { ctx[k] = v }`, the bindings being
written last to first. -/
def copyInto (src : Bindings) (ctx : Bindings) : Bindings :=
  src.foldr (fun kv acc => acc.insert kv.1 kv.2) ctx

/-- The store after `mergeCtx(local, global)` and the map returned: a map made
by `make`, holding the bindings of `global` overwritten by those of `local`. -/
def mergeCtx (h : Store) (loc glob : Ctx) : Store × Ctx :=
  (h ++ [copyInto (h.entries loc) (copyInto (h.entries glob) [])], some h.length)

/-- Whether `reflect.TypeOf(val).Kind()` is `Array` or `Slice`, for a value
that is not the nil interface. -/
def Value.isSeq : Value → Bool
  | Value.maps _ => true
  | Value.ifaces _ => true
  | Value.arr _ => true
  | _ => false

/-- The elements `arr.Index(i).Interface()` for `i < arr.Len()` of
`arr := reflect.ValueOf(val)`. -/
def Value.elems : Value → List Value
  | Value.maps (some xs) => xs.map Value.map
  | Value.ifaces xs => xs
  | Value.arr xs => xs
  | _ => []

/-- Whether the property is bound to an array or slice; `Kind` on the type of
the nil interface panics. -/
def isArray (h : Store) (ctx : Ctx) (prop : String) : Except Err Bool :=
  match h.lookup ctx prop with
  | none => Except.ok false
  | some Value.null =>
    Except.error (Err.panic "invalid memory address or nil pointer dereference")
  | some val => Except.ok val.isSeq

/-- What the engine asks of the template evaluator and of the spreadsheet
library.  The evaluator reads the context it is given, and the maps it reaches
from there, in the store. -/
structure Env where
  /-- the result of `raymond.Parse(tpl)` followed by `template.Exec(ctx)` -/
  exec : String → Store → Ctx → Except String String
  /-- the fresh cell after `from.MarshalBinary()` and `to.UnmarshalBinary(..)`,
  and the error either of them returned -/
  copy : Cell → Cell × Option String

/-- The collaborators of `cloneRow`, which copies cells and never calls the
evaluator. -/
def Env.cloner (env : Env) : Xlst.Env :=
  ⟨fun tpl _ => Except.ok tpl, env.copy⟩

/-- The state a call of the engine leaves behind: the store, the rows of the
output sheet and the error returned. -/
structure Res where
  store : Store
  sheet : List NewRow
  err : Option Err

/-- The cell after `renderCell(cell, ctx)`, or the error returned. -/
def renderCell (env : Env) (h : Store) (cell : Cell) (ctx : Ctx) : Except Err Cell :=
  match env.exec (escape cell.Value) h ctx with
  | Except.error msg => Except.error (Err.collab msg)
  | Except.ok out => Except.ok { cell with Value := out }

/-- The loop of `in.ForEachCell` in `renderRow`: it stops at the first cell
that fails. -/
def renderCells (env : Env) (h : Store) (ctx : Ctx) : List Cell → List Cell × Option Err
  | [] => ([], none)
  | c :: cs =>
    match renderCell env h c ctx with
    | Except.error e => (c :: cs, some e)
    | Except.ok c1 =>
      let r := renderCells env h ctx cs
      (c1 :: r.1, r.2)

/-- The row after `renderRow(in, ctx)`, and the error returned. -/
def renderRow (env : Env) (h : Store) (row : NewRow) (ctx : Ctx) : NewRow × Option Err :=
  let r := renderCells env h ctx row.cells
  ({ row with cells := r.1 }, r.2)

/-- The body shared by a plain row and a list-field row whose property is not
an array: `sheet.AddRow()`, `cloneRow`, `renderRow`. -/
def renderOne (env : Env) (options : Options) (row : Row) (h : Store) (ctx : Ctx)
    (sheet : List NewRow) : Res :=
  match cloneRow env.cloner row options with
  | (newRow, some e) => ⟨h, sheet ++ [newRow], some e⟩
  | (newRow, none) =>
    match renderRow env h newRow ctx with
    | (r, e) => ⟨h, sheet ++ [r], e⟩

/-- The loop `for i := 0; i < arr.Len(); i++` of a list-field row over the
elements still to visit; `ctx[prop] = arr.Index(i).Interface()` is a write to
the store. -/
def fanOut (env : Env) (options : Options) (row : Row) (prop : String) (ctx : Ctx) :
    List Value → Store → List NewRow → Res
  | [], h, sheet => ⟨h, sheet, none⟩
  | v :: vs, h, sheet =>
    match cloneRow env.cloner row options with
    | (newRow, some e) => ⟨h, sheet ++ [newRow], some e⟩
    | (newRow, none) =>
      match h.assign ctx prop v with
      | Except.error e => ⟨h, sheet ++ [newRow], some e⟩
      | Except.ok h1 =>
        match renderRow env h1 newRow ctx with
        | (r, some e) => ⟨h1, sheet ++ [r], some e⟩
        | (r, none) => fanOut env options row prop ctx vs h1 (sheet ++ [r])

/-- The loop `for idx := range rangeCtx` of a range block: each iteration makes
the merged map and runs `body`, the recursive call on the rows of the block, on
it. -/
def rangeLoop (body : Store → Ctx → List NewRow → Res) (ctx : Ctx) :
    List Ctx → Store → List NewRow → Res
  | [], h, sheet => ⟨h, sheet, none⟩
  | sub :: subs, h, sheet =>
    match body (mergeCtx h sub ctx).1 (mergeCtx h sub ctx).2 sheet with
    | ⟨h1, sheet1, some e⟩ => ⟨h1, sheet1, some e⟩
    | ⟨h1, sheet1, none⟩ => rangeLoop body ctx subs h1 sheet1

/-- The engine: `renderRows(sheet, rows, ctx, options)` on the store `h`. -/
def renderRows (env : Env) (options : Options) (rows : List Row) (h : Store) (ctx : Ctx)
    (sheet : List NewRow) : Res :=
  match rows with
  | [] => ⟨h, sheet, none⟩
  | row :: rest =>
    if getRangeProp row ≠ "" then
      match getRangeEndIndex rest with
      | none => ⟨h, sheet, some (Err.rangeNotClosed (getRangeProp row))⟩
      | some rangeEndIndex =>
        match getRangeCtx h ctx (getRangeProp row) with
        | none => ⟨h, sheet, some (Err.invalidRangeContext (getRangeProp row))⟩
        | some rangeCtx =>
          match rangeLoop
              (fun h1 c s => renderRows env options (rest.take rangeEndIndex) h1 c s)
              ctx rangeCtx h sheet with
          | ⟨h1, sheet1, some e⟩ => ⟨h1, sheet1, some e⟩
          | ⟨h1, sheet1, none⟩ =>
            renderRows env options (rest.drop (rangeEndIndex + 1)) h1 ctx sheet1
    else if getListProp row = "" then
      match renderOne env options row h ctx sheet with
      | ⟨h1, sheet1, some e⟩ => ⟨h1, sheet1, some e⟩
      | ⟨h1, sheet1, none⟩ => renderRows env options rest h1 ctx sheet1
    else
      match isArray h ctx (getListProp row) with
      | Except.error e => ⟨h, sheet, some e⟩
      | Except.ok false =>
        match renderOne env options row h ctx sheet with
        | ⟨h1, sheet1, some e⟩ => ⟨h1, sheet1, some e⟩
        | ⟨h1, sheet1, none⟩ => renderRows env options rest h1 ctx sheet1
      | Except.ok true =>
        let arrBackup := (h.lookup ctx (getListProp row)).getD Value.null
        match fanOut env options row (getListProp row) ctx arrBackup.elems h sheet with
        | ⟨h1, sheet1, some e⟩ => ⟨h1, sheet1, some e⟩
        | ⟨h1, sheet1, none⟩ =>
          match h1.assign ctx (getListProp row) arrBackup with
          | Except.error e => ⟨h1, sheet1, some e⟩
          | Except.ok h2 => renderRows env options rest h2 ctx sheet1
termination_by rows.length
decreasing_by
  all_goals simp_wf
  all_goals omega

/-- Collaborators whose evaluator rejects the template text `\x7b\x7b\x7b` and
returns any other text as it is, and whose cell copy returns the cell. -/
def envFail : Env :=
  ⟨fun tpl _ _ => if tpl = "\x7b\x7b\x7b" then Except.error "parse error" else Except.ok tpl,
    fun c => (c, none)⟩

/-- A store of three maps: at address 0 a context binding `employees` to the
slice of the maps at addresses 1 and 2, and `xs` to a `[]string`. -/
def storeStaff : Store :=
  [[("employees", Value.maps (some [some 1, some 2])),
      ("xs", Value.arr [Value.str "a", Value.str "b"]), ("title", Value.str "Staff")],
    [("name", Value.str "Ann")],
    [("name", Value.str "Bo")]]

/-- Collaborators whose evaluator returns the string bound to `name` in the
context it is given, followed by `+x` when `x` is bound there too, and whose
cell copy returns the cell. -/
def envName : Env :=
  ⟨fun _ h ctx =>
      Except.ok ((match h.lookup ctx "name" with
        | some (Value.str s) => s
        | _ => "") ++ (if (h.lookup ctx "x").isSome then "+x" else "")),
    fun c => (c, none)⟩

/-- A store of two maps: at address 0 an outer context binding `name` to `A`,
`x` to 1 and `a` to the slice of the map at address 1, which binds `name` to
`B`. -/
def storeOuter : Store :=
  [[("name", Value.str "A"), ("x", Value.int 1), ("a", Value.maps (some [some 1]))],
    [("name", Value.str "B")]]

end Mem

/-! ## Lemmas on contexts -/

theorem Bindings.lookup_insert (m : Bindings) (k k2 : String) (v : Value) :
    (m.insert k v).lookup k2 = if k = k2 then some v else m.lookup k2 := by
  induction m with
  | nil => simp [Bindings.insert, Bindings.lookup]
  | cons kv rest ih =>
    obtain ⟨k0, w⟩ := kv
    by_cases h : k0 = k
    · subst h
      by_cases h2 : k0 = k2 <;> simp [Bindings.insert, Bindings.lookup, h2]
    · by_cases h2 : k0 = k2
      · subst h2
        have : ¬ k = k0 := fun e => h e.symm
        simp [Bindings.insert, Bindings.lookup, h, this]
      · simp [Bindings.insert, Bindings.lookup, h, h2, ih]

theorem Bindings.insert_insert (m : Bindings) (k : String) (v w : Value) :
    (m.insert k v).insert k w = m.insert k w := by
  induction m with
  | nil => simp [Bindings.insert]
  | cons kv rest ih =>
    obtain ⟨k0, u⟩ := kv
    by_cases h : k0 = k
    · simp [Bindings.insert, h]
    · simp [Bindings.insert, h, ih]

theorem Bindings.insert_of_lookup (m : Bindings) (k : String) (v : Value)
    (h : m.lookup k = some v) : m.insert k v = m := by
  induction m with
  | nil => simp [Bindings.lookup] at h
  | cons kv rest ih =>
    obtain ⟨k0, u⟩ := kv
    by_cases h0 : k0 = k
    · simp [Bindings.lookup, h0] at h
      simp [Bindings.insert, h0, h]
    · simp [Bindings.lookup, h0] at h
      simp [Bindings.insert, h0, ih h]

theorem lookup_copyInto (src ctx : Bindings) (k : String) :
    (copyInto src ctx).lookup k =
      match src.lookup k with
      | some v => some v
      | none => ctx.lookup k := by
  induction src with
  | nil => simp [copyInto, Bindings.lookup]
  | cons kv rest ih =>
    obtain ⟨k0, u⟩ := kv
    have hstep : copyInto ((k0, u) :: rest) ctx = (copyInto rest ctx).insert k0 u := rfl
    rw [hstep, Bindings.lookup_insert]
    by_cases h : k0 = k
    · simp [Bindings.lookup, h]
    · simp [Bindings.lookup, h, ih]

theorem Ctx.lookup_entries (c : Ctx) (k : String) : Bindings.lookup c.entries k = c.lookup k := by
  cases c <;> simp [Ctx.entries, Ctx.lookup, Bindings.lookup]

/-- C3 (context merge rule): `mergeCtx(local, global)` binds a key to the value
`local` gives it, otherwise to the value `global` gives it, and has no binding for a
key of neither; with global `name: "A", x: 1` and local `name: "B"` the merged context
has `name = "B"` and `x = 1`. -/
theorem mergeCtx_lookup (loc glob : Ctx) (k : String) :
    (mergeCtx loc glob).lookup k =
        (match loc.lookup k with
        | some v => some v
        | none => glob.lookup k) ∧
      ((mergeCtx (some [("name", Value.str "B")])
          (some [("name", Value.str "A"), ("x", Value.int 1)])).lookup "name" = some (Value.str "B") ∧
       (mergeCtx (some [("name", Value.str "B")])
          (some [("name", Value.str "A"), ("x", Value.int 1)])).lookup "x" = some (Value.int 1)) := by
  refine ⟨?_, by rfl, by rfl⟩
  show Bindings.lookup (copyInto loc.entries (copyInto glob.entries [])) k = _
  rw [lookup_copyInto, lookup_copyInto, Ctx.lookup_entries, Ctx.lookup_entries]
  cases loc.lookup k <;> cases glob.lookup k <;> simp [Bindings.lookup]

/-! ## Lemmas on the patterns -/

theorem matchStar_nocap (p : Char → Bool) (k : List Char → Option (List Char)) (s g : List Char)
    (h : matchStar p false k s = some g) : ∃ s2, k s2 = some g := by
  induction s with
  | nil => exact ⟨[], by simpa [matchStar] using h⟩
  | cons c cs ih =>
    rw [matchStar] at h
    by_cases hp : p c = true
    · rw [if_pos hp] at h
      cases hm : matchStar p false k cs with
      | none => rw [hm] at h; exact ⟨c :: cs, h⟩
      | some g2 =>
        rw [hm] at h
        simp only [keep, Option.some.injEq] at h
        simp at h
        subst h
        exact ih hm
    · rw [if_neg hp] at h
      exact ⟨c :: cs, h⟩

theorem matchAt_nocap (a : Atom) (as : List Atom) (s g : List Char) (ha : a.cap = false)
    (h : matchAt (a :: as) s = some g) : ∃ s2, matchAt as s2 = some g := by
  rw [matchAt] at h
  unfold matchAtom at h
  cases hr : a.rep with
  | one =>
    rw [hr] at h
    cases s with
    | nil => simp at h
    | cons c cs =>
      by_cases hc : a.cls c = true
      · simp [hc, ha, keep] at h
        exact ⟨cs, h⟩
      · simp [hc] at h
  | star =>
    rw [hr, ha] at h
    exact matchStar_nocap _ _ _ _ h
  | plus =>
    rw [hr] at h
    cases s with
    | nil => simp at h
    | cons c cs =>
      by_cases hc : a.cls c = true
      · simp [hc, ha, keep] at h
        exact matchStar_nocap _ _ _ _ h
      · simp [hc] at h

theorem matchAt_nocap_append (pre as : List Atom) (hpre : ∀ a ∈ pre, a.cap = false)
    (s g : List Char) (h : matchAt (pre ++ as) s = some g) : ∃ s2, matchAt as s2 = some g := by
  induction pre generalizing s with
  | nil => exact ⟨s, h⟩
  | cons a pre ih =>
    obtain ⟨s1, h1⟩ := matchAt_nocap a (pre ++ as) s g (hpre a (List.mem_cons_self _ _)) h
    exact ih (fun b hb => hpre b (List.mem_cons_of_mem _ hb)) s1 h1

theorem matchAt_plus_cap (cls : Char → Bool) (as : List Atom) (s g : List Char)
    (h : matchAt (⟨cls, Rep.plus, true⟩ :: as) s = some g) : g ≠ [] := by
  rw [matchAt] at h
  unfold matchAtom at h
  simp only at h
  cases s with
  | nil => simp at h
  | cons c cs =>
    by_cases hc : cls c = true
    · simp [hc, keep] at h
      obtain ⟨g2, _, rfl⟩ := h
      simp
    · simp [hc] at h

theorem matchAt_rangeRgx_ne_nil (s g : List Char) (h : matchAt rangeRgx s = some g) : g ≠ [] := by
  have hsplit : rangeRgx =
      (openBraces ++ [lit 'r', lit 'a', lit 'n', lit 'g', lit 'e', ⟨isSpace, Rep.plus, false⟩]) ++
        (⟨isWord, Rep.plus, true⟩ :: closeBraces) := by
    simp [rangeRgx]
  rw [hsplit] at h
  obtain ⟨s2, h2⟩ := matchAt_nocap_append _ _ (by simp [openBraces, lit]) s g h
  exact matchAt_plus_cap _ _ _ _ h2

theorem findFirst_rangeRgx_ne_nil (s g : List Char) (h : findFirst rangeRgx s = some g) :
    g ≠ [] := by
  induction s with
  | nil => exact matchAt_rangeRgx_ne_nil [] g (by simpa [findFirst] using h)
  | cons c cs ih =>
    rw [findFirst] at h
    cases hm : matchAt rangeRgx (c :: cs) with
    | none => rw [hm] at h; exact ih h
    | some g2 =>
      rw [hm] at h
      simp at h
      subst h
      exact matchAt_rangeRgx_ne_nil _ _ hm

/-- The scanner names a range property exactly on the rows whose first cell
matches the range-start pattern. -/
theorem getRangeProp_ne_empty_iff (r : Row) : getRangeProp r ≠ "" ↔ isRangeStart r = true := by
  unfold getRangeProp isRangeStart matchString firstSubmatch
  by_cases hc : r.MaxCol = 0
  · simp [hc]
  · cases hf : findFirst rangeRgx (r.GetCell 0).Value.data with
    | none => simp [hc]
    | some g =>
      have hg := findFirst_rangeRgx_ne_nil _ _ hf
      simp [hc]
      intro h
      apply hg
      have := congrArg String.data h
      simpa using this

theorem getRangeProp_eq_empty_iff (r : Row) : getRangeProp r = "" ↔ isRangeStart r = false := by
  have := getRangeProp_ne_empty_iff r
  constructor
  · intro h
    cases hs : isRangeStart r with
    | false => rfl
    | true => exact absurd h (this.mpr hs)
  · intro h
    by_contra hne
    have := this.mp hne
    rw [h] at this
    exact Bool.noConfusion this

/-! ## Lemmas on the range matcher -/

theorem getRangeEndIndexFrom_end (r : Row) (rs : List Row) (n i : Nat) (h : isRangeEnd r = true) :
    getRangeEndIndexFrom (r :: rs) n i =
      if n = 0 then some i else getRangeEndIndexFrom rs (n - 1) (i + 1) := by
  simp only [isRangeEnd, Bool.and_eq_true, bne_iff_ne, ne_eq] at h
  rw [getRangeEndIndexFrom, if_neg h.1, if_pos h.2]

theorem getRangeEndIndexFrom_start (r : Row) (rs : List Row) (n i : Nat) (h : MatcherStart r) :
    getRangeEndIndexFrom (r :: rs) n i = getRangeEndIndexFrom rs (n + 1) (i + 1) := by
  obtain ⟨hs, he⟩ := h
  simp only [isRangeStart, Bool.and_eq_true, bne_iff_ne, ne_eq] at hs
  have he2 : matchString rangeEndRgx (r.GetCell 0).Value = false := by
    simp only [isRangeEnd, Bool.and_eq_false_iff, bne_eq_false_iff_eq] at he
    rcases he with he | he
    · exact absurd he hs.1
    · exact he
  rw [getRangeEndIndexFrom, if_neg hs.1, if_neg (by simp [he2]), if_pos hs.2]

theorem getRangeEndIndexFrom_other (r : Row) (rs : List Row) (n i : Nat)
    (hs : isRangeStart r = false) (he : isRangeEnd r = false) :
    getRangeEndIndexFrom (r :: rs) n i = getRangeEndIndexFrom rs n (i + 1) := by
  rw [getRangeEndIndexFrom]
  by_cases hc : r.MaxCol = 0
  · rw [if_pos hc]
  · have he2 : matchString rangeEndRgx (r.GetCell 0).Value = false := by
      simpa [isRangeEnd, hc] using he
    have hs2 : matchString rangeRgx (r.GetCell 0).Value = false := by
      simpa [isRangeStart, hc] using hs
    rw [if_neg hc, if_neg (by simp [he2]), if_neg (by simp [hs2])]

/-- The matcher walks over a well nested prefix without changing its nesting
counter. -/
theorem getRangeEndIndexFrom_wellNested (body : List Row) (h : WellNested MatcherStart body) :
    ∀ (rest : List Row) (n i : Nat),
      getRangeEndIndexFrom (body ++ rest) n i = getRangeEndIndexFrom rest n (i + body.length) := by
  induction h with
  | nil => intro rest n i; simp
  | row r rs hs he _ ih =>
    intro rest n i
    have hs2 : isRangeStart r = false := by
      cases hb : isRangeStart r with
      | false => rfl
      | true => exact absurd ⟨hb, he⟩ hs
    rw [List.cons_append, getRangeEndIndexFrom_other r _ n i hs2 he, ih]
    simp only [List.length_cons]
    congr 1
    omega
  | block s body e rs hs _ he _ ihb ihr =>
    intro rest n i
    have hl : (s :: body ++ e :: rs) ++ rest = s :: (body ++ (e :: (rs ++ rest))) := by simp
    rw [hl, getRangeEndIndexFrom_start s _ n i hs, ihb, getRangeEndIndexFrom_end e _ _ _ he,
      if_neg (by omega), ihr]
    simp only [List.length_cons, List.length_append, Nat.add_sub_cancel]
    congr 1
    omega

theorem getRangeEndIndex_wellNested (body : List Row) (e : Row) (rest : List Row)
    (h : WellNested MatcherStart body) (he : isRangeEnd e = true) :
    getRangeEndIndex (body ++ e :: rest) = some body.length := by
  unfold getRangeEndIndex
  rw [getRangeEndIndexFrom_wellNested body h, getRangeEndIndexFrom_end e rest 0 _ he]
  simp

theorem getRangeEndIndexFrom_append (l l2 : List Row) (n i j : Nat)
    (h : getRangeEndIndexFrom l n i = some j) : getRangeEndIndexFrom (l ++ l2) n i = some j := by
  induction l generalizing n i with
  | nil => simp [getRangeEndIndexFrom] at h
  | cons r rs ih =>
    rw [getRangeEndIndexFrom] at h
    rw [List.cons_append, getRangeEndIndexFrom]
    by_cases hc : r.MaxCol = 0
    · rw [if_pos hc] at h ⊢
      exact ih _ _ h
    · rw [if_neg hc] at h ⊢
      by_cases he : matchString rangeEndRgx (r.GetCell 0).Value = true
      · rw [if_pos he] at h ⊢
        by_cases hn : n = 0
        · rw [if_pos hn] at h ⊢
          exact h
        · rw [if_neg hn] at h ⊢
          exact ih _ _ h
      · rw [if_neg he] at h ⊢
        by_cases hs : matchString rangeRgx (r.GetCell 0).Value = true
        · rw [if_pos hs] at h ⊢
          exact ih _ _ h
        · rw [if_neg hs] at h ⊢
          exact ih _ _ h

theorem getRangeEndIndex_append (l l2 : List Row) (j : Nat) (h : getRangeEndIndex l = some j) :
    getRangeEndIndex (l ++ l2) = some j :=
  getRangeEndIndexFrom_append l l2 0 0 j h

theorem wellNested_of_plain (body : List Row)
    (h : ∀ b ∈ body, getRangeProp b = "" ∧ isRangeEnd b = false) : WellNested MatcherStart body := by
  induction body with
  | nil => exact WellNested.nil
  | cons b bs ih =>
    have hb := h b (List.mem_cons_self _ _)
    refine WellNested.row b bs ?_ hb.2 (ih (fun c hc => h c (List.mem_cons_of_mem _ hc)))
    intro hm
    have := (getRangeProp_eq_empty_iff b).mp hb.1
    rw [hm.1] at this
    exact Bool.noConfusion this

/-! ## C2: the range matcher on well nested rows -/

/-- C2 (as amended): for every row list `body ++ [e] ++ rest` in which `e` is a
range-end row and `body` is well nested, a row counting as a range start when its first
cell matches the range-start pattern and not the range-end pattern, `getRangeEndIndex`
returns `len(body)`, the index of `e`. -/
theorem getRangeEndIndex_matching_end (body : List Row) (e : Row) (rest : List Row)
    (h : WellNested MatcherStart body) (he : isRangeEnd e = true) :
    getRangeEndIndex (body ++ [e] ++ rest) = some body.length := by
  rw [List.append_assoc]
  exact getRangeEndIndex_wellNested body e rest h he

/-- C2, witness: a body holding a range nested in a range, a plain row and a sibling
range; the matching end is at index 7. -/
theorem getRangeEndIndex_matching_end_witness :
    WellNested MatcherStart
        [rowRangeA, rowText, rowRangeB, rowText, rowEnd, rowEnd, rowText] ∧
      isRangeEnd rowEnd = true ∧
      getRangeEndIndex
        ([rowRangeA, rowText, rowRangeB, rowText, rowEnd, rowEnd, rowText] ++ [rowEnd] ++
          [rowText, rowEnd]) = some 7 :=
  have hA : MatcherStart rowRangeA := ⟨by decide, by decide⟩
  have hB : MatcherStart rowRangeB := ⟨by decide, by decide⟩
  have hT : ¬ MatcherStart rowText := fun h => absurd h.1 (by decide)
  have hwn : WellNested MatcherStart
      [rowRangeA, rowText, rowRangeB, rowText, rowEnd, rowEnd, rowText] :=
    WellNested.block rowRangeA [rowText, rowRangeB, rowText, rowEnd] rowEnd [rowText] hA
      (WellNested.row rowText _ hT (by decide)
        (WellNested.block rowRangeB [rowText] rowEnd [] hB
          (WellNested.row rowText _ hT (by decide) WellNested.nil) (by decide) WellNested.nil))
      (by decide) (WellNested.row rowText _ hT (by decide) WellNested.nil)
  ⟨hwn, by decide, getRangeEndIndex_matching_end _ rowEnd [rowText, rowEnd] hwn (by decide)⟩

/-- C2, counterexample: the scanner classifies a row with first cell
`{{range a}}{{end}}` as a range start, so `[that row, end row]` is a complete block;
followed by an end row `e`, the matcher returns index 0 and not the index 2 of `e`. -/
theorem getRangeEndIndex_scanner_start_counterexample :
    WellNested ScannerStart [rowRangeEnd, rowEnd] ∧ isRangeEnd rowEnd = true ∧
      getRangeEndIndex ([rowRangeEnd, rowEnd] ++ [rowEnd] ++ []) = some 0 ∧
      getRangeEndIndex ([rowRangeEnd, rowEnd] ++ [rowEnd] ++ []) ≠
        some [rowRangeEnd, rowEnd].length :=
  ⟨WellNested.block rowRangeEnd [] rowEnd []
      (show getRangeProp rowRangeEnd ≠ "" by decide) WellNested.nil (by decide)
      WellNested.nil,
    by decide, by decide, by decide⟩

/-! ## Lemmas on the engine -/

theorem renderRows_nil (env : Env) (o : Options) (ctx : Ctx) (sheet : List NewRow) :
    renderRows env o [] ctx sheet = ⟨sheet, ctx, none⟩ := by
  rw [renderRows]

theorem renderRows_notClosed (env : Env) (o : Options) (row : Row) (rest : List Row)
    (ctx : Ctx) (sheet : List NewRow) (h : getRangeProp row ≠ "")
    (he : getRangeEndIndex rest = none) :
    renderRows env o (row :: rest) ctx sheet =
      ⟨sheet, ctx, some (Err.rangeNotClosed (getRangeProp row))⟩ := by
  rw [renderRows, if_pos h, he]

theorem renderRows_invalidCtx (env : Env) (o : Options) (row : Row) (rest : List Row)
    (ctx : Ctx) (sheet : List NewRow) (e : Nat) (h : getRangeProp row ≠ "")
    (he : getRangeEndIndex rest = some e) (hc : getRangeCtx ctx (getRangeProp row) = none) :
    renderRows env o (row :: rest) ctx sheet =
      ⟨sheet, ctx, some (Err.invalidRangeContext (getRangeProp row))⟩ := by
  rw [renderRows, if_pos h, he, hc]

theorem renderRows_range (env : Env) (o : Options) (row : Row) (rest : List Row) (ctx : Ctx)
    (sheet : List NewRow) (e : Nat) (subs : List Ctx) (h : getRangeProp row ≠ "")
    (he : getRangeEndIndex rest = some e)
    (hc : getRangeCtx ctx (getRangeProp row) = some subs) :
    renderRows env o (row :: rest) ctx sheet =
      match rangeLoop (renderRows env o (rest.take e)) ctx subs sheet with
      | (sheet1, some err) => ⟨sheet1, ctx, some err⟩
      | (sheet1, none) => renderRows env o (rest.drop (e + 1)) ctx sheet1 := by
  rw [renderRows, if_pos h, he, hc]

theorem renderRows_plain (env : Env) (o : Options) (row : Row) (rest : List Row) (ctx : Ctx)
    (sheet : List NewRow) (h : getRangeProp row = "") (hl : getListProp row = "") :
    renderRows env o (row :: rest) ctx sheet =
      match renderOne env o row ctx sheet with
      | ⟨sheet1, ctx1, some e⟩ => ⟨sheet1, ctx1, some e⟩
      | ⟨sheet1, ctx1, none⟩ => renderRows env o rest ctx1 sheet1 := by
  rw [renderRows, if_neg (by simpa using h), if_pos hl]

theorem renderRows_isArray_error (env : Env) (o : Options) (row : Row) (rest : List Row)
    (ctx : Ctx) (sheet : List NewRow) (e : Err) (h : getRangeProp row = "")
    (hl : getListProp row ≠ "") (ha : isArray ctx (getListProp row) = Except.error e) :
    renderRows env o (row :: rest) ctx sheet = ⟨sheet, ctx, some e⟩ := by
  rw [renderRows, if_neg (by simpa using h), if_neg hl, ha]

theorem renderRows_fallback (env : Env) (o : Options) (row : Row) (rest : List Row)
    (ctx : Ctx) (sheet : List NewRow) (h : getRangeProp row = "") (hl : getListProp row ≠ "")
    (ha : isArray ctx (getListProp row) = Except.ok false) :
    renderRows env o (row :: rest) ctx sheet =
      match renderOne env o row ctx sheet with
      | ⟨sheet1, ctx1, some e⟩ => ⟨sheet1, ctx1, some e⟩
      | ⟨sheet1, ctx1, none⟩ => renderRows env o rest ctx1 sheet1 := by
  rw [renderRows, if_neg (by simpa using h), if_neg hl, ha]

theorem renderRows_array (env : Env) (o : Options) (row : Row) (rest : List Row)
    (ctx : Ctx) (sheet : List NewRow) (h : getRangeProp row = "") (hl : getListProp row ≠ "")
    (ha : isArray ctx (getListProp row) = Except.ok true) :
    renderRows env o (row :: rest) ctx sheet =
      match fanOut env o row (getListProp row)
          ((ctx.lookup (getListProp row)).getD Value.null).elems ctx sheet with
      | ⟨sheet1, ctx1, some e⟩ => ⟨sheet1, ctx1, some e⟩
      | ⟨sheet1, ctx1, none⟩ =>
        match ctx1.assign (getListProp row) ((ctx.lookup (getListProp row)).getD Value.null) with
        | Except.error e => ⟨sheet1, ctx1, some e⟩
        | Except.ok ctx2 => renderRows env o rest ctx2 sheet1 := by
  rw [renderRows, if_neg (by simpa using h), if_neg hl, ha]

theorem renderOne_ctx (env : Env) (o : Options) (row : Row) (ctx : Ctx) (sheet : List NewRow) :
    (renderOne env o row ctx sheet).ctx = ctx := by
  unfold renderOne
  rcases hc : cloneRow env row o with ⟨newRow, _ | e⟩ <;> simp

theorem renderOne_ok (env : Env) (o : Options) (row : Row) (ctx : Ctx) (sheet : List NewRow)
    (h : RendersOk env o row ctx) :
    renderOne env o row ctx sheet = ⟨sheet ++ [rendering env o row ctx], ctx, none⟩ := by
  obtain ⟨h1, h2⟩ := h
  unfold renderOne rendering
  rcases hc : cloneRow env row o with ⟨newRow, _ | e⟩
  · rw [hc] at h2
    simp only at h2 ⊢
    rw [h2]
  · rw [hc] at h1
    simp at h1

theorem isArray_of_seq (m : Bindings) (prop : String) (val : Value)
    (h : m.lookup prop = some val) (hs : val.isSeq = true) :
    isArray (some m) prop = Except.ok true := by
  unfold isArray Ctx.lookup
  simp only [h]
  cases val <;> simp_all [Value.isSeq]

theorem isArray_true_lookup (ctx : Ctx) (prop : String) (h : isArray ctx prop = Except.ok true) :
    ∃ m val, ctx = some m ∧ m.lookup prop = some val ∧ val.isSeq = true := by
  cases ctx with
  | none => simp [isArray, Ctx.lookup] at h
  | some m =>
    unfold isArray Ctx.lookup at h
    cases hl : m.lookup prop with
    | none => simp [hl] at h
    | some val =>
      refine ⟨m, val, rfl, hl, ?_⟩
      simp only [hl] at h
      cases val <;> simp_all [Value.isSeq]

theorem renderRows_plain_all (env : Env) (o : Options) (ctx : Ctx) (body : List Row) :
    ∀ (sheet : List NewRow),
      (∀ b ∈ body, getRangeProp b = "" ∧ getListProp b = "" ∧ RendersOk env o b ctx) →
      renderRows env o body ctx sheet =
        ⟨sheet ++ body.map (fun b => rendering env o b ctx), ctx, none⟩ := by
  induction body with
  | nil => intro sheet _; simp [renderRows_nil]
  | cons b bs ih =>
    intro sheet h
    obtain ⟨h1, h2, h3⟩ := h b (List.mem_cons_self _ _)
    rw [renderRows_plain env o b bs ctx sheet h1 h2, renderOne_ok env o b ctx sheet h3]
    simp only
    rw [ih _ (fun c hc => h c (List.mem_cons_of_mem _ hc))]
    simp

theorem rangeLoop_plain (env : Env) (o : Options) (ctx : Ctx) (body : List Row)
    (subs : List Ctx) :
    ∀ (sheet : List NewRow),
      (∀ b ∈ body, getRangeProp b = "" ∧ getListProp b = "") →
      (∀ sub ∈ subs, ∀ b ∈ body, RendersOk env o b (mergeCtx sub ctx)) →
      rangeLoop (renderRows env o body) ctx subs sheet =
        (sheet ++ rangeOutput env o body ctx subs, none) := by
  induction subs with
  | nil => intro sheet _ _; simp [rangeLoop, rangeOutput]
  | cons sub subs ih =>
    intro sheet hb hok
    have hstep := renderRows_plain_all env o (mergeCtx sub ctx) body sheet
      (fun b hbm => ⟨(hb b hbm).1, (hb b hbm).2, hok sub (List.mem_cons_self _ _) b hbm⟩)
    rw [rangeLoop, hstep]
    simp only
    rw [ih _ hb (fun s hs => hok s (List.mem_cons_of_mem _ hs))]
    simp [rangeOutput, List.flatMap_cons]

theorem rangeOutput_length (env : Env) (o : Options) (body : List Row) (ctx : Ctx)
    (subs : List Ctx) : (rangeOutput env o body ctx subs).length = subs.length * body.length := by
  induction subs with
  | nil => simp [rangeOutput]
  | cons sub subs ih =>
    have : rangeOutput env o body ctx (sub :: subs) =
        body.map (fun b => rendering env o b (mergeCtx sub ctx)) ++
          rangeOutput env o body ctx subs := by
      simp [rangeOutput, List.flatMap_cons]
    rw [this, List.length_append, ih, List.length_map, List.length_cons]
    ring

theorem rangeOutput_getElem? (env : Env) (o : Options) (body : List Row) (ctx : Ctx)
    (subs : List Ctx) :
    ∀ (j i : Nat) (sub : Ctx) (b : Row), subs[j]? = some sub → body[i]? = some b →
      (rangeOutput env o body ctx subs)[j * body.length + i]? =
        some (rendering env o b (mergeCtx sub ctx)) := by
  induction subs with
  | nil => intro j i sub b hj; simp at hj
  | cons s0 subs ih =>
    intro j i sub b hj hi
    have hcons : rangeOutput env o body ctx (s0 :: subs) =
        body.map (fun b => rendering env o b (mergeCtx s0 ctx)) ++
          rangeOutput env o body ctx subs := by
      simp [rangeOutput, List.flatMap_cons]
    have hil : i < body.length := by
      by_contra hlt
      rw [List.getElem?_eq_none (by omega)] at hi
      exact Option.noConfusion hi
    rw [hcons]
    cases j with
    | zero =>
      simp only [List.getElem?_cons_zero, Option.some.injEq] at hj
      subst hj
      rw [Nat.zero_mul, Nat.zero_add, List.getElem?_append_left (by simpa using hil),
        List.getElem?_map, hi]
      rfl
    | succ j =>
      simp only [List.getElem?_cons_succ] at hj
      rw [List.getElem?_append_right (by simp; nlinarith)]
      have : (j + 1) * body.length + i -
          (body.map (fun b => rendering env o b (mergeCtx s0 ctx))).length =
          j * body.length + i := by
        rw [List.length_map, Nat.add_mul]
        omega
      rw [this]
      exact ih j i sub b hj hi

theorem getRangeCtx_of_maps (ctx : Ctx) (prop : String) (subs : List Ctx)
    (h : ctx.lookup prop = some (Value.maps (some subs))) : getRangeCtx ctx prop = some subs := by
  simp [getRangeCtx, h]

/-! ## C1: range cardinality -/

/-- C1 (as amended): when `P` is bound to a non-nil `[]map[string]interface{}` of `N`
mappings, the body has `k` rows without range-start, range-end or list-field directive,
and cloning and every evaluation succeed, `renderRows` on
`[range-start P] ++ body ++ [range-end]` succeeds and appends exactly `N * k` rows, row
`j * k + i` being the rendering of `body[i]` under `mergeCtx(s_j, ctx)`; neither marker
row gives an output row, whatever other text the start cell carries. -/
theorem renderRows_range_cardinality (env : Env) (o : Options) (ctx : Ctx) (P : String)
    (subs : List Ctx) (s e : Row) (body : List Row) (sheet : List NewRow)
    (hs : getRangeProp s = P) (hP : P ≠ "") (he : isRangeEnd e = true)
    (hbody : ∀ b ∈ body, getRangeProp b = "" ∧ isRangeEnd b = false ∧ getListProp b = "")
    (hctx : ctx.lookup P = some (Value.maps (some subs)))
    (hok : ∀ sub ∈ subs, ∀ b ∈ body, RendersOk env o b (mergeCtx sub ctx)) :
    renderRows env o ([s] ++ body ++ [e]) ctx sheet =
        ⟨sheet ++ rangeOutput env o body ctx subs, ctx, none⟩ ∧
      (rangeOutput env o body ctx subs).length = subs.length * body.length ∧
      ∀ (j i : Nat) (sub : Ctx) (b : Row), subs[j]? = some sub → body[i]? = some b →
        (rangeOutput env o body ctx subs)[j * body.length + i]? =
          some (rendering env o b (mergeCtx sub ctx)) := by
  refine ⟨?_, rangeOutput_length env o body ctx subs, rangeOutput_getElem? env o body ctx subs⟩
  have hne : getRangeProp s ≠ "" := by rw [hs]; exact hP
  have hwn : WellNested MatcherStart body :=
    wellNested_of_plain body (fun b hb => ⟨(hbody b hb).1, (hbody b hb).2.1⟩)
  have hend : getRangeEndIndex (body ++ [e]) = some body.length :=
    getRangeEndIndex_wellNested body e [] hwn he
  have hc : getRangeCtx ctx (getRangeProp s) = some subs := by
    rw [hs]; exact getRangeCtx_of_maps ctx P subs hctx
  have hl : [s] ++ body ++ [e] = s :: (body ++ [e]) := by simp
  rw [hl, renderRows_range env o s (body ++ [e]) ctx sheet body.length subs hne hend hc,
    List.take_left, rangeLoop_plain env o ctx body subs sheet
      (fun b hb => ⟨(hbody b hb).1, (hbody b hb).2.2⟩) hok]
  simp only
  rw [List.drop_eq_nil_of_le (by simp), renderRows_nil]

/-- C1, witness: two employees and a body of two rows give four rows; the start cell
carries the extra text `Name: `. -/
theorem renderRows_range_cardinality_witness :
    getRangeProp rowRangeEmployees = "employees" ∧ isRangeEnd rowEnd = true ∧
      (∀ b ∈ [rowHello, rowText],
        getRangeProp b = "" ∧ isRangeEnd b = false ∧ getListProp b = "") ∧
      renderRows envId {} ([rowRangeEmployees] ++ [rowHello, rowText] ++ [rowEnd])
          ctxEmployees [] =
        ⟨[] ++ rangeOutput envId {} [rowHello, rowText] ctxEmployees
            [some [("name", Value.str "Ann")], some [("name", Value.str "Bo")]],
          ctxEmployees, none⟩ ∧
      (rangeOutput envId {} [rowHello, rowText] ctxEmployees
        [some [("name", Value.str "Ann")], some [("name", Value.str "Bo")]]).length = 2 * 2 :=
  have h := renderRows_range_cardinality envId {} ctxEmployees "employees"
    [some [("name", Value.str "Ann")], some [("name", Value.str "Bo")]]
    rowRangeEmployees rowEnd [rowHello, rowText] [] (by decide) (by decide) (by decide)
    (by decide) rfl (by decide)
  ⟨by decide, by decide, by decide, h.1, h.2.1⟩

/-- C1, counterexample: `employees` holds a sequence of one mapping, given as a
`[]interface{}`; with collaborators that never fail, `renderRows` on the block returns the
invalid-range-context error and appends no row. -/
theorem renderRows_range_ifaces_counterexample :
    ctxEmployeesIfaces.lookup "employees" =
        some (Value.ifaces [Value.map (some [("name", Value.str "Ann")])]) ∧
      getRangeProp rowRangeEmployees = "employees" ∧ isRangeEnd rowEnd = true ∧
      (getRangeProp rowHello = "" ∧ isRangeEnd rowHello = false ∧ getListProp rowHello = "") ∧
      RendersOk envId {} rowHello (mergeCtx (some [("name", Value.str "Ann")]) ctxEmployeesIfaces) ∧
      renderRows envId {} ([rowRangeEmployees] ++ [rowHello] ++ [rowEnd]) ctxEmployeesIfaces [] =
        ⟨[], ctxEmployeesIfaces, some (Err.invalidRangeContext "employees")⟩ :=
  ⟨rfl, by decide, by decide, by decide, by decide,
    renderRows_invalidCtx envId {} rowRangeEmployees [rowHello, rowEnd] ctxEmployeesIfaces [] 1
      (by decide) (by decide) rfl⟩

/-! ## Lemmas on the store -/

theorem mem_assign_frame (h h1 : Mem.Store) (ctx : Mem.Ctx) (prop : String) (v : Mem.Value)
    (hok : h.assign ctx prop v = Except.ok h1) :
    h1.length = h.length ∧ ∀ a : Nat, ctx ≠ some a → h1.getD a [] = h.getD a [] := by
  cases ctx with
  | none => simp [Mem.Store.assign] at hok
  | some b =>
    simp only [Mem.Store.assign, Except.ok.injEq] at hok
    subst hok
    refine ⟨List.length_set _ _ _, fun a ha => ?_⟩
    have hne : b ≠ a := fun hba => ha (by rw [hba])
    simp only [List.getD_eq_getElem?_getD, List.getElem?_set_ne hne]

theorem mem_renderOne_store (env : Mem.Env) (o : Options) (row : Row) (h : Mem.Store)
    (ctx : Mem.Ctx) (sheet : List NewRow) : (Mem.renderOne env o row h ctx sheet).store = h := by
  unfold Mem.renderOne
  generalize cloneRow env.cloner row o = C
  obtain ⟨newRow, _ | e⟩ := C <;> rfl

theorem mem_fanOut_frame (env : Mem.Env) (o : Options) (row : Row) (prop : String)
    (ctx : Mem.Ctx) (vs : List Mem.Value) : ∀ (h : Mem.Store) (sheet : List NewRow),
      (Mem.fanOut env o row prop ctx vs h sheet).store.length = h.length ∧
        ∀ a : Nat, ctx ≠ some a →
          (Mem.fanOut env o row prop ctx vs h sheet).store.getD a [] = h.getD a [] := by
  induction vs with
  | nil => intro h sheet; exact ⟨rfl, fun _ _ => rfl⟩
  | cons v vs ih =>
    intro h sheet
    rw [Mem.fanOut]
    generalize cloneRow env.cloner row o = C
    obtain ⟨newRow, _ | e⟩ := C
    · simp only
      cases ha : h.assign ctx prop v with
      | error e => exact ⟨rfl, fun _ _ => rfl⟩
      | ok h1 =>
        have hf := mem_assign_frame h h1 ctx prop v ha
        simp only
        generalize Mem.renderRow env h1 newRow ctx = Q
        obtain ⟨r, _ | e⟩ := Q
        · simp only
          have hi := ih h1 (sheet ++ [r])
          exact ⟨hi.1.trans hf.1, fun a hne => (hi.2 a hne).trans (hf.2 a hne)⟩
        · exact hf
    · exact ⟨rfl, fun _ _ => rfl⟩

theorem mem_rangeLoop_frame (body : Mem.Store → Mem.Ctx → List NewRow → Mem.Res)
    (ctx : Mem.Ctx)
    (hbody : ∀ (h : Mem.Store) (c : Mem.Ctx) (s : List NewRow),
      h.length ≤ (body h c s).store.length ∧
        ∀ a : Nat, a < h.length → c ≠ some a → (body h c s).store.getD a [] = h.getD a [])
    (subs : List Mem.Ctx) : ∀ (n : Nat) (h : Mem.Store) (sheet : List NewRow), n ≤ h.length →
      n ≤ (Mem.rangeLoop body ctx subs h sheet).store.length ∧
        ∀ a : Nat, a < n → (Mem.rangeLoop body ctx subs h sheet).store.getD a [] = h.getD a [] := by
  induction subs with
  | nil => intro n h sheet hn; exact ⟨hn, fun _ _ => rfl⟩
  | cons sub subs ih =>
    intro n h sheet hn
    rw [Mem.rangeLoop]
    have hb := hbody (Mem.mergeCtx h sub ctx).1 (Mem.mergeCtx h sub ctx).2 sheet
    have hlen : (Mem.mergeCtx h sub ctx).1.length = h.length + 1 := by
      simp [Mem.mergeCtx]
    have hold : ∀ a : Nat, a < n →
        (body (Mem.mergeCtx h sub ctx).1 (Mem.mergeCtx h sub ctx).2 sheet).store.getD a [] =
          h.getD a [] := by
      intro a ha
      have hne : (Mem.mergeCtx h sub ctx).2 ≠ some a := by
        simp only [Mem.mergeCtx, ne_eq, Option.some.injEq]
        omega
      rw [hb.2 a (by omega) hne]
      simp only [Mem.mergeCtx]
      rw [List.getD_append _ _ _ _ (by omega)]
    generalize body (Mem.mergeCtx h sub ctx).1 (Mem.mergeCtx h sub ctx).2 sheet = R at hb hold
    obtain ⟨h1, sheet1, _ | e⟩ := R
    · simp only at hb hold ⊢
      have hi := ih n h1 sheet1 (by omega)
      exact ⟨hi.1, fun a ha => (hi.2 a ha).trans (hold a ha)⟩
    · simp only at hb hold ⊢
      exact ⟨by omega, hold⟩

/-! ## Lemmas on the engine over the store -/

theorem mem_renderRows_nil (env : Mem.Env) (o : Options) (h : Mem.Store) (ctx : Mem.Ctx)
    (sheet : List NewRow) : Mem.renderRows env o [] h ctx sheet = ⟨h, sheet, none⟩ := by
  rw [Mem.renderRows]

theorem mem_renderRows_notClosed (env : Mem.Env) (o : Options) (row : Row) (rest : List Row)
    (h : Mem.Store) (ctx : Mem.Ctx) (sheet : List NewRow) (hr : getRangeProp row ≠ "")
    (he : getRangeEndIndex rest = none) :
    Mem.renderRows env o (row :: rest) h ctx sheet =
      ⟨h, sheet, some (Err.rangeNotClosed (getRangeProp row))⟩ := by
  rw [Mem.renderRows, if_pos hr, he]

theorem mem_renderRows_invalidCtx (env : Mem.Env) (o : Options) (row : Row) (rest : List Row)
    (h : Mem.Store) (ctx : Mem.Ctx) (sheet : List NewRow) (e : Nat)
    (hr : getRangeProp row ≠ "") (he : getRangeEndIndex rest = some e)
    (hc : Mem.getRangeCtx h ctx (getRangeProp row) = none) :
    Mem.renderRows env o (row :: rest) h ctx sheet =
      ⟨h, sheet, some (Err.invalidRangeContext (getRangeProp row))⟩ := by
  rw [Mem.renderRows, if_pos hr, he, hc]

theorem mem_renderRows_range (env : Mem.Env) (o : Options) (row : Row) (rest : List Row)
    (h : Mem.Store) (ctx : Mem.Ctx) (sheet : List NewRow) (e : Nat) (subs : List Mem.Ctx)
    (hr : getRangeProp row ≠ "") (he : getRangeEndIndex rest = some e)
    (hc : Mem.getRangeCtx h ctx (getRangeProp row) = some subs) :
    Mem.renderRows env o (row :: rest) h ctx sheet =
      match Mem.rangeLoop (Mem.renderRows env o (rest.take e)) ctx subs h sheet with
      | ⟨h1, sheet1, some err⟩ => ⟨h1, sheet1, some err⟩
      | ⟨h1, sheet1, none⟩ => Mem.renderRows env o (rest.drop (e + 1)) h1 ctx sheet1 := by
  rw [Mem.renderRows, if_pos hr, he, hc]

theorem mem_renderRows_plain (env : Mem.Env) (o : Options) (row : Row) (rest : List Row)
    (h : Mem.Store) (ctx : Mem.Ctx) (sheet : List NewRow) (hr : getRangeProp row = "")
    (hl : getListProp row = "") :
    Mem.renderRows env o (row :: rest) h ctx sheet =
      match Mem.renderOne env o row h ctx sheet with
      | ⟨h1, sheet1, some e⟩ => ⟨h1, sheet1, some e⟩
      | ⟨h1, sheet1, none⟩ => Mem.renderRows env o rest h1 ctx sheet1 := by
  rw [Mem.renderRows, if_neg (by simpa using hr), if_pos hl]

theorem mem_renderRows_isArray_error (env : Mem.Env) (o : Options) (row : Row)
    (rest : List Row) (h : Mem.Store) (ctx : Mem.Ctx) (sheet : List NewRow) (e : Err)
    (hr : getRangeProp row = "") (hl : getListProp row ≠ "")
    (ha : Mem.isArray h ctx (getListProp row) = Except.error e) :
    Mem.renderRows env o (row :: rest) h ctx sheet = ⟨h, sheet, some e⟩ := by
  rw [Mem.renderRows, if_neg (by simpa using hr), if_neg hl, ha]

theorem mem_renderRows_fallback (env : Mem.Env) (o : Options) (row : Row) (rest : List Row)
    (h : Mem.Store) (ctx : Mem.Ctx) (sheet : List NewRow) (hr : getRangeProp row = "")
    (hl : getListProp row ≠ "") (ha : Mem.isArray h ctx (getListProp row) = Except.ok false) :
    Mem.renderRows env o (row :: rest) h ctx sheet =
      match Mem.renderOne env o row h ctx sheet with
      | ⟨h1, sheet1, some e⟩ => ⟨h1, sheet1, some e⟩
      | ⟨h1, sheet1, none⟩ => Mem.renderRows env o rest h1 ctx sheet1 := by
  rw [Mem.renderRows, if_neg (by simpa using hr), if_neg hl, ha]

theorem mem_renderRows_array (env : Mem.Env) (o : Options) (row : Row) (rest : List Row)
    (h : Mem.Store) (ctx : Mem.Ctx) (sheet : List NewRow) (hr : getRangeProp row = "")
    (hl : getListProp row ≠ "") (ha : Mem.isArray h ctx (getListProp row) = Except.ok true) :
    Mem.renderRows env o (row :: rest) h ctx sheet =
      match Mem.fanOut env o row (getListProp row) ctx
          ((h.lookup ctx (getListProp row)).getD Mem.Value.null).elems h sheet with
      | ⟨h1, sheet1, some e⟩ => ⟨h1, sheet1, some e⟩
      | ⟨h1, sheet1, none⟩ =>
        match h1.assign ctx (getListProp row)
            ((h.lookup ctx (getListProp row)).getD Mem.Value.null) with
        | Except.error e => ⟨h1, sheet1, some e⟩
        | Except.ok h2 => Mem.renderRows env o rest h2 ctx sheet1 := by
  rw [Mem.renderRows, if_neg (by simpa using hr), if_neg hl, ha]

/-- A call of the engine writes to the map it was given and to the maps it makes, and to
no other map: the maps of the store are still there after the call, and each of them
other than `ctx` has the bindings it had. -/
theorem mem_renderRows_footprint (env : Mem.Env) (o : Options) :
    ∀ (n : Nat) (rows : List Row), rows.length = n →
      ∀ (h : Mem.Store) (ctx : Mem.Ctx) (sheet : List NewRow),
        h.length ≤ (Mem.renderRows env o rows h ctx sheet).store.length ∧
          ∀ a : Nat, a < h.length → ctx ≠ some a →
            (Mem.renderRows env o rows h ctx sheet).store.getD a [] = h.getD a [] := by
  intro n
  induction n using Nat.strong_induction_on with
  | _ n ih =>
    intro rows hlen h ctx sheet
    cases rows with
    | nil => rw [mem_renderRows_nil]; exact ⟨Nat.le_refl _, fun _ _ _ => rfl⟩
    | cons row rest =>
      simp only [List.length_cons] at hlen
      have hrest := ih rest.length (by omega) rest rfl
      by_cases hr : getRangeProp row = ""
      · have hone : ∀ h ctx sheet,
            h.length ≤ (match Mem.renderOne env o row h ctx sheet with
              | ⟨h1, sheet1, some e⟩ => (⟨h1, sheet1, some e⟩ : Mem.Res)
              | ⟨h1, sheet1, none⟩ => Mem.renderRows env o rest h1 ctx sheet1).store.length ∧
            ∀ a : Nat, a < h.length → ctx ≠ some a →
              (match Mem.renderOne env o row h ctx sheet with
              | ⟨h1, sheet1, some e⟩ => (⟨h1, sheet1, some e⟩ : Mem.Res)
              | ⟨h1, sheet1, none⟩ => Mem.renderRows env o rest h1 ctx sheet1).store.getD a [] =
                h.getD a [] := by
          intro h ctx sheet
          have hs := mem_renderOne_store env o row h ctx sheet
          generalize Mem.renderOne env o row h ctx sheet = R at hs
          obtain ⟨h1, sheet1, _ | e⟩ := R
          · simp only at hs ⊢
            subst hs
            exact hrest h1 ctx sheet1
          · simp only at hs ⊢
            subst hs
            exact ⟨Nat.le_refl _, fun _ _ _ => rfl⟩
        by_cases hl : getListProp row = ""
        · rw [mem_renderRows_plain env o row rest h ctx sheet hr hl]
          exact hone h ctx sheet
        · cases ha : Mem.isArray h ctx (getListProp row) with
          | error e =>
            rw [mem_renderRows_isArray_error env o row rest h ctx sheet e hr hl ha]
            exact ⟨Nat.le_refl _, fun _ _ _ => rfl⟩
          | ok b =>
            cases b with
            | false =>
              rw [mem_renderRows_fallback env o row rest h ctx sheet hr hl ha]
              exact hone h ctx sheet
            | true =>
              rw [mem_renderRows_array env o row rest h ctx sheet hr hl ha]
              have hf := mem_fanOut_frame env o row (getListProp row) ctx
                ((h.lookup ctx (getListProp row)).getD Mem.Value.null).elems h sheet
              generalize Mem.fanOut env o row (getListProp row) ctx
                ((h.lookup ctx (getListProp row)).getD Mem.Value.null).elems h sheet = F at hf
              obtain ⟨h1, sheet1, _ | e⟩ := F
              · simp only at hf ⊢
                cases hb : h1.assign ctx (getListProp row)
                    ((h.lookup ctx (getListProp row)).getD Mem.Value.null) with
                | error e => exact ⟨by simp only; omega, fun a _ hne => hf.2 a hne⟩
                | ok h2 =>
                  have hg := mem_assign_frame h1 h2 ctx _ _ hb
                  have hi := hrest h2 ctx sheet1
                  simp only
                  refine ⟨by omega, fun a ha hne => ?_⟩
                  rw [hi.2 a (by omega) hne, hg.2 a hne, hf.2 a hne]
              · simp only at hf ⊢
                exact ⟨by omega, fun a _ hne => hf.2 a hne⟩
      · cases he : getRangeEndIndex rest with
        | none =>
          rw [mem_renderRows_notClosed env o row rest h ctx sheet hr he]
          exact ⟨Nat.le_refl _, fun _ _ _ => rfl⟩
        | some e =>
          cases hc : Mem.getRangeCtx h ctx (getRangeProp row) with
          | none =>
            rw [mem_renderRows_invalidCtx env o row rest h ctx sheet e hr he hc]
            exact ⟨Nat.le_refl _, fun _ _ _ => rfl⟩
          | some subs =>
            rw [mem_renderRows_range env o row rest h ctx sheet e subs hr he hc]
            have hloop := mem_rangeLoop_frame (Mem.renderRows env o (rest.take e)) ctx
              (ih (rest.take e).length (by simp only [List.length_take]; omega) _ rfl)
              subs h.length h sheet (Nat.le_refl _)
            generalize Mem.rangeLoop (Mem.renderRows env o (rest.take e)) ctx subs h sheet = L
              at hloop
            obtain ⟨h1, sheet1, _ | err⟩ := L
            · simp only at hloop ⊢
              have hi := ih (rest.drop (e + 1)).length
                (by simp only [List.length_drop]; omega) _ rfl h1 ctx sheet1
              refine ⟨by omega, fun a ha hne => ?_⟩
              rw [hi.2 a (by omega) hne, hloop.2 a ha]
            · simp only at hloop ⊢
              exact ⟨hloop.1, fun a ha _ => hloop.2 a ha⟩

/-! ## C4: a range block leaves the enclosing scope alone -/

theorem renderRows_block (env : Env) (o : Options) (ctx : Ctx) (s e : Row)
    (body rest : List Row) (subs : List Ctx) (sheet : List NewRow)
    (hs : getRangeProp s ≠ "") (hc : getRangeCtx ctx (getRangeProp s) = some subs)
    (hend : getRangeEndIndex (body ++ [e]) = some body.length) :
    renderRows env o ([s] ++ body ++ [e] ++ rest) ctx sheet =
      match rangeLoop (renderRows env o body) ctx subs sheet with
      | (sheet1, some err) => ⟨sheet1, ctx, some err⟩
      | (sheet1, none) => renderRows env o rest ctx sheet1 := by
  have hl : [s] ++ body ++ [e] ++ rest = s :: ((body ++ [e]) ++ rest) := by simp
  have hend2 := getRangeEndIndex_append (body ++ [e]) rest body.length hend
  rw [hl, renderRows_range env o s _ ctx sheet body.length subs hs hend2 hc]
  have ht : List.take body.length ((body ++ [e]) ++ rest) = body := by
    rw [List.append_assoc, List.take_left]
  have hd : List.drop (body.length + 1) ((body ++ [e]) ++ rest) = rest := by
    have : (body ++ [e]).length = body.length + 1 := by simp
    rw [← this, List.drop_left]
  rw [ht, hd]

theorem mem_getRangeCtx_has (h : Mem.Store) (ctx : Mem.Ctx) (prop : String)
    (subs : List Mem.Ctx) (hc : Mem.getRangeCtx h ctx prop = some subs) : h.has ctx := by
  cases ctx with
  | none => trivial
  | some a =>
    show a < h.length
    by_contra hlt
    have hd : h.getD a [] = [] := by
      rw [List.getD_eq_getElem?_getD, List.getElem?_eq_none (by omega)]
      rfl
    have he : h.entries (some a) = [] := hd
    unfold Mem.getRangeCtx Mem.Store.lookup at hc
    rw [he] at hc
    simp [Mem.Bindings.lookup] at hc

theorem mem_entries_of_frame (h h1 : Mem.Store)
    (hf : ∀ a : Nat, a < h.length → h1.getD a [] = h.getD a []) (q : Mem.Ctx)
    (hq : h.has q) : h1.entries q = h.entries q := by
  cases q with
  | none => rfl
  | some a => exact hf a hq

theorem mem_renderRows_block (env : Mem.Env) (o : Options) (h : Mem.Store) (ctx : Mem.Ctx)
    (s e : Row) (body rest : List Row) (subs : List Mem.Ctx) (sheet : List NewRow)
    (hs : getRangeProp s ≠ "") (hc : Mem.getRangeCtx h ctx (getRangeProp s) = some subs)
    (hend : getRangeEndIndex (body ++ [e]) = some body.length) :
    Mem.renderRows env o ([s] ++ body ++ [e] ++ rest) h ctx sheet =
      match Mem.rangeLoop (Mem.renderRows env o body) ctx subs h sheet with
      | ⟨h1, sheet1, some err⟩ => ⟨h1, sheet1, some err⟩
      | ⟨h1, sheet1, none⟩ => Mem.renderRows env o rest h1 ctx sheet1 := by
  have hl : [s] ++ body ++ [e] ++ rest = s :: ((body ++ [e]) ++ rest) := by simp
  have hend2 := getRangeEndIndex_append (body ++ [e]) rest body.length hend
  rw [hl, mem_renderRows_range env o s _ h ctx sheet body.length subs hs hend2 hc]
  have ht : List.take body.length ((body ++ [e]) ++ rest) = body := by
    rw [List.append_assoc, List.take_left]
  have hd : List.drop (body.length + 1) ((body ++ [e]) ++ rest) = rest := by
    have : (body ++ [e]).length = body.length + 1 := by simp
    rw [← this, List.drop_left]
  rw [ht, hd]

theorem mem_renderRows_block_frame (env : Mem.Env) (o : Options) (h : Mem.Store)
    (ctx : Mem.Ctx) (s e : Row) (body : List Row) (subs : List Mem.Ctx) (sheet : List NewRow)
    (hs : getRangeProp s ≠ "") (hc : Mem.getRangeCtx h ctx (getRangeProp s) = some subs)
    (hend : getRangeEndIndex (body ++ [e]) = some body.length) :
    ∀ a : Nat, a < h.length →
      (Mem.renderRows env o ([s] ++ body ++ [e]) h ctx sheet).store.getD a [] = h.getD a [] := by
  have hb := mem_renderRows_block env o h ctx s e body [] subs sheet hs hc hend
  rw [List.append_nil] at hb
  rw [hb]
  have hloop := mem_rangeLoop_frame (Mem.renderRows env o body) ctx
    (mem_renderRows_footprint env o body.length body rfl) subs h.length h sheet (Nat.le_refl _)
  generalize Mem.rangeLoop (Mem.renderRows env o body) ctx subs h sheet = L at hloop
  obtain ⟨h1, sheet1, _ | err⟩ := L
  · simp only [mem_renderRows_nil] at hloop ⊢
    exact hloop.2
  · exact hloop.2

/-- C4 (a range block never writes back into its enclosing scope), with the context maps
held in a store so that a write made through one reference is seen through every other:
for a block `[range-start P] ++ body ++ [range-end]` on a valid range property, with any
body and whether or not the body fails, every map that was in the store before the call has
after it exactly the bindings it had; so have the caller's map `ctx`, in which `P` still
resolves to the same sub-contexts, and every sub-context of `ctx[P]`.  The rows after the
block are processed under `ctx`, and a plain row that follows a successful block is
rendered under `ctx` on the store the block leaves. -/
theorem mem_renderRows_range_frame (env : Mem.Env) (o : Options) (h : Mem.Store)
    (ctx : Mem.Ctx) (s e : Row) (body : List Row) (subs : List Mem.Ctx) (sheet : List NewRow)
    (hs : getRangeProp s ≠ "") (hc : Mem.getRangeCtx h ctx (getRangeProp s) = some subs)
    (hend : getRangeEndIndex (body ++ [e]) = some body.length) :
    (∀ q : Mem.Ctx, h.has q →
        (Mem.renderRows env o ([s] ++ body ++ [e]) h ctx sheet).store.entries q =
          h.entries q) ∧
      h.has ctx ∧
      (Mem.renderRows env o ([s] ++ body ++ [e]) h ctx sheet).store.entries ctx =
        h.entries ctx ∧
      Mem.getRangeCtx (Mem.renderRows env o ([s] ++ body ++ [e]) h ctx sheet).store ctx
        (getRangeProp s) = some subs ∧
      (∀ sub : Mem.Ctx, sub ∈ subs → h.has sub →
        (Mem.renderRows env o ([s] ++ body ++ [e]) h ctx sheet).store.entries sub =
          h.entries sub) ∧
      (∀ rest : List Row,
        Mem.renderRows env o ([s] ++ body ++ [e] ++ rest) h ctx sheet =
          match Mem.renderRows env o ([s] ++ body ++ [e]) h ctx sheet with
          | ⟨h1, sheet1, some err⟩ => ⟨h1, sheet1, some err⟩
          | ⟨h1, sheet1, none⟩ => Mem.renderRows env o rest h1 ctx sheet1) ∧
      (∀ r : Row, getRangeProp r = "" → getListProp r = "" →
        (Mem.renderRows env o ([s] ++ body ++ [e]) h ctx sheet).err = none →
        Mem.renderRows env o ([s] ++ body ++ [e] ++ [r]) h ctx sheet =
          Mem.renderOne env o r (Mem.renderRows env o ([s] ++ body ++ [e]) h ctx sheet).store
            ctx (Mem.renderRows env o ([s] ++ body ++ [e]) h ctx sheet).sheet) := by
  have hframe := mem_renderRows_block_frame env o h ctx s e body subs sheet hs hc hend
  have hent := mem_entries_of_frame h _ hframe
  have hhas := mem_getRangeCtx_has h ctx _ subs hc
  have hrest : ∀ rest : List Row,
      Mem.renderRows env o ([s] ++ body ++ [e] ++ rest) h ctx sheet =
        match Mem.renderRows env o ([s] ++ body ++ [e]) h ctx sheet with
        | ⟨h1, sheet1, some err⟩ => ⟨h1, sheet1, some err⟩
        | ⟨h1, sheet1, none⟩ => Mem.renderRows env o rest h1 ctx sheet1 := by
    intro rest
    have hb := mem_renderRows_block env o h ctx s e body [] subs sheet hs hc hend
    rw [List.append_nil] at hb
    rw [hb, mem_renderRows_block env o h ctx s e body rest subs sheet hs hc hend]
    generalize Mem.rangeLoop (Mem.renderRows env o body) ctx subs h sheet = L
    obtain ⟨h1, sheet1, _ | err⟩ := L
    · simp only [mem_renderRows_nil]
    · rfl
  refine ⟨hent, hhas, hent ctx hhas, ?_, fun sub _ hsub => hent sub hsub, hrest, ?_⟩
  · unfold Mem.getRangeCtx Mem.Store.lookup at hc ⊢
    rw [hent ctx hhas]
    exact hc
  · intro r hr hl hok
    rw [hrest [r]]
    generalize Mem.renderRows env o ([s] ++ body ++ [e]) h ctx sheet = R at hok
    obtain ⟨h1, sheet1, err⟩ := R
    simp only at hok
    subst hok
    simp only
    rw [mem_renderRows_plain env o r [] h1 ctx sheet1 hr hl]
    generalize Mem.renderOne env o r h1 ctx sheet1 = Q
    obtain ⟨h2, sheet2, _ | err⟩ := Q
    · simp only [mem_renderRows_nil]
    · rfl

/-- C4, witness: a context at address 0 whose `employees` are the maps at addresses 1
and 2, and a block whose body is a list-field row on `xs` that the evaluator rejects, so
the body fails after `xs` was bound to the first element. -/
theorem mem_renderRows_range_frame_witness :
    getRangeProp rowRangeEmployees ≠ "" ∧
      Mem.getRangeCtx Mem.storeStaff (some 0) (getRangeProp rowRangeEmployees) =
        some [some 1, some 2] ∧
      getRangeEndIndex ([rowXsOpen] ++ [rowEnd]) = some [rowXsOpen].length ∧
      (Mem.renderRows Mem.envFail {} ([rowRangeEmployees] ++ [rowXsOpen] ++ [rowEnd])
        Mem.storeStaff (some 0) []).store.entries (some 0) = Mem.storeStaff.entries (some 0) ∧
      (Mem.renderRows Mem.envFail {} ([rowRangeEmployees] ++ [rowXsOpen] ++ [rowEnd])
        Mem.storeStaff (some 0) []).store.entries (some 1) = [("name", Mem.Value.str "Ann")] :=
  ⟨by decide, rfl, by decide,
    (mem_renderRows_range_frame Mem.envFail {} Mem.storeStaff (some 0) rowRangeEmployees rowEnd
      [rowXsOpen] [some 1, some 2] [] (by decide) rfl (by decide)).2.2.1,
    (mem_renderRows_range_frame Mem.envFail {} Mem.storeStaff (some 0) rowRangeEmployees rowEnd
      [rowXsOpen] [some 1, some 2] [] (by decide) rfl (by decide)).1 (some 1)
      (by show 1 < 3; decide)⟩

/-- The run of that block: the body fails in the first iteration with the evaluator's
error, the rebinding of `xs` to the first element is left in the merged map, made at
address 3, and the three maps of the caller are as they were. -/
theorem mem_renderRows_range_fails :
    Mem.renderRows Mem.envFail {} [rowRangeEmployees, rowXsOpen, rowEnd] Mem.storeStaff
        (some 0) [] =
      ⟨Mem.storeStaff ++ [[("title", Mem.Value.str "Staff"), ("xs", Mem.Value.str "a"),
          ("employees", Mem.Value.maps (some [some 1, some 2])),
          ("name", Mem.Value.str "Ann")]],
        [⟨[⟨"{{{xs.v}}}", false, []⟩, ⟨"\x7b\x7b", false, []⟩], 0⟩],
        some (Err.collab "parse error")⟩ := by
  rw [mem_renderRows_range Mem.envFail {} rowRangeEmployees [rowXsOpen, rowEnd] Mem.storeStaff
    (some 0) [] 1 [some 1, some 2] (by decide) (by decide) rfl]
  have hbody : ∀ (h : Mem.Store) (c : Mem.Ctx) (sheet : List NewRow),
      Mem.isArray h c "xs" = Except.ok true →
      Mem.renderRows Mem.envFail {} [rowXsOpen] h c sheet =
        match Mem.fanOut Mem.envFail {} rowXsOpen "xs" c
          ((h.lookup c "xs").getD Mem.Value.null).elems h sheet with
        | ⟨h1, sheet1, some e⟩ => ⟨h1, sheet1, some e⟩
        | ⟨h1, sheet1, none⟩ =>
          match h1.assign c "xs" ((h.lookup c "xs").getD Mem.Value.null) with
          | Except.error e => ⟨h1, sheet1, some e⟩
          | Except.ok h2 => Mem.renderRows Mem.envFail {} [] h2 c sheet1 := by
    intro h c sheet ha
    have hl : getListProp rowXsOpen = "xs" := by decide
    have := mem_renderRows_array Mem.envFail {} rowXsOpen [] h c sheet (by decide)
      (by decide) (by rw [hl]; exact ha)
    rw [hl] at this
    exact this
  have ht : List.take 1 [rowXsOpen, rowEnd] = [rowXsOpen] := rfl
  rw [ht, Mem.rangeLoop,
    hbody (Mem.mergeCtx Mem.storeStaff (some 1) (some 0)).1
      (Mem.mergeCtx Mem.storeStaff (some 1) (some 0)).2 [] rfl]
  rfl

/-- The same run with the context given by its bindings: the rows and the error are the
same, and the caller's context is returned as it was. -/
theorem renderRows_range_fails :
    renderRows envFail {} [rowRangeEmployees, rowXsOpen, rowEnd] ctxStaff [] =
      ⟨[⟨[⟨"{{{xs.v}}}", false, []⟩, ⟨"\x7b\x7b", false, []⟩], 0⟩], ctxStaff,
        some (Err.collab "parse error")⟩ := by
  rw [renderRows_range envFail {} rowRangeEmployees [rowXsOpen, rowEnd] ctxStaff [] 1
    [some [("name", Value.str "Ann")], some [("name", Value.str "Bo")]]
    (by decide) (by decide) rfl]
  have hl : getListProp rowXsOpen = "xs" := by decide
  have hbody := renderRows_array envFail {} rowXsOpen []
    (mergeCtx (some [("name", Value.str "Ann")]) ctxStaff) [] (by decide) (by decide)
    (by rw [hl]; rfl)
  rw [hl] at hbody
  have ht : List.take 1 [rowXsOpen, rowEnd] = [rowXsOpen] := rfl
  rw [ht, rangeLoop, hbody]
  rfl

/-- The example of the specification: with `name` bound to `A` and `x` to 1 outside and
`name` bound to `B` in the sub-context, the row inside the range is evaluated with
`name = B` and `x` bound, the row after the range with `name = A`, and the two maps of
the caller are as they were. -/
theorem mem_renderRows_outer_name :
    Mem.renderRows Mem.envName {} [rowRangeA, rowHello, rowEnd, rowHello] Mem.storeOuter
        (some 0) [] =
      ⟨Mem.storeOuter ++ [[("a", Mem.Value.maps (some [some 1])), ("x", Mem.Value.int 1),
          ("name", Mem.Value.str "B")]],
        [⟨[⟨"B+x", false, []⟩, ⟨"B+x", false, []⟩], 0⟩,
          ⟨[⟨"A+x", false, []⟩, ⟨"A+x", false, []⟩], 0⟩],
        none⟩ := by
  have hone : ∀ (h : Mem.Store) (c : Mem.Ctx) (sheet : List NewRow),
      Mem.renderRows Mem.envName {} [rowHello] h c sheet =
        Mem.renderOne Mem.envName {} rowHello h c sheet := by
    intro h c sheet
    rw [mem_renderRows_plain Mem.envName {} rowHello [] h c sheet (by decide) (by decide)]
    generalize Mem.renderOne Mem.envName {} rowHello h c sheet = Q
    obtain ⟨h2, sheet2, _ | err⟩ := Q
    · simp only [mem_renderRows_nil]
    · rfl
  rw [mem_renderRows_range Mem.envName {} rowRangeA [rowHello, rowEnd, rowHello] Mem.storeOuter
    (some 0) [] 1 [some 1] (by decide) (by decide) rfl]
  have ht : List.take 1 [rowHello, rowEnd, rowHello] = [rowHello] := rfl
  have hd : List.drop (1 + 1) [rowHello, rowEnd, rowHello] = [rowHello] := rfl
  rw [ht, hd, Mem.rangeLoop, hone]
  simp only [Mem.rangeLoop, hone]
  rfl

/-! ## Lemmas on rows that are not range starts -/

theorem renderRows_nonrange (env : Env) (o : Options) (row : Row) (rest : List Row)
    (ctx : Ctx) (sheet : List NewRow) (h : getRangeProp row = "") :
    renderRows env o (row :: rest) ctx sheet =
      match rowStep env o row ctx sheet with
      | ⟨sheet1, ctx1, some e⟩ => ⟨sheet1, ctx1, some e⟩
      | ⟨sheet1, ctx1, none⟩ => renderRows env o rest ctx1 sheet1 := by
  unfold rowStep
  by_cases hl : getListProp row = ""
  · rw [renderRows_plain env o row rest ctx sheet h hl, if_pos hl]
  · rw [if_neg hl]
    cases ha : isArray ctx (getListProp row) with
    | error e => rw [renderRows_isArray_error env o row rest ctx sheet e h hl ha]
    | ok b =>
      cases b with
      | false => rw [renderRows_fallback env o row rest ctx sheet h hl ha]
      | true =>
        rw [renderRows_array env o row rest ctx sheet h hl ha]
        generalize fanOut env o row (getListProp row)
          ((ctx.lookup (getListProp row)).getD Value.null).elems ctx sheet = F
        obtain ⟨s1, c1, _ | e⟩ := F
        · simp only
          cases c1.assign (getListProp row) ((ctx.lookup (getListProp row)).getD Value.null) <;> rfl
        · rfl

theorem renderRows_single (env : Env) (o : Options) (row : Row) (ctx : Ctx)
    (sheet : List NewRow) (h : getRangeProp row = "") :
    renderRows env o [row] ctx sheet = rowStep env o row ctx sheet := by
  rw [renderRows_nonrange env o row [] ctx sheet h]
  generalize rowStep env o row ctx sheet = R
  obtain ⟨s1, c1, _ | e⟩ := R
  · simp only [renderRows_nil]
  · rfl

theorem renderRows_cons_nonrange (env : Env) (o : Options) (row : Row) (rest : List Row)
    (ctx : Ctx) (sheet : List NewRow) (h : getRangeProp row = "") :
    renderRows env o (row :: rest) ctx sheet =
      match (renderRows env o [row] ctx sheet).err with
      | some _ => renderRows env o [row] ctx sheet
      | none => renderRows env o rest (renderRows env o [row] ctx sheet).ctx
          (renderRows env o [row] ctx sheet).sheet := by
  rw [renderRows_single env o row ctx sheet h, renderRows_nonrange env o row rest ctx sheet h]
  generalize rowStep env o row ctx sheet = R
  obtain ⟨s1, c1, _ | e⟩ := R <;> rfl

/-- Whatever the fan-out loop does, the map it leaves differs from the one it
started with at most in the binding of `prop`. -/
theorem fanOut_ctx (env : Env) (o : Options) (row : Row) (prop : String) (vs : List Value) :
    ∀ (m : Bindings) (sheet : List NewRow),
      ∃ m2, (fanOut env o row prop vs (some m) sheet).ctx = some m2 ∧
        ∀ v, m2.insert prop v = m.insert prop v := by
  induction vs with
  | nil => intro m sheet; exact ⟨m, rfl, fun _ => rfl⟩
  | cons v vs ih =>
    intro m sheet
    rw [fanOut]
    rcases hc : cloneRow env row o with ⟨newRow, _ | e⟩
    · simp only [Ctx.assign]
      rcases hr : renderRow env newRow (some (m.insert prop v)) with ⟨r, _ | e⟩
      · simp only
        obtain ⟨m2, h1, h2⟩ := ih (m.insert prop v) (sheet ++ [r])
        exact ⟨m2, h1, fun w => by rw [h2 w, Bindings.insert_insert]⟩
      · exact ⟨m.insert prop v, rfl, fun w => Bindings.insert_insert m prop v w⟩
    · exact ⟨m, rfl, fun _ => rfl⟩

/-- When cloning and every evaluation succeed, the fan-out loop appends one
row per element, rendered with `prop` bound to that element. -/
theorem fanOut_ok (env : Env) (o : Options) (row : Row) (prop : String) (m : Bindings)
    (vs : List Value) :
    ∀ (m1 : Bindings) (sheet : List NewRow), (∀ v, m1.insert prop v = m.insert prop v) →
      (∀ v ∈ vs, RendersOk env o row (some (m.insert prop v))) →
      (fanOut env o row prop vs (some m1) sheet).sheet =
          sheet ++ vs.map (fun v => rendering env o row (some (m.insert prop v))) ∧
        (fanOut env o row prop vs (some m1) sheet).err = none := by
  induction vs with
  | nil => intro m1 sheet _ _; simp [fanOut]
  | cons v vs ih =>
    intro m1 sheet hm hok
    obtain ⟨hv1, hv2⟩ := hok v (List.mem_cons_self _ _)
    rw [fanOut]
    rcases hc : cloneRow env row o with ⟨newRow, _ | e⟩
    · rw [hc] at hv2
      simp only [Ctx.assign, hm v]
      rcases hr : renderRow env newRow (some (m.insert prop v)) with ⟨r, _ | e⟩
      · simp only
        have := ih (m.insert prop v) (sheet ++ [r])
          (fun w => Bindings.insert_insert m prop v w)
          (fun w hw => hok w (List.mem_cons_of_mem _ hw))
        rw [this.1, this.2]
        simp [rendering, hc, hr]
      · rw [hr] at hv2
        simp at hv2
    · rw [hc] at hv1
      simp at hv1

theorem rowStep_ctx (env : Env) (o : Options) (row : Row) (ctx : Ctx) (sheet : List NewRow)
    (h : (rowStep env o row ctx sheet).err = none) : (rowStep env o row ctx sheet).ctx = ctx := by
  unfold rowStep at h ⊢
  by_cases hl : getListProp row = ""
  · rw [if_pos hl]; exact renderOne_ctx env o row ctx sheet
  · rw [if_neg hl] at h ⊢
    cases ha : isArray ctx (getListProp row) with
    | error e => simp [ha] at h
    | ok b =>
      cases b with
      | false => simp only; exact renderOne_ctx env o row ctx sheet
      | true =>
        obtain ⟨m, val, hctx, hlook, _⟩ := isArray_true_lookup ctx _ ha
        subst hctx
        rw [ha] at h
        simp only [Ctx.lookup, hlook, Option.getD_some] at h ⊢
        obtain ⟨m2, h1, h2⟩ := fanOut_ctx env o row (getListProp row) val.elems m sheet
        generalize fanOut env o row (getListProp row) val.elems (some m) sheet = F at h h1 ⊢
        obtain ⟨s1, c1, _ | e⟩ := F
        · simp only at h1
          subst h1
          simp only [Ctx.assign, h2, Bindings.insert_of_lookup m _ val hlook]
        · simp at h

/-! ## C5: list-row fan-out -/

/-- C5 (list-row fan-out cardinality): when `P` is bound to an array or slice with
elements `a` and `r` is a row that is not a range start and whose list-field directive
names `P`, `renderRows` on `[r]` appends, when cloning and every evaluation succeed,
exactly `len(a)` rows, row `i` being the rendering of `r` under the context that is `ctx`
with `P` bound to `a[i]`. -/
theorem renderRows_fanOut_cardinality (env : Env) (o : Options) (m : Bindings) (P : String)
    (val : Value) (r : Row) (sheet : List NewRow)
    (hr : getRangeProp r = "") (hl : getListProp r = P) (hP : P ≠ "")
    (hv : m.lookup P = some val) (hseq : val.isSeq = true)
    (hok : ∀ v ∈ val.elems, RendersOk env o r (some (m.insert P v))) :
    renderRows env o [r] (some m) sheet =
        ⟨sheet ++ val.elems.map (fun v => rendering env o r (some (m.insert P v))),
          some m, none⟩ ∧
      (val.elems.map (fun v => rendering env o r (some (m.insert P v)))).length =
        val.elems.length ∧
      (∀ (i : Nat) (v : Value), val.elems[i]? = some v →
        (val.elems.map (fun v => rendering env o r (some (m.insert P v))))[i]? =
          some (rendering env o r (some (m.insert P v)))) ∧
      ∀ (v : Value) (k : String),
        (m.insert P v).lookup k = if P = k then some v else m.lookup k := by
  refine ⟨?_, by simp, fun i v hi => by rw [List.getElem?_map, hi]; rfl,
    fun v k => Bindings.lookup_insert m P k v⟩
  have hne : getListProp r ≠ "" := by rw [hl]; exact hP
  have ha : isArray (some m) (getListProp r) = Except.ok true := by
    rw [hl]; exact isArray_of_seq m P val hv hseq
  have hf := fanOut_ok env o r P m val.elems m sheet (fun _ => rfl) hok
  obtain ⟨m2, h1, h2⟩ := fanOut_ctx env o r P val.elems m sheet
  rw [renderRows_single env o r (some m) sheet hr]
  unfold rowStep
  rw [if_neg hne, ha]
  simp only [hl, Ctx.lookup, hv, Option.getD_some]
  generalize fanOut env o r P val.elems (some m) sheet = F at hf h1
  obtain ⟨s1, c1, e1⟩ := F
  simp only at hf h1
  obtain ⟨hf1, hf2⟩ := hf
  subst hf1 hf2 h1
  simp only [Ctx.assign, h2, Bindings.insert_of_lookup m P val hv]

/-- C5, witness: `xs` bound to a `[]string` of two elements gives two rows. -/
theorem renderRows_fanOut_cardinality_witness :
    getRangeProp rowXs = "" ∧ getListProp rowXs = "xs" ∧
      renderRows envId {} [rowXs] ctxXs [] =
        ⟨[] ++ [Value.str "a", Value.str "b"].map (fun v => rendering envId {} rowXs
            (some (Bindings.insert
              [("n", Value.int 1), ("xs", Value.arr [Value.str "a", Value.str "b"])] "xs" v))),
          ctxXs, none⟩ :=
  ⟨by decide, by decide,
    (renderRows_fanOut_cardinality envId {}
      [("n", Value.int 1), ("xs", Value.arr [Value.str "a", Value.str "b"])] "xs"
      (Value.arr [Value.str "a", Value.str "b"]) rowXs [] (by decide) (by decide) (by decide)
      rfl rfl (by decide)).1⟩

/-! ## C6: a successful call leaves the context as it was -/

theorem renderRows_ctx_of_ok (env : Env) (o : Options) :
    ∀ (n : Nat) (rows : List Row), rows.length = n → ∀ (ctx : Ctx) (sheet : List NewRow),
      (renderRows env o rows ctx sheet).err = none →
      (renderRows env o rows ctx sheet).ctx = ctx := by
  intro n
  induction n using Nat.strong_induction_on with
  | _ n ih =>
    intro rows hlen ctx sheet h
    cases rows with
    | nil => rw [renderRows_nil]
    | cons row rest =>
      simp only [List.length_cons] at hlen
      by_cases hr : getRangeProp row = ""
      · rw [renderRows_nonrange env o row rest ctx sheet hr] at h ⊢
        have hstep := rowStep_ctx env o row ctx sheet
        generalize rowStep env o row ctx sheet = R at h hstep ⊢
        obtain ⟨s1, c1, _ | e⟩ := R
        · simp only at h hstep ⊢
          rw [hstep trivial] at h ⊢
          exact ih rest.length (by omega) rest rfl ctx s1 h
        · simp at h
      · cases he : getRangeEndIndex rest with
        | none =>
          rw [renderRows_notClosed env o row rest ctx sheet hr he] at h
          simp at h
        | some e =>
          cases hc : getRangeCtx ctx (getRangeProp row) with
          | none =>
            rw [renderRows_invalidCtx env o row rest ctx sheet e hr he hc] at h
            simp at h
          | some subs =>
            rw [renderRows_range env o row rest ctx sheet e subs hr he hc] at h ⊢
            generalize rangeLoop (renderRows env o (List.take e rest)) ctx subs sheet = L at h ⊢
            obtain ⟨s1, _ | err⟩ := L
            · simp only at h ⊢
              exact ih (rest.drop (e + 1)).length (by simp; omega) _ rfl ctx s1 h
            · simp at h

/-- C6 (array fan-out restores state): when `renderRows` returns success, the context after
the call is the context before the call; and after a first row that is not a range start
(a list-field row bound to an array among them) has been processed, the rows after it are
processed under that same context. -/
theorem renderRows_success_restores_ctx (env : Env) (o : Options) (rows : List Row)
    (ctx : Ctx) (sheet : List NewRow) (h : (renderRows env o rows ctx sheet).err = none) :
    (renderRows env o rows ctx sheet).ctx = ctx ∧
      (∀ k : String, (renderRows env o rows ctx sheet).ctx.lookup k = ctx.lookup k) ∧
      ∀ (r : Row) (rest : List Row), rows = r :: rest → getRangeProp r = "" →
        (renderRows env o [r] ctx sheet).err = none ∧
          (renderRows env o [r] ctx sheet).ctx = ctx ∧
          renderRows env o (r :: rest) ctx sheet =
            renderRows env o rest ctx (renderRows env o [r] ctx sheet).sheet := by
  have hctx := renderRows_ctx_of_ok env o rows.length rows rfl ctx sheet h
  refine ⟨hctx, fun k => by rw [hctx], ?_⟩
  intro r rest hrows hr
  subst hrows
  have hcons := renderRows_cons_nonrange env o r rest ctx sheet hr
  cases h1 : (renderRows env o [r] ctx sheet).err with
  | some e =>
    rw [hcons, h1] at h
    simp only at h
    rw [h1] at h
    exact Option.noConfusion h
  | none =>
    have hc1 := renderRows_ctx_of_ok env o 1 [r] rfl ctx sheet h1
    refine ⟨rfl, hc1, ?_⟩
    rw [hcons, h1]
    simp only
    rw [hc1]

/-- C6, witness: two list-field rows on the same array; the second one is processed
under the context the first one started from. -/
theorem renderRows_success_restores_ctx_witness :
    (renderRows envId {} [rowXs, rowXs] ctxXs []).err = none ∧
      (renderRows envId {} [rowXs, rowXs] ctxXs []).ctx = ctxXs :=
  have h : (renderRows envId {} [rowXs, rowXs] ctxXs []).err = none := by
    rw [renderRows_nonrange envId {} rowXs [rowXs] ctxXs [] (by decide)]
    show (renderRows envId {} [rowXs] _ _).err = none
    rw [renderRows_single envId {} rowXs _ _ (by decide)]
    rfl
  ⟨h, (renderRows_success_restores_ctx envId {} [rowXs, rowXs] ctxXs [] h).1⟩

/-! ## C7: the rebinding on the error paths of the fan-out loop -/

/-- C7 (evaluation at a failing input): `xs` is bound to a two-element array and the
evaluator rejects the second cell of the list-field row; `renderRows` returns the
evaluator's error from inside the fan-out loop, and the caller's context is left with `xs`
bound to the first element instead of the array. -/
theorem renderRows_error_keeps_rebinding :
    ctxXs.lookup "xs" = some (Value.arr [Value.str "a", Value.str "b"]) ∧
      getRangeProp rowXsOpen = "" ∧ getListProp rowXsOpen = "xs" ∧
      (renderRows envFail {} [rowXsOpen] ctxXs []).err = some (Err.collab "parse error") ∧
      (renderRows envFail {} [rowXsOpen] ctxXs []).ctx.lookup "xs" = some (Value.str "a") ∧
      (renderRows envFail {} [rowXsOpen] ctxXs []).ctx.lookup "xs" ≠ ctxXs.lookup "xs" := by
  rw [renderRows_single envFail {} rowXsOpen ctxXs [] (by decide)]
  refine ⟨rfl, by decide, by decide, rfl, rfl, ?_⟩
  intro h
  exact Value.noConfusion (Option.some.inj
    (h : some (Value.str "a") = some (Value.arr [Value.str "a", Value.str "b"])))

/-! ## C8: a list-field row on a property that is not an array -/

/-- A list-field row whose property is absent or bound to a value that is neither nil nor
an array or slice is rendered once, under the unchanged context. -/
theorem renderRows_not_array (env : Env) (o : Options) (ctx : Ctx) (r : Row)
    (sheet : List NewRow) (hr : getRangeProp r = "")
    (hv : ctx.lookup (getListProp r) = none ∨
      ∃ v, ctx.lookup (getListProp r) = some v ∧ v ≠ Value.null ∧ v.isSeq = false) :
    renderRows env o [r] ctx sheet = renderOne env o r ctx sheet ∧
      (RendersOk env o r ctx →
        renderRows env o [r] ctx sheet = ⟨sheet ++ [rendering env o r ctx], ctx, none⟩) := by
  have h1 : renderRows env o [r] ctx sheet = renderOne env o r ctx sheet := by
    rw [renderRows_single env o r ctx sheet hr]
    unfold rowStep
    by_cases hl : getListProp r = ""
    · rw [if_pos hl]
    · rw [if_neg hl]
      have ha : isArray ctx (getListProp r) = Except.ok false := by
        unfold isArray
        rcases hv with hv | ⟨v, hv, hnull, hseq⟩
        · rw [hv]
        · rw [hv]
          cases v <;> simp_all [Value.isSeq]
      rw [ha]
  exact ⟨h1, fun hok => by rw [h1, renderOne_ok env o r ctx sheet hok]⟩

/-- C8 (evaluation at a failing input): `item` is bound to nil; on the list-field row
`{{item.name}}` the call `isArray` panics, so `renderRows` appends no row. -/
theorem renderRows_null_property_panics :
    ctxItemNull.lookup "item" = some Value.null ∧
      getRangeProp rowItem = "" ∧ getListProp rowItem = "item" ∧
      renderRows envId {} [rowItem] ctxItemNull [] =
        ⟨[], ctxItemNull,
          some (Err.panic "invalid memory address or nil pointer dereference")⟩ :=
  ⟨rfl, by decide, by decide,
    renderRows_isArray_error envId {} rowItem [] ctxItemNull [] _ (by decide) (by decide) rfl⟩

/-! ## C9: a range that is not closed -/

theorem renderRows_of_reaches (env : Env) (o : Options) (ctx : Ctx) (rows : List Row)
    (sheet : List NewRow) (rows1 : List Row) (sheet1 : List NewRow)
    (h : Reaches env o ctx rows sheet rows1 sheet1) :
    renderRows env o rows ctx sheet = renderRows env o rows1 ctx sheet1 := by
  induction h with
  | here rows sheet => rfl
  | row r rest sheet rows1 sheet1 hr hok _ ih =>
    rw [renderRows_nonrange env o r rest ctx sheet hr, ← ih]
    have hctx := rowStep_ctx env o r ctx sheet hok
    generalize rowStep env o r ctx sheet = R at hok hctx
    obtain ⟨s1, c1, e1⟩ := R
    simp only at hok hctx
    subst hok hctx
    rfl
  | block r rest sheet e subs sheet2 rows1 sheet1 hr he hc hloop _ ih =>
    rw [renderRows_range env o r rest ctx sheet e subs hr he hc, hloop, ← ih]

/-- C9 (unclosed range is an error): when the scan of a row list reaches, at the level it
is scanning, a range-start row for `P` and `getRangeEndIndex` finds no unmatched range-end
among the rows after it, `renderRows` returns the error `End of range "P" not found`,
whatever the context binds `P` to, and the sheet is left as it was when the row was
reached: no row of that range is emitted. -/
theorem renderRows_unclosed_range (env : Env) (o : Options) (ctx : Ctx) (rows : List Row)
    (sheet : List NewRow) (s : Row) (rest : List Row) (sheet1 : List NewRow)
    (hreach : Reaches env o ctx rows sheet (s :: rest) sheet1)
    (hs : getRangeProp s ≠ "") (hend : getRangeEndIndex rest = none) :
    renderRows env o rows ctx sheet =
        ⟨sheet1, ctx, some (Err.rangeNotClosed (getRangeProp s))⟩ ∧
      (Err.rangeNotClosed (getRangeProp s)).message =
        "End of range \"" ++ getRangeProp s ++ "\" not found" := by
  refine ⟨?_, ?_⟩
  · rw [renderRows_of_reaches env o ctx rows sheet (s :: rest) sheet1 hreach,
      renderRows_notClosed env o s rest ctx sheet1 hs hend]
  · simp only [Err.message, quote, String.append_assoc]
    rw [← String.append_assoc "End of range "]
    rfl

/-- C9, witness: after a plain row and a closed range with an empty body, a range on
`employees` whose only end marker closes a nested range. -/
theorem renderRows_unclosed_range_witness :
    Reaches envId {} ctxEmployees
        [rowText, rowRangeEmployees, rowEnd, rowRangeEmployees, rowRangeB, rowText, rowEnd] []
        (rowRangeEmployees :: [rowRangeB, rowText, rowEnd])
        [rendering envId {} rowText ctxEmployees] ∧
      getRangeProp rowRangeEmployees ≠ "" ∧
      getRangeEndIndex [rowRangeB, rowText, rowEnd] = none ∧
      renderRows envId {}
          [rowText, rowRangeEmployees, rowEnd, rowRangeEmployees, rowRangeB, rowText, rowEnd]
          ctxEmployees [] =
        ⟨[rendering envId {} rowText ctxEmployees], ctxEmployees,
          some (Err.rangeNotClosed (getRangeProp rowRangeEmployees))⟩ :=
  have hreach : Reaches envId {} ctxEmployees
      [rowText, rowRangeEmployees, rowEnd, rowRangeEmployees, rowRangeB, rowText, rowEnd] []
      (rowRangeEmployees :: [rowRangeB, rowText, rowEnd])
      [rendering envId {} rowText ctxEmployees] :=
    Reaches.row rowText _ [] _ _ (by decide) rfl
      (Reaches.block rowRangeEmployees _ _ 0
        [some [("name", Value.str "Ann")], some [("name", Value.str "Bo")]]
        [rendering envId {} rowText ctxEmployees] _ _ (by decide) (by decide) rfl
        (by simp only [rangeLoop, List.take_zero, renderRows_nil]; rfl)
        (Reaches.here _ _))
  ⟨hreach, by decide, by decide,
    (renderRows_unclosed_range envId {} ctxEmployees _ [] rowRangeEmployees
      [rowRangeB, rowText, rowEnd] _ hreach (by decide) (by decide)).1⟩

/-! ## Lemmas on where errors come from -/

theorem cloneCell_err (env : Env) (c : Cell) (o : Options) (e : Err)
    (h : (cloneCell env c o).2 = some e) : e.external := by
  unfold cloneCell at h
  rcases hc : env.copy c with ⟨dst, _ | msg⟩
  · rw [hc] at h
    simp only at h
    split at h <;> simp at h
  · rw [hc] at h
    simp only [Option.some.injEq] at h
    subst h
    trivial

theorem cloneCells_err (env : Env) (o : Options) (cs : List Cell) :
    ∀ (acc : List Cell) (e : Err), (cloneCells env o cs acc).2 = some e → e.external := by
  induction cs with
  | nil => intro acc e h; simp [cloneCells] at h
  | cons c cs ih =>
    intro acc e h
    rw [cloneCells] at h
    have hc := cloneCell_err env c o
    generalize cloneCell env c o = C at h hc
    obtain ⟨dst, _ | e1⟩ := C
    · exact ih _ e h
    · simp only [Option.some.injEq] at h
      subst h
      exact hc e1 rfl

theorem cloneRow_err (env : Env) (r : Row) (o : Options) (e : Err)
    (h : (cloneRow env r o).2 = some e) : e.external :=
  cloneCells_err env o r.cells [] e h

theorem renderCells_err (env : Env) (ctx : Ctx) (cs : List Cell) :
    ∀ (e : Err), (renderCells env ctx cs).2 = some e → e.external := by
  induction cs with
  | nil => intro e h; simp [renderCells] at h
  | cons c cs ih =>
    intro e h
    rw [renderCells] at h
    unfold renderCell at h
    cases hx : env.exec (escape c.Value) ctx with
    | error msg =>
      rw [hx] at h
      simp only [Option.some.injEq] at h
      subst h
      trivial
    | ok out =>
      rw [hx] at h
      exact ih e h

theorem renderRow_err (env : Env) (r : NewRow) (ctx : Ctx) (e : Err)
    (h : (renderRow env r ctx).2 = some e) : e.external :=
  renderCells_err env ctx r.cells e h

theorem renderOne_err (env : Env) (o : Options) (row : Row) (ctx : Ctx) (sheet : List NewRow)
    (e : Err) (h : (renderOne env o row ctx sheet).err = some e) : e.external := by
  unfold renderOne at h
  have hc := cloneRow_err env row o
  generalize cloneRow env row o = C at h hc
  obtain ⟨newRow, _ | e1⟩ := C
  · simp only at h
    exact renderRow_err env newRow ctx e h
  · simp only [Option.some.injEq] at h
    subst h
    exact hc e1 rfl

theorem fanOut_err (env : Env) (o : Options) (row : Row) (prop : String) (vs : List Value) :
    ∀ (ctx : Ctx) (sheet : List NewRow) (e : Err),
      (fanOut env o row prop vs ctx sheet).err = some e → e.external := by
  induction vs with
  | nil => intro ctx sheet e h; simp [fanOut] at h
  | cons v vs ih =>
    intro ctx sheet e h
    rw [fanOut] at h
    have hc := cloneRow_err env row o
    generalize cloneRow env row o = C at h hc
    obtain ⟨newRow, _ | e1⟩ := C
    · simp only at h
      cases ctx with
      | none =>
        simp only [Ctx.assign, Option.some.injEq] at h
        subst h
        trivial
      | some m =>
        simp only [Ctx.assign] at h
        have hr := renderRow_err env newRow (some (m.insert prop v))
        generalize renderRow env newRow (some (m.insert prop v)) = R at h hr
        obtain ⟨r, _ | e2⟩ := R
        · exact ih _ _ e h
        · simp only [Option.some.injEq] at h
          subst h
          exact hr e2 rfl
    · simp only [Option.some.injEq] at h
      subst h
      exact hc e1 rfl

theorem isArray_err (ctx : Ctx) (prop : String) (e : Err)
    (h : isArray ctx prop = Except.error e) : e.external := by
  unfold isArray at h
  cases hl : ctx.lookup prop with
  | none => rw [hl] at h; simp at h
  | some v =>
    rw [hl] at h
    cases v <;> simp at h
    subst h
    trivial

theorem rowStep_err (env : Env) (o : Options) (row : Row) (ctx : Ctx) (sheet : List NewRow)
    (e : Err) (h : (rowStep env o row ctx sheet).err = some e) : e.external := by
  unfold rowStep at h
  by_cases hl : getListProp row = ""
  · rw [if_pos hl] at h
    exact renderOne_err env o row ctx sheet e h
  · rw [if_neg hl] at h
    cases ha : isArray ctx (getListProp row) with
    | error e1 =>
      rw [ha] at h
      simp only [Option.some.injEq] at h
      subst h
      exact isArray_err ctx _ e1 ha
    | ok b =>
      rw [ha] at h
      cases b with
      | false => exact renderOne_err env o row ctx sheet e h
      | true =>
        simp only at h
        have hf := fanOut_err env o row (getListProp row)
          ((ctx.lookup (getListProp row)).getD Value.null).elems ctx sheet
        generalize fanOut env o row (getListProp row)
          ((ctx.lookup (getListProp row)).getD Value.null).elems ctx sheet = F at h hf
        obtain ⟨s1, c1, _ | e1⟩ := F
        · simp only at h
          cases c1 with
          | none =>
            simp only [Ctx.assign, Option.some.injEq] at h
            subst h
            trivial
          | some m => simp [Ctx.assign] at h
        · simp only [Option.some.injEq] at h
          subst h
          exact hf e1 rfl

theorem renderRows_nonrange_err (env : Env) (o : Options) (rows : List Row) :
    ∀ (ctx : Ctx) (sheet : List NewRow) (e : Err), (∀ r ∈ rows, getRangeProp r = "") →
      (renderRows env o rows ctx sheet).err = some e → e.external := by
  induction rows with
  | nil => intro ctx sheet e _ h; simp [renderRows_nil] at h
  | cons row rest ih =>
    intro ctx sheet e hrows h
    rw [renderRows_nonrange env o row rest ctx sheet (hrows row (List.mem_cons_self _ _))] at h
    have hstep := rowStep_err env o row ctx sheet
    generalize rowStep env o row ctx sheet = R at h hstep
    obtain ⟨s1, c1, _ | e1⟩ := R
    · exact ih c1 s1 e (fun r hr => hrows r (List.mem_cons_of_mem _ hr)) h
    · simp only [Option.some.injEq] at h
      subst h
      exact hstep e1 rfl

theorem rangeLoop_err (body : Ctx → List NewRow → Res) (ctx : Ctx)
    (hbody : ∀ c s e, (body c s).err = some e → e.external) (subs : List Ctx) :
    ∀ (sheet : List NewRow) (e : Err), (rangeLoop body ctx subs sheet).2 = some e →
      e.external := by
  induction subs with
  | nil => intro sheet e h; simp [rangeLoop] at h
  | cons sub subs ih =>
    intro sheet e h
    rw [rangeLoop] at h
    cases hb : (body (mergeCtx sub ctx) sheet).err with
    | none => rw [hb] at h; exact ih _ e h
    | some e1 =>
      rw [hb] at h
      simp only [Option.some.injEq] at h
      subst h
      exact hbody _ _ e1 hb

theorem getRangeCtx_eq_none_iff (ctx : Ctx) (prop : String)
    (hnil : ctx.lookup prop ≠ some (Value.maps none)) :
    getRangeCtx ctx prop = none ↔ NoRangeCtx ctx prop := by
  unfold getRangeCtx NoRangeCtx
  cases hl : ctx.lookup prop with
  | none => simp
  | some v =>
    rw [hl] at hnil
    cases v with
    | maps xs =>
      cases xs with
      | none => exact absurd rfl hnil
      | some l => simp
    | _ => simp

/-! ## C10: a range on a property that is not a slice of mappings -/

/-- C10 (as amended): for a properly closed range block on `P`, in a context that does
not bind `P` to a nil `[]map[string]interface{}`: if `P` is absent or bound to a value
that is not a `[]map[string]interface{}`, `renderRows` returns the error
`Not expected context property for range "P"` and appends no row; if `P` is bound to a
`[]map[string]interface{}` the check passes and the result is that of rendering the body
once per sub-context; and for a body without range-start rows the error is returned if
and only if `P` is absent or not bound to a `[]map[string]interface{}`. -/
theorem renderRows_invalid_range_context (env : Env) (o : Options) (ctx : Ctx) (s e : Row)
    (body : List Row) (sheet : List NewRow)
    (hs : getRangeProp s ≠ "") (hend : getRangeEndIndex (body ++ [e]) = some body.length)
    (hnil : ctx.lookup (getRangeProp s) ≠ some (Value.maps none)) :
    (NoRangeCtx ctx (getRangeProp s) → ∀ rest : List Row,
        renderRows env o ([s] ++ body ++ [e] ++ rest) ctx sheet =
          ⟨sheet, ctx, some (Err.invalidRangeContext (getRangeProp s))⟩) ∧
      (∀ subs : List Ctx, ctx.lookup (getRangeProp s) = some (Value.maps (some subs)) →
        ∀ rest : List Row,
          renderRows env o ([s] ++ body ++ [e] ++ rest) ctx sheet =
            match rangeLoop (renderRows env o body) ctx subs sheet with
            | (sheet1, some err) => ⟨sheet1, ctx, some err⟩
            | (sheet1, none) => renderRows env o rest ctx sheet1) ∧
      ((∀ b ∈ body, getRangeProp b = "") →
        ((renderRows env o ([s] ++ body ++ [e]) ctx sheet).err =
            some (Err.invalidRangeContext (getRangeProp s)) ↔
          NoRangeCtx ctx (getRangeProp s))) ∧
      (Err.invalidRangeContext (getRangeProp s)).message =
        "Not expected context property for range \"" ++ getRangeProp s ++ "\"" := by
  have hbad : NoRangeCtx ctx (getRangeProp s) → ∀ rest : List Row,
      renderRows env o ([s] ++ body ++ [e] ++ rest) ctx sheet =
        ⟨sheet, ctx, some (Err.invalidRangeContext (getRangeProp s))⟩ := by
    intro hno rest
    have hc := (getRangeCtx_eq_none_iff ctx _ hnil).mpr hno
    have hl : [s] ++ body ++ [e] ++ rest = s :: ((body ++ [e]) ++ rest) := by simp
    rw [hl]
    exact renderRows_invalidCtx env o s _ ctx sheet body.length hs
      (getRangeEndIndex_append (body ++ [e]) rest body.length hend) hc
  refine ⟨hbad, ?_, ?_, ?_⟩
  · intro subs hsubs rest
    exact renderRows_block env o ctx s e body rest subs sheet hs
      (getRangeCtx_of_maps ctx _ subs hsubs) hend
  · intro hbody
    constructor
    · intro herr
      by_contra hno
      have hc : getRangeCtx ctx (getRangeProp s) ≠ none :=
        fun h => hno ((getRangeCtx_eq_none_iff ctx _ hnil).mp h)
      obtain ⟨subs, hsubs⟩ := Option.ne_none_iff_exists'.mp hc
      have hb := renderRows_block env o ctx s e body [] subs sheet hs hsubs hend
      rw [List.append_nil] at hb
      rw [hb] at herr
      have hloop := rangeLoop_err (renderRows env o body) ctx
        (fun c sh er => renderRows_nonrange_err env o body c sh er hbody) subs sheet
      generalize rangeLoop (renderRows env o body) ctx subs sheet = L at herr hloop
      obtain ⟨s1, _ | er⟩ := L
      · simp [renderRows_nil] at herr
      · simp only [Option.some.injEq] at herr
        have := hloop er rfl
        rw [herr] at this
        exact this
    · intro hno
      have := hbad hno []
      rw [List.append_nil] at this
      rw [this]
  · simp only [Err.message, quote, String.append_assoc]
    rw [← String.append_assoc "Not expected context property for range "]
    rfl

/-- C10, witness: `employees` bound to a string. -/
theorem renderRows_invalid_range_context_witness :
    getRangeProp rowRangeEmployees ≠ "" ∧
      getRangeEndIndex ([rowHello] ++ [rowEnd]) = some 1 ∧
      NoRangeCtx (some [("employees", Value.str "none")]) (getRangeProp rowRangeEmployees) ∧
      renderRows envId {} ([rowRangeEmployees] ++ [rowHello] ++ [rowEnd] ++ [rowText])
          (some [("employees", Value.str "none")]) [] =
        ⟨[], some [("employees", Value.str "none")],
          some (Err.invalidRangeContext (getRangeProp rowRangeEmployees))⟩ :=
  have hno : NoRangeCtx (some [("employees", Value.str "none")])
      (getRangeProp rowRangeEmployees) :=
    Or.inr ⟨Value.str "none", rfl, fun _ h => Value.noConfusion h⟩
  ⟨by decide, by decide, hno,
    (renderRows_invalid_range_context envId {} (some [("employees", Value.str "none")])
      rowRangeEmployees rowEnd [rowHello] [] (by decide) (by decide)
      (fun h => Value.noConfusion (Option.some.inj
        (h : some (Value.str "none") = some (Value.maps none))))).1 hno [rowText]⟩

/-- C10, counterexample: `employees` is bound to a sequence whose one element is a
mapping, given as a `[]interface{}`; the block is properly closed, and `renderRows` still
returns the invalid-range-context error. -/
theorem renderRows_invalid_range_context_counterexample :
    ctxEmployeesIfaces.lookup "employees" =
        some (Value.ifaces [Value.map (some [("name", Value.str "Ann")])]) ∧
      getRangeProp rowRangeEmployees = "employees" ∧
      getRangeEndIndex ([rowText] ++ [rowEnd]) = some 1 ∧
      (renderRows envId {} ([rowRangeEmployees] ++ [rowText] ++ [rowEnd])
          ctxEmployeesIfaces []).err = some (Err.invalidRangeContext "employees") := by
  refine ⟨rfl, by decide, by decide, ?_⟩
  rw [show [rowRangeEmployees] ++ [rowText] ++ [rowEnd] = rowRangeEmployees :: [rowText, rowEnd]
    from rfl, renderRows_invalidCtx envId {} rowRangeEmployees [rowText, rowEnd]
      ctxEmployeesIfaces [] 1 (by decide) (by decide) rfl]
  rfl

/-! ## Lemmas on escaping -/

theorem replacePair_replaced (a b : Char) (new : List Char) :
    ∀ (n : Nat) (s : List Char), s.length = n →
      Replaced [a, b] new s (replacePair a b new s) := by
  intro n
  induction n using Nat.strong_induction_on with
  | _ n ih =>
    intro s hlen
    match s, hlen with
    | [], _ => exact Replaced.done
    | [c], _ =>
      refine Replaced.keep c [] [] ?_ Replaced.done
      intro hp
      have := hp.length_le
      simp at this
    | c :: d :: rest, hlen =>
      simp only [List.length_cons] at hlen
      rw [replacePair]
      by_cases h : c = a ∧ d = b
      · rw [if_pos h]
        obtain ⟨rfl, rfl⟩ := h
        exact Replaced.hit rest _ (ih rest.length (by omega) rest rfl)
      · rw [if_neg h]
        refine Replaced.keep c (d :: rest) _ ?_
          (ih (d :: rest).length (by simp; omega) (d :: rest) rfl)
        intro hp
        obtain ⟨t, ht⟩ := hp
        simp only [List.cons_append, List.nil_append, List.cons.injEq] at ht
        exact h ⟨ht.1.symm, ht.2.1.symm⟩

theorem replaced_unique (old new : List Char) (hold : old ≠ []) (s o1 : List Char)
    (h1 : Replaced old new s o1) : ∀ o2, Replaced old new s o2 → o1 = o2 := by
  induction h1 with
  | done =>
    intro o2 h2
    generalize hs : ([] : List Char) = s at h2
    cases h2 with
    | done => rfl
    | hit rest out h => exact absurd (List.append_eq_nil.mp hs.symm).1 hold
    | keep c rest out hn h => exact List.noConfusion hs
  | hit rest out _ ih =>
    intro o2 h2
    generalize hs : old ++ rest = s at h2
    cases h2 with
    | done => exact absurd (List.append_eq_nil.mp hs).1 hold
    | hit rest2 out2 h =>
      have := List.append_cancel_left hs
      subst this
      rw [ih out2 h]
    | keep c rest2 out2 hn h =>
      exact absurd ⟨rest, hs⟩ hn
  | keep c rest out hn _ ih =>
    intro o2 h2
    generalize hs : c :: rest = s at h2 hn
    cases h2 with
    | done => exact List.noConfusion hs
    | hit rest2 out2 h => exact absurd ⟨rest2, rfl⟩ hn
    | keep c2 rest2 out2 hn2 h =>
      simp only [List.cons.injEq] at hs
      obtain ⟨rfl, rfl⟩ := hs
      rw [ih out2 h]

theorem replacePair_of_not_hasPair (a b : Char) (new : List Char) :
    ∀ (n : Nat) (s : List Char), s.length = n → hasPair a b s = false →
      replacePair a b new s = s := by
  intro n
  induction n using Nat.strong_induction_on with
  | _ n ih =>
    intro s hlen h
    match s, hlen, h with
    | [], _, _ => rfl
    | [c], _, _ => rfl
    | c :: d :: rest, hlen, h =>
      simp only [List.length_cons] at hlen
      simp only [hasPair, Bool.or_eq_false_iff, Bool.and_eq_false_iff, beq_eq_false_iff_ne] at h
      rw [replacePair, if_neg (by
        rintro ⟨h1, h2⟩
        rcases h.1 with h3 | h3
        · exact h3 h1
        · exact h3 h2)]
      rw [ih (d :: rest).length (by simp; omega) (d :: rest) rfl h.2]

theorem escape_of_no_braces (t : String) (h1 : hasPair '{' '{' t.data = false)
    (h2 : hasPair '}' '}' t.data = false) : escape t = t := by
  unfold escape
  rw [replacePair_of_not_hasPair '{' '{' _ _ t.data rfl h1,
    replacePair_of_not_hasPair '}' '}' _ _ t.data rfl h2]

/-! ## C11: plain rows -/

/-- C11 (plain rows render one-for-one): when no row carries a range-start or list-field
directive and cloning and every evaluation succeed, `renderRows` appends exactly
`len(rows)` rows, row `i` being the rendering of `rows[i]` under `ctx`, and returns the
context as it was; and a cell text that contains neither `{{` nor `}}` is handed to the
evaluator unchanged. -/
theorem renderRows_plain_rows (env : Env) (o : Options) (ctx : Ctx) (rows : List Row)
    (sheet : List NewRow)
    (hplain : ∀ r ∈ rows, getRangeProp r = "" ∧ getListProp r = "")
    (hok : ∀ r ∈ rows, RendersOk env o r ctx) :
    renderRows env o rows ctx sheet =
        ⟨sheet ++ rows.map (fun r => rendering env o r ctx), ctx, none⟩ ∧
      (rows.map (fun r => rendering env o r ctx)).length = rows.length ∧
      (∀ (i : Nat) (r : Row), rows[i]? = some r →
        (rows.map (fun r => rendering env o r ctx))[i]? = some (rendering env o r ctx)) ∧
      ∀ (cell : Cell) (c : Ctx), hasPair '{' '{' cell.Value.data = false →
        hasPair '}' '}' cell.Value.data = false →
        renderCell env cell c =
          match env.exec cell.Value c with
          | Except.error msg => Except.error (Err.collab msg)
          | Except.ok out => Except.ok { cell with Value := out } := by
  refine ⟨?_, by simp, fun i r hi => by rw [List.getElem?_map, hi]; rfl, ?_⟩
  · exact renderRows_plain_all env o ctx rows sheet
      (fun r hr => ⟨(hplain r hr).1, (hplain r hr).2, hok r hr⟩)
  · intro cell c h1 h2
    unfold renderCell
    rw [escape_of_no_braces cell.Value h1 h2]

/-- C11, witness: three rows without directive, an unmatched end marker among them. -/
theorem renderRows_plain_rows_witness :
    (∀ r ∈ [rowText, rowEnd, rowHello], getRangeProp r = "" ∧ getListProp r = "") ∧
      renderRows envId {} [rowText, rowEnd, rowHello] ctxEmployees [] =
        ⟨[] ++ [rowText, rowEnd, rowHello].map (fun r => rendering envId {} r ctxEmployees),
          ctxEmployees, none⟩ :=
  ⟨by decide,
    (renderRows_plain_rows envId {} ctxEmployees [rowText, rowEnd, rowHello] []
      (by decide) (by decide)).1⟩

/-! ## C14: cell escaping -/

/-- C14 (cell escaping): the text `renderCell` hands to the evaluator is the cell text
in which every `{{`, found left to right without overlap, is replaced by `{{{` and then
every `}}` by `}}}`, all other characters being kept in order; that text is determined by
this description; `see {{ end }} here` becomes `see {{{ end }}} here`, and a text with
neither `{{` nor `}}` is passed unchanged. -/
theorem renderCell_escapes (env : Env) (cell : Cell) (ctx : Ctx) :
    (renderCell env cell ctx =
        match env.exec (escape cell.Value) ctx with
        | Except.error msg => Except.error (Err.collab msg)
        | Except.ok out => Except.ok { cell with Value := out }) ∧
      (∃ mid, Replaced ['{', '{'] ['{', '{', '{'] cell.Value.data mid ∧
        Replaced ['}', '}'] ['}', '}', '}'] mid (escape cell.Value).data) ∧
      (∀ mid out, Replaced ['{', '{'] ['{', '{', '{'] cell.Value.data mid →
        Replaced ['}', '}'] ['}', '}', '}'] mid out → escape cell.Value = String.mk out) ∧
      escape "see {{ end }} here" = "see {{{ end }}} here" ∧
      (hasPair '{' '{' cell.Value.data = false → hasPair '}' '}' cell.Value.data = false →
        escape cell.Value = cell.Value) := by
  have h1 := replacePair_replaced '{' '{' ['{', '{', '{'] _ cell.Value.data rfl
  have h2 := replacePair_replaced '}' '}' ['}', '}', '}'] _
    (replacePair '{' '{' ['{', '{', '{'] cell.Value.data) rfl
  refine ⟨rfl, ⟨_, h1, h2⟩, ?_, by decide, escape_of_no_braces cell.Value⟩
  intro mid out hm ho
  have e1 := replaced_unique ['{', '{'] ['{', '{', '{'] (by simp) _ _ h1 mid hm
  subst e1
  have e2 := replaced_unique ['}', '}'] ['}', '}', '}'] (by simp) _ _ h2 out ho
  subst e2
  rfl

/-! ## C12: the context of a sheet -/

/-- C12 (as amended): `getCtx` returns the payload itself when the payload is a
`map[string]interface{}`, for every sheet index; when the payload is a `[]interface{}` it
returns element `i` if `i` is less than the length and that element is a
`map[string]interface{}`, and no context otherwise; for any other payload, a
`[]map[string]interface{}` included, it returns no context. -/
theorem getCtx_cases (i : Nat) :
    (∀ m : Ctx, getCtx (Value.map m) i = m) ∧
      (∀ (xs : List Value) (m : Ctx), xs[i]? = some (Value.map m) →
        getCtx (Value.ifaces xs) i = m) ∧
      (∀ xs : List Value, xs.length ≤ i → getCtx (Value.ifaces xs) i = none) ∧
      (∀ (xs : List Value) (v : Value), xs[i]? = some v → (∀ m, v ≠ Value.map m) →
        getCtx (Value.ifaces xs) i = none) ∧
      (∀ v : Value, (∀ m, v ≠ Value.map m) → (∀ xs, v ≠ Value.ifaces xs) →
        getCtx v i = none) ∧
      ∀ xs, getCtx (Value.maps xs) i = none := by
  refine ⟨fun m => rfl, ?_, ?_, ?_, ?_, fun xs => rfl⟩
  · intro xs m h
    have hlt : i < xs.length := by
      by_contra hn
      rw [List.getElem?_eq_none (by omega)] at h
      exact Option.noConfusion h
    have hd : xs.getD i Value.null = Value.map m := by
      rw [List.getD_eq_getElem?_getD, h]
      rfl
    simp only [getCtx, gt_iff_lt, hlt, if_true, hd]
  · intro xs h
    have : ¬ xs.length > i := by omega
    simp only [getCtx, this, if_false]
  · intro xs v h hv
    have hlt : i < xs.length := by
      by_contra hn
      rw [List.getElem?_eq_none (by omega)] at h
      exact Option.noConfusion h
    have hd : xs.getD i Value.null = v := by
      rw [List.getD_eq_getElem?_getD, h]
      rfl
    cases v with
    | map m => exact absurd rfl (hv m)
    | _ => simp only [getCtx, gt_iff_lt, hlt, if_true, hd]
  · intro v hm hx
    cases v with
    | map m => exact absurd rfl (hm m)
    | ifaces xs => exact absurd rfl (hx xs)
    | _ => rfl

/-- C12, counterexample: the payload is a sequence of one mapping, given as a
`[]map[string]interface{}`; for sheet 0, whose element is a mapping, `getCtx` returns no
context. -/
theorem getCtx_maps_counterexample :
    (Value.maps (some [some [("title", Value.str "A")]])).elems[0]? =
        some (Value.map (some [("title", Value.str "A")])) ∧
      getCtx (Value.maps (some [some [("title", Value.str "A")]])) 0 = none :=
  ⟨rfl, rfl⟩

/-! ## C13: no report before a successful render -/

theorem wrapCells_off (env : Env) (o : Options) (h : o.WrapTextInAllCells = false)
    (cs : List Cell) : wrapCells env o cs = cs := by
  induction cs with
  | nil => rfl
  | cons c cs ih =>
    rw [wrapCells]
    cases (cloneCell env c o).2 with
    | some e => rfl
    | none => simp only [h, ih]; rfl

theorem wrapRows_off (env : Env) (o : Options) (h : o.WrapTextInAllCells = false)
    (log : List Nat) (rows : List Row) : ∀ ri : Nat, wrapRows env o log ri rows = rows := by
  induction rows with
  | nil => intro ri; rfl
  | cons row rows ih =>
    intro ri
    rw [wrapRows, ih, wrapCells_off env o h]
    split <;> rfl

theorem wrapSheet_off (env : Env) (o : Options) (h : o.WrapTextInAllCells = false)
    (sheet : Sheet) (ctx : Ctx) : wrapSheet env o sheet ctx = sheet := by
  unfold wrapSheet
  rw [wrapRows_off env o h]

theorem renderSheets_off (env : Env) (doc : Doc) (payload : Value) (o : Options)
    (h : o.WrapTextInAllCells = false) (sheets : List Sheet) :
    ∀ (si : Nat) (report : List NewSheet),
      (renderSheets env doc payload o sheets si report).1 = sheets := by
  induction sheets with
  | nil => intro si report; rfl
  | cons sheet rest ih =>
    intro si report
    rw [renderSheets]
    simp only [wrapSheet_off env o h]
    cases doc.addSheet (report.map (fun s => s.Name)) sheet.Name with
    | some msg => rfl
    | none =>
      cases getRows doc sheet with
      | error e => rfl
      | ok rows =>
        simp only
        generalize renderRows env o rows (getCtx payload si)
          (cloneSheet doc sheet ⟨sheet.Name, [], []⟩).rows = R
        obtain ⟨sheet1, ctx1, _ | e⟩ := R
        · simp only [ih]
        · rfl

theorem RenderWithOptions_file_off (env : Env) (doc : Doc) (m : Xlst) (payload : Value)
    (options : Option Options) (h : (options.getD {}).WrapTextInAllCells = false) :
    (RenderWithOptions env doc m payload options).1.file = m.file := by
  unfold RenderWithOptions
  cases hf : m.file with
  | none => simp only [hf]
  | some sheets =>
    simp only
    have hs := renderSheets_off env doc payload (options.getD {}) h sheets 0 []
    generalize renderSheets env doc payload (options.getD {}) sheets 0 [] = R at hs
    obtain ⟨file, _ | report⟩ := R
    · simp only at hs ⊢; rw [hs]
    · simp only at hs ⊢; rw [hs]

theorem RenderWithOptions_error (env : Env) (doc : Doc) (m : Xlst) (payload : Value)
    (options : Option Options) (h : (RenderWithOptions env doc m payload options).2 ≠ none) :
    (RenderWithOptions env doc m payload options).1.report = m.report := by
  unfold RenderWithOptions at h ⊢
  cases hf : m.file with
  | none => rfl
  | some sheets =>
    simp only [hf] at h ⊢
    generalize renderSheets env doc payload (options.getD {}) sheets 0 [] = R at h ⊢
    obtain ⟨file, _ | report⟩ := R
    · rfl
    · exact absurd rfl h

theorem RenderWithOptions_ok (env : Env) (doc : Doc) (m : Xlst) (payload : Value)
    (options : Option Options) (h : (RenderWithOptions env doc m payload options).2 = none) :
    (RenderWithOptions env doc m payload options).1.report.isSome = true := by
  unfold RenderWithOptions at h ⊢
  cases hf : m.file with
  | none => simp [hf] at h
  | some sheets =>
    simp only [hf] at h ⊢
    generalize renderSheets env doc payload (options.getD {}) sheets 0 [] = R at h ⊢
    obtain ⟨file, _ | report⟩ := R
    · simp at h
    · rfl

theorem report_applyOps (env : Env) (doc : Doc) (ops : List Op) :
    ∀ m : Xlst, (applyOps env doc m ops).report.isSome =
      (m.report.isSome || renderSucceeded env doc m ops) := by
  induction ops with
  | nil => intro m; simp [applyOps, renderSucceeded]
  | cons op ops ih =>
    intro m
    rw [applyOps, renderSucceeded, ih]
    cases op with
    | readTemplate opened =>
      have hrep : (applyOp env doc m (Op.readTemplate opened)).report = m.report := by
        cases opened <;> rfl
      rw [hrep]
      simp [renderOk]
    | save path => simp [renderOk, applyOp]
    | write => simp [renderOk, applyOp]
    | render payload options =>
      simp only [renderOk, applyOp]
      cases hr : (RenderWithOptions env doc m payload options).2 with
      | none =>
        rw [RenderWithOptions_ok env doc m payload options hr]
        simp
      | some e =>
        rw [RenderWithOptions_error env doc m payload options (by rw [hr]; simp)]
        simp

theorem Save_noReport_iff (doc : Doc) (m : Xlst) (path : String) :
    Save doc m path = some Err.noReport ↔ m.report = none := by
  unfold Save
  cases m.report with
  | none => simp
  | some r => cases doc.save r path <;> simp

theorem Write_noReport_iff (doc : Doc) (m : Xlst) :
    Write doc m = some Err.noReport ↔ m.report = none := by
  unfold Write
  cases m.report with
  | none => simp
  | some r => cases doc.write r <;> simp

/-- C13 (no report before a successful render): on an `Xlst` that starts without a
report, after any sequence of calls `Save` and `Write` return the error
`Report was not generated` if and only if no render call of the sequence has succeeded; a
render call that fails leaves the stored report exactly as it was, and is followed by that
error on a struct that had no report. -/
theorem save_write_noReport (env : Env) (doc : Doc) (m : Xlst) (ops : List Op) (path : String)
    (hfresh : m.report = none) :
    (Save doc (applyOps env doc m ops) path = some Err.noReport ↔
        renderSucceeded env doc m ops = false) ∧
      (Write doc (applyOps env doc m ops) = some Err.noReport ↔
        renderSucceeded env doc m ops = false) ∧
      (∀ (m1 : Xlst) (payload : Value) (options : Option Options),
        (RenderWithOptions env doc m1 payload options).2 ≠ none →
        (RenderWithOptions env doc m1 payload options).1.report = m1.report) ∧
      (∀ (payload : Value) (options : Option Options),
        (RenderWithOptions env doc m payload options).2 ≠ none →
        Save doc (RenderWithOptions env doc m payload options).1 path = some Err.noReport ∧
          Write doc (RenderWithOptions env doc m payload options).1 = some Err.noReport) ∧
      Err.noReport.message = "Report was not generated" := by
  have hrep := report_applyOps env doc ops m
  rw [hfresh] at hrep
  simp only [Option.isSome_none, Bool.false_or] at hrep
  have hiff : (applyOps env doc m ops).report = none ↔ renderSucceeded env doc m ops = false := by
    rw [← hrep]
    cases (applyOps env doc m ops).report <;> simp
  refine ⟨(Save_noReport_iff doc _ path).trans hiff, (Write_noReport_iff doc _).trans hiff,
    fun m1 payload options h => RenderWithOptions_error env doc m1 payload options h, ?_, rfl⟩
  intro payload options h
  have hr := (RenderWithOptions_error env doc m payload options h).trans hfresh
  exact ⟨(Save_noReport_iff doc _ path).mpr hr, (Write_noReport_iff doc _).mpr hr⟩

theorem RenderWithOptions_fileUnclosed (payload : Value) :
    RenderWithOptions envId docOk ⟨some fileUnclosed, none⟩ payload none =
      (⟨some fileUnclosed, none⟩, some (Err.rangeNotClosed "employees")) := by
  have h := renderRows_notClosed envId {} rowRangeEmployees [rowHello] (getCtx payload 0) []
    (by decide) (by decide)
  have hw : ∀ sheet : Sheet, wrapSheet envId {} sheet (getCtx payload 0) = sheet :=
    fun sheet => wrapSheet_off envId {} rfl sheet _
  simp only [RenderWithOptions, renderSheets, fileUnclosed, docOk, getRows, cloneSheet,
    Option.getD_none, List.map_nil, List.foldl_nil, h, hw]
  rfl

/-- C13, witness: a template whose range is never closed; the render fails with the
range-not-closed error, a second render fails again, and `Save` then returns
`Report was not generated`. -/
theorem save_write_noReport_witness :
    (⟨some fileUnclosed, none⟩ : Xlst).report = none ∧
      (RenderWithOptions envId docOk ⟨some fileUnclosed, none⟩ (Value.map ctxEmployees) none).2 =
        some (Err.rangeNotClosed "employees") ∧
      renderSucceeded envId docOk ⟨some fileUnclosed, none⟩
        [Op.render (Value.map ctxEmployees) none, Op.write,
          Op.render (Value.map ctxEmployees) (some {})] = false ∧
      Save docOk (applyOps envId docOk ⟨some fileUnclosed, none⟩
        [Op.render (Value.map ctxEmployees) none, Op.write,
          Op.render (Value.map ctxEmployees) (some {})]) "out.xlsx" = some Err.noReport :=
  have hr : renderSucceeded envId docOk ⟨some fileUnclosed, none⟩
      [Op.render (Value.map ctxEmployees) none, Op.write,
        Op.render (Value.map ctxEmployees) (some {})] = false := by
    simp only [renderSucceeded, renderOk, applyOp, RenderWithOptions_fileUnclosed]
    have h2 : RenderWithOptions envId docOk ⟨some fileUnclosed, none⟩ (Value.map ctxEmployees)
        (some {}) = RenderWithOptions envId docOk ⟨some fileUnclosed, none⟩
          (Value.map ctxEmployees) none := rfl
    rw [h2, RenderWithOptions_fileUnclosed]
    rfl
  ⟨rfl, by rw [RenderWithOptions_fileUnclosed], hr,
    (save_write_noReport envId docOk ⟨some fileUnclosed, none⟩ _ "out.xlsx" rfl).1.mpr hr⟩

theorem clonedRows_nil (env : Env) (o : Options) (ri : Nat) (ctx : Ctx) :
    clonedRows env o ri [] ctx = [] := by
  rw [clonedRows]

theorem clonedRows_notClosed (env : Env) (o : Options) (ri : Nat) (row : Row)
    (rest : List Row) (ctx : Ctx) (h : getRangeProp row ≠ "")
    (he : getRangeEndIndex rest = none) : clonedRows env o ri (row :: rest) ctx = [] := by
  rw [clonedRows, if_pos h, he]

theorem clonedRows_invalidCtx (env : Env) (o : Options) (ri : Nat) (row : Row)
    (rest : List Row) (ctx : Ctx) (e : Nat) (h : getRangeProp row ≠ "")
    (he : getRangeEndIndex rest = some e) (hc : getRangeCtx ctx (getRangeProp row) = none) :
    clonedRows env o ri (row :: rest) ctx = [] := by
  rw [clonedRows, if_pos h, he, hc]

theorem clonedRows_range (env : Env) (o : Options) (ri : Nat) (row : Row) (rest : List Row)
    (ctx : Ctx) (e : Nat) (subs : List Ctx) (h : getRangeProp row ≠ "")
    (he : getRangeEndIndex rest = some e)
    (hc : getRangeCtx ctx (getRangeProp row) = some subs) :
    clonedRows env o ri (row :: rest) ctx =
      clonedLoop (clonedRows env o (ri + 1) (rest.take e))
          (fun c => (renderRows env o (rest.take e) c []).err) ctx subs ++
        match (rangeLoop (renderRows env o (rest.take e)) ctx subs []).2 with
        | some _ => []
        | none => clonedRows env o (ri + 1 + e + 1) (rest.drop (e + 1)) ctx := by
  rw [clonedRows, if_pos h, he, hc]

theorem clonedRows_nonrange (env : Env) (o : Options) (ri : Nat) (row : Row)
    (rest : List Row) (ctx : Ctx) (h : getRangeProp row = "") :
    clonedRows env o ri (row :: rest) ctx =
      List.replicate (rowStep env o row ctx []).sheet.length ri ++
        match (rowStep env o row ctx []).err with
        | some _ => []
        | none => clonedRows env o (ri + 1) rest (rowStep env o row ctx []).ctx := by
  rw [clonedRows, if_neg (by simpa using h)]

/-- A render that fails still writes to the template: with `WrapTextInAllCells`, the
row cloned before the unclosed range start has the flag set on its cells in the
template the struct holds after the call, and no report is stored. -/
theorem RenderWithOptions_failure_wraps (payload : Value) :
    RenderWithOptions envId docOk ⟨some fileHelloUnclosed, none⟩ payload (some ⟨true⟩) =
      (⟨some [⟨"Sheet1", [⟨[⟨"Hello {{name}}", true, []⟩, ⟨"x", true, []⟩], 2, 0⟩,
          rowRangeEmployees], []⟩], none⟩, some (Err.rangeNotClosed "employees")) := by
  have hstep : ∀ sheet, rowStep envId ⟨true⟩ rowHello (getCtx payload 0) sheet =
      ⟨sheet ++ [rendering envId ⟨true⟩ rowHello (getCtx payload 0)], getCtx payload 0, none⟩ :=
    fun _ => rfl
  have hr : renderRows envId ⟨true⟩ [rowHello, rowRangeEmployees] (getCtx payload 0) [] =
      ⟨[rendering envId ⟨true⟩ rowHello (getCtx payload 0)], getCtx payload 0,
        some (Err.rangeNotClosed "employees")⟩ := by
    rw [renderRows_nonrange envId ⟨true⟩ rowHello _ _ _ (by decide), hstep]
    simp only [List.nil_append]
    rw [renderRows_notClosed envId ⟨true⟩ rowRangeEmployees [] _ _ (by decide) (by decide)]
    rfl
  have hc : clonedRows envId ⟨true⟩ 0 [rowHello, rowRangeEmployees] (getCtx payload 0) = [0] := by
    rw [clonedRows_nonrange envId ⟨true⟩ 0 rowHello _ _ (by decide), hstep]
    simp only [List.nil_append]
    rw [clonedRows_notClosed envId ⟨true⟩ _ rowRangeEmployees [] _ (by decide) (by decide)]
    rfl
  simp only [RenderWithOptions, renderSheets, fileHelloUnclosed, docOk, getRows, cloneSheet,
    wrapSheet, Option.getD_some, List.map_nil, List.foldl_nil, hr, hc]
  rfl

/-- The write to the template outlives the render that made it: after a render with
`WrapTextInAllCells`, a render without the option clones the cells with the flag set. -/
theorem RenderWithOptions_wrap_persists (payload : Value) :
    applyOps envId docOk ⟨some fileHello, none⟩
        [Op.render payload (some ⟨true⟩), Op.render payload none] =
      ⟨some [⟨"Sheet1", [⟨[⟨"Hello {{name}}", true, []⟩, ⟨"x", true, []⟩], 2, 0⟩], []⟩],
        some [⟨"Sheet1", [⟨[⟨"Hello {{{name}}}", true, []⟩, ⟨"x", true, []⟩], 0⟩], []⟩]⟩ := by
  have hr : ∀ (o : Options) (row : Row), getRangeProp row = "" →
      rowStep envId o row (getCtx payload 0) [] =
        ⟨[rendering envId o row (getCtx payload 0)], getCtx payload 0, none⟩ →
      renderRows envId o [row] (getCtx payload 0) [] =
        ⟨[rendering envId o row (getCtx payload 0)], getCtx payload 0, none⟩ := by
    intro o row h hstep
    rw [renderRows_nonrange envId o row _ _ _ h, hstep]
    simp only [renderRows_nil]
  have hc : ∀ (o : Options) (row : Row), getRangeProp row = "" →
      rowStep envId o row (getCtx payload 0) [] =
        ⟨[rendering envId o row (getCtx payload 0)], getCtx payload 0, none⟩ →
      clonedRows envId o 0 [row] (getCtx payload 0) = [0] := by
    intro o row h hstep
    rw [clonedRows_nonrange envId o 0 row _ _ h, hstep]
    simp only [clonedRows_nil]
    rfl
  have h1 : RenderWithOptions envId docOk ⟨some fileHello, none⟩ payload (some ⟨true⟩) =
      (⟨some [⟨"Sheet1", [⟨[⟨"Hello {{name}}", true, []⟩, ⟨"x", true, []⟩], 2, 0⟩], []⟩],
        some [⟨"Sheet1", [⟨[⟨"Hello {{{name}}}", true, []⟩, ⟨"x", true, []⟩], 0⟩], []⟩]⟩,
        none) := by
    simp only [RenderWithOptions, renderSheets, fileHello, docOk, getRows, cloneSheet,
      wrapSheet, Option.getD_some, List.map_nil, List.foldl_nil,
      hr ⟨true⟩ rowHello (by decide) rfl, hc ⟨true⟩ rowHello (by decide) rfl]
    rfl
  have h2 : RenderWithOptions envId docOk
      ⟨some [⟨"Sheet1", [⟨[⟨"Hello {{name}}", true, []⟩, ⟨"x", true, []⟩], 2, 0⟩], []⟩],
        some [⟨"Sheet1", [⟨[⟨"Hello {{{name}}}", true, []⟩, ⟨"x", true, []⟩], 0⟩], []⟩]⟩
      payload none =
      (⟨some [⟨"Sheet1", [⟨[⟨"Hello {{name}}", true, []⟩, ⟨"x", true, []⟩], 2, 0⟩], []⟩],
        some [⟨"Sheet1", [⟨[⟨"Hello {{{name}}}", true, []⟩, ⟨"x", true, []⟩], 0⟩], []⟩]⟩,
        none) := by
    simp only [RenderWithOptions, renderSheets, docOk, getRows, cloneSheet,
      wrapSheet, Option.getD_none, List.map_nil, List.foldl_nil,
      hr {} ⟨[⟨"Hello {{name}}", true, []⟩, ⟨"x", true, []⟩], 2, 0⟩ (by decide) rfl,
      hc {} ⟨[⟨"Hello {{name}}", true, []⟩, ⟨"x", true, []⟩], 2, 0⟩ (by decide) rfl]
    rfl
  simp only [applyOps, applyOp, h1, h2]

/-! ## Lemmas on matching a property name -/

theorem matchStar_all (p : Char → Bool) (cap : Bool) (k : List Char → Option (List Char))
    (w rest g : List Char) (hw : ∀ c ∈ w, p c = true)
    (hrest : ∀ c t, rest = c :: t → p c = false) (hk : k rest = some g) :
    matchStar p cap k (w ++ rest) = some (if cap then w ++ g else g) := by
  induction w with
  | nil =>
    cases rest with
    | nil => simpa [matchStar] using hk
    | cons c t =>
      rw [List.nil_append, matchStar, if_neg (by simp [hrest c t rfl]), hk]
      simp
  | cons c w ih =>
    rw [List.cons_append, matchStar, if_pos (hw c (List.mem_cons_self _ _)),
      ih (fun d hd => hw d (List.mem_cons_of_mem _ hd))]
    cases cap <;> simp [keep]

theorem matchAt_lit (c : Char) (as : List Atom) (s : List Char) :
    matchAt (lit c :: as) (c :: s) = matchAt as s := by
  rw [matchAt]
  unfold matchAtom
  simp only [lit, beq_self_eq_true, if_true, keep]
  cases matchAt as s <;> rfl

theorem matchAt_star (p : Char → Bool) (cap : Bool) (as : List Atom) (s : List Char) :
    matchAt (⟨p, Rep.star, cap⟩ :: as) s = matchStar p cap (matchAt as) s := by
  rw [matchAt]
  rfl

theorem matchAt_plus (p : Char → Bool) (cap : Bool) (as : List Atom) (c : Char)
    (s : List Char) (hc : p c = true) :
    matchAt (⟨p, Rep.plus, cap⟩ :: as) (c :: s) =
      (matchStar p cap (matchAt as) s).map (keep cap c) := by
  rw [matchAt]
  unfold matchAtom
  simp only [hc, if_true]

theorem isWord_not_isSpace (c : Char) (h : isWord c = true) : isSpace c = false := by
  unfold isWord at h
  unfold isSpace
  simp only [Bool.or_eq_true, Bool.and_eq_true, decide_eq_true_eq, beq_iff_eq] at h
  simp only [Bool.or_eq_false_iff, beq_eq_false_iff_ne, ne_eq]
  omega

theorem isSpace_not_isWord (c : Char) (h : isSpace c = true) : isWord c = false := by
  cases hw : isWord c with
  | false => rfl
  | true => rw [isWord_not_isSpace c hw] at h; exact Bool.noConfusion h

/-- The closing part `\s*\}\}` matches white space followed by `}}`. -/
theorem matchAt_closeBraces (ws : List Char) (hws : ∀ c ∈ ws, isSpace c = true) :
    matchAt closeBraces (ws ++ ['}', '}']) = some [] := by
  unfold closeBraces
  rw [matchAt_star, matchStar_all isSpace false _ ws ['}', '}'] [] hws
    (by intro c t h; simp only [List.cons.injEq] at h; rw [← h.1]; decide)
    (by rw [matchAt_lit, matchAt_lit]; rfl)]
  rfl

theorem head_not_word (ws : List Char) (hws : ∀ c ∈ ws, isSpace c = true) :
    ∀ c t, ws ++ ['}', '}'] = c :: t → isWord c = false := by
  intro c t h
  cases ws with
  | nil =>
    simp only [List.nil_append, List.cons.injEq] at h
    rw [← h.1]
    decide
  | cons d ws =>
    simp only [List.cons_append, List.cons.injEq] at h
    rw [← h.1]
    exact isSpace_not_isWord d (hws d (List.mem_cons_self _ _))

/-- The range-start pattern on `{{`, white space, `range`, white space, a name
of word characters, white space, `}}`: it matches and captures the name. -/
theorem matchAt_rangeRgx_name (ws1 ws2 ws3 : List Char) (c : Char) (w : List Char)
    (h1 : ∀ d ∈ ws1, isSpace d = true) (s2 : Char) (h2 : isSpace s2 = true)
    (h2s : ∀ d ∈ ws2, isSpace d = true) (h3 : ∀ d ∈ ws3, isSpace d = true)
    (hc : isWord c = true) (hw : ∀ d ∈ w, isWord d = true) :
    matchAt rangeRgx
        (['{', '{'] ++ ws1 ++ ['r', 'a', 'n', 'g', 'e'] ++ (s2 :: ws2) ++ (c :: w) ++ ws3 ++
          ['}', '}']) = some (c :: w) := by
  have hname : matchAt (⟨isWord, Rep.plus, true⟩ :: closeBraces) ((c :: w) ++ (ws3 ++ ['}', '}'])) =
      some (c :: w) := by
    rw [List.cons_append, matchAt_plus isWord true _ c _ hc,
      matchStar_all isWord true _ w (ws3 ++ ['}', '}']) [] hw (head_not_word ws3 h3)
        (matchAt_closeBraces ws3 h3)]
    simp [keep]
  have hsp : matchAt (⟨isSpace, Rep.plus, false⟩ :: ⟨isWord, Rep.plus, true⟩ :: closeBraces)
      ((s2 :: ws2) ++ ((c :: w) ++ (ws3 ++ ['}', '}']))) = some (c :: w) := by
    rw [List.cons_append, matchAt_plus isSpace false _ s2 _ h2,
      matchStar_all isSpace false _ ws2 _ (c :: w) h2s
        (by intro d t h; simp only [List.cons_append, List.cons.injEq] at h; rw [← h.1]
            exact isWord_not_isSpace c hc)
        hname]
    simp [keep]
  have hshape : ['{', '{'] ++ ws1 ++ ['r', 'a', 'n', 'g', 'e'] ++ (s2 :: ws2) ++ (c :: w) ++ ws3 ++
      ['}', '}'] = '{' :: '{' :: (ws1 ++ ('r' :: 'a' :: 'n' :: 'g' :: 'e' ::
        ((s2 :: ws2) ++ ((c :: w) ++ (ws3 ++ ['}', '}']))))) := by
    simp
  rw [hshape]
  show matchAt (lit '{' :: lit '{' :: ⟨isSpace, Rep.star, false⟩ :: lit 'r' :: lit 'a' ::
    lit 'n' :: lit 'g' :: lit 'e' :: ⟨isSpace, Rep.plus, false⟩ :: ⟨isWord, Rep.plus, true⟩ ::
    closeBraces) _ = _
  rw [matchAt_lit, matchAt_lit, matchAt_star,
    matchStar_all isSpace false _ ws1 _ (c :: w) h1
      (by intro d t h; simp only [List.cons.injEq] at h; rw [← h.1]; decide)
      (by rw [matchAt_lit, matchAt_lit, matchAt_lit, matchAt_lit, matchAt_lit]; exact hsp)]
  rfl

/-- The list-field pattern on `{{`, white space, a name, `.`, a field name,
white space, `}}`: it matches and captures the name. -/
theorem matchAt_rgx_name (ws1 ws3 : List Char) (c : Char) (w : List Char) (f : Char)
    (fs : List Char) (h1 : ∀ d ∈ ws1, isSpace d = true) (h3 : ∀ d ∈ ws3, isSpace d = true)
    (hc : isWord c = true) (hw : ∀ d ∈ w, isWord d = true)
    (hf : isWord f = true) (hfs : ∀ d ∈ fs, isWord d = true) :
    matchAt rgx (['{', '{'] ++ ws1 ++ (c :: w) ++ ['.'] ++ (f :: fs) ++ ws3 ++ ['}', '}']) =
      some (c :: w) := by
  have hfield : matchAt (⟨isWord, Rep.plus, false⟩ :: closeBraces)
      ((f :: fs) ++ (ws3 ++ ['}', '}'])) = some [] := by
    rw [List.cons_append, matchAt_plus isWord false _ f _ hf,
      matchStar_all isWord false _ fs (ws3 ++ ['}', '}']) [] hfs (head_not_word ws3 h3)
        (matchAt_closeBraces ws3 h3)]
    simp [keep]
  have hname : matchAt (⟨isWord, Rep.plus, true⟩ :: lit '.' :: ⟨isWord, Rep.plus, false⟩ ::
      closeBraces) ((c :: w) ++ ('.' :: ((f :: fs) ++ (ws3 ++ ['}', '}'])))) = some (c :: w) := by
    rw [List.cons_append, matchAt_plus isWord true _ c _ hc,
      matchStar_all isWord true _ w _ [] hw
        (by intro d t h; simp only [List.cons.injEq] at h; rw [← h.1]; decide)
        (by rw [matchAt_lit]; exact hfield)]
    simp [keep]
  have hshape : ['{', '{'] ++ ws1 ++ (c :: w) ++ ['.'] ++ (f :: fs) ++ ws3 ++ ['}', '}'] =
      '{' :: '{' :: (ws1 ++ ((c :: w) ++ ('.' :: ((f :: fs) ++ (ws3 ++ ['}', '}']))))) := by
    simp
  rw [hshape]
  show matchAt (lit '{' :: lit '{' :: ⟨isSpace, Rep.star, false⟩ :: ⟨isWord, Rep.plus, true⟩ ::
    lit '.' :: ⟨isWord, Rep.plus, false⟩ :: closeBraces) _ = _
  rw [matchAt_lit, matchAt_lit, matchAt_star,
    matchStar_all isSpace false _ ws1 _ (c :: w) h1
      (by intro d t h; simp only [List.cons_append, List.cons.injEq] at h; rw [← h.1]
          exact isWord_not_isSpace c hc)
      hname]
  rfl

theorem findFirst_of_matchAt (re : List Atom) (c : Char) (s g : List Char)
    (h : matchAt re (c :: s) = some g) : findFirst re (c :: s) = some g := by
  rw [findFirst, h]

/-! ## Lemmas on the list-field scan -/

theorem matchAt_rgx_ne_nil (s g : List Char) (h : matchAt rgx s = some g) : g ≠ [] := by
  have hsplit : rgx = openBraces ++
      (⟨isWord, Rep.plus, true⟩ :: ([lit '.', ⟨isWord, Rep.plus, false⟩] ++ closeBraces)) := by
    simp [rgx]
  rw [hsplit] at h
  obtain ⟨s2, h2⟩ := matchAt_nocap_append _ _ (by simp [openBraces, lit]) s g h
  exact matchAt_plus_cap _ _ _ _ h2

theorem findFirst_rgx_ne_nil (s g : List Char) (h : findFirst rgx s = some g) : g ≠ [] := by
  induction s with
  | nil => exact matchAt_rgx_ne_nil [] g (by simpa [findFirst] using h)
  | cons c cs ih =>
    rw [findFirst] at h
    cases hm : matchAt rgx (c :: cs) with
    | none => rw [hm] at h; exact ih h
    | some g2 =>
      rw [hm] at h
      simp at h
      subst h
      exact matchAt_rgx_ne_nil _ _ hm

theorem firstSubmatch_rgx_ne_empty (s p : String) (h : firstSubmatch rgx s = some p) :
    p ≠ "" := by
  unfold firstSubmatch at h
  cases hf : findFirst rgx s.data with
  | none => rw [hf] at h; simp at h
  | some g =>
    rw [hf] at h
    simp only [Option.map_some', Option.some.injEq] at h
    subst h
    intro he
    exact findFirst_rgx_ne_nil _ _ hf (by simpa using congrArg String.data he)

theorem firstSubmatch_rgx_empty : firstSubmatch rgx "" = none := by decide

/-- The scan returns the capture of the first cell that matches. -/
theorem getListPropFrom_first (r : Row) (i : Nat) (p : String)
    (hp : firstSubmatch rgx (r.GetCell i).Value = some p) :
    ∀ (n i0 : Nat), i0 ≤ i → i < i0 + n →
      (∀ j, i0 ≤ j → j < i → firstSubmatch rgx (r.GetCell j).Value = none) →
      getListPropFrom r n i0 = p := by
  intro n
  induction n with
  | zero => intro i0 h1 h2; omega
  | succ n ih =>
    intro i0 h1 h2 hbefore
    rw [getListPropFrom]
    by_cases hi : i0 = i
    · subst hi
      have hne : (r.GetCell i0).Value ≠ "" := by
        intro he
        rw [he, firstSubmatch_rgx_empty] at hp
        exact Option.noConfusion hp
      simp only [hne, if_false, hp]
    · have hnone := hbefore i0 (Nat.le_refl _) (by omega)
      have hrec := ih (i0 + 1) (by omega) (by omega)
        (fun j hj1 hj2 => hbefore j (by omega) hj2)
      by_cases he : (r.GetCell i0).Value = ""
      · simp only [he, if_true]
        exact hrec
      · simp only [he, if_false, hnone]
        exact hrec

/-- The scan returns `""` exactly when no scanned cell matches. -/
theorem getListPropFrom_eq_empty_iff (r : Row) :
    ∀ (n i0 : Nat), getListPropFrom r n i0 = "" ↔
      ∀ j, i0 ≤ j → j < i0 + n → firstSubmatch rgx (r.GetCell j).Value = none := by
  intro n
  induction n with
  | zero =>
    intro i0
    simp only [getListPropFrom, true_iff]
    intro j h1 h2
    omega
  | succ n ih =>
    intro i0
    rw [getListPropFrom]
    have hsplit : (∀ j, i0 ≤ j → j < i0 + (n + 1) →
          firstSubmatch rgx (r.GetCell j).Value = none) ↔
        (firstSubmatch rgx (r.GetCell i0).Value = none ∧
          ∀ j, i0 + 1 ≤ j → j < i0 + 1 + n → firstSubmatch rgx (r.GetCell j).Value = none) := by
      constructor
      · intro h
        exact ⟨h i0 (Nat.le_refl _) (by omega), fun j h1 h2 => h j (by omega) (by omega)⟩
      · intro h j h1 h2
        by_cases hj : j = i0
        · rw [hj]; exact h.1
        · exact h.2 j (by omega) (by omega)
    rw [hsplit]
    by_cases he : (r.GetCell i0).Value = ""
    · simp only [he, if_true, firstSubmatch_rgx_empty, true_and]
      exact ih (i0 + 1)
    · simp only [he, if_false]
      cases hm : firstSubmatch rgx (r.GetCell i0).Value with
      | none =>
        simp only [true_and]
        exact ih (i0 + 1)
      | some p =>
        constructor
        · intro h
          exact absurd h (firstSubmatch_rgx_ne_empty _ p hm)
        · intro h
          exact Option.noConfusion h.1

/-- The search of a pattern in a text finds the match that starts first. -/
theorem findFirst_leftmost (re : List Atom) (pre s g : List Char) (hs : s ≠ [])
    (hpre : ∀ a b, pre = a ++ b → b ≠ [] → matchAt re (b ++ s) = none)
    (hm : matchAt re s = some g) : findFirst re (pre ++ s) = some g := by
  induction pre with
  | nil =>
    cases s with
    | nil => exact absurd rfl hs
    | cons c t => exact findFirst_of_matchAt re c t g hm
  | cons c pre ih =>
    have h0 := hpre [] (c :: pre) rfl (by simp)
    rw [List.cons_append] at h0 ⊢
    rw [findFirst, h0]
    exact ih (fun a b hab hb => hpre (c :: a) b (by rw [hab]; rfl) hb)

/-! ## C15: property names -/

theorem data_of_name (name : String) (hne : name.data ≠ []) :
    ∃ c w, name.data = c :: w ∧ name = String.mk (c :: w) := by
  cases hd : name.data with
  | nil => exact absurd hd hne
  | cons c w => exact ⟨c, w, rfl, by rw [← hd]⟩

/-- C15 (as amended): for every name of one or more ASCII word characters
(`0-9`, `A-Z`, `a-z`, `_`), a row of a sheet with a column whose first cell is
`{{ range <name> }}` is classified by `getRangeProp` as a range start with property
`<name>`, and a row whose first matching cell is `{{ <name>.<field> }}`, `<field>` being
such a name too, is classified by `getListProp` as a list-field row with property
`<name>`. -/
theorem scanner_word_names (name : String) (hne : name.data ≠ [])
    (hw : ∀ c ∈ name.data, isWord c = true) :
    (∀ r : Row, r.MaxCol ≠ 0 →
        (r.GetCell 0).Value = "\x7b\x7b range " ++ name ++ " \x7d\x7d" →
        getRangeProp r = name) ∧
      ∀ (r : Row) (field : String) (i : Nat), field.data ≠ [] →
        (∀ c ∈ field.data, isWord c = true) → i < r.MaxCol →
        (∀ j, j < i → firstSubmatch rgx (r.GetCell j).Value = none) →
        (r.GetCell i).Value = "\x7b\x7b " ++ name ++ "." ++ field ++ " \x7d\x7d" →
        getListProp r = name := by
  obtain ⟨c, w, hd, hname⟩ := data_of_name name hne
  have hc : isWord c = true := hw c (by rw [hd]; exact List.mem_cons_self _ _)
  have hws : ∀ d ∈ w, isWord d = true := fun d h => hw d (by rw [hd]; exact List.mem_cons_of_mem _ h)
  have hsp : ∀ d ∈ [' '], isSpace d = true := by decide
  constructor
  · intro r hcol hval
    have hm := matchAt_rangeRgx_name [' '] [] [' '] c w hsp ' ' (by decide)
      (by intro d h; cases h) hsp hc hws
    have hdata : ("\x7b\x7b range " ++ name ++ " \x7d\x7d").data =
        ['{', '{'] ++ [' '] ++ ['r', 'a', 'n', 'g', 'e'] ++ (' ' :: []) ++ (c :: w) ++ [' '] ++
          ['}', '}'] := by
      simp only [String.data_append, hd]
      simp
    have hff : findFirst rangeRgx (r.GetCell 0).Value.data = some (c :: w) := by
      rw [hval, hdata]
      exact findFirst_of_matchAt rangeRgx '{' _ _ hm
    unfold getRangeProp firstSubmatch
    rw [if_pos hcol, hff, hname]
    rfl
  · intro r field i hfne hfw hi hbefore hval
    obtain ⟨f, fs, hfd, _⟩ := data_of_name field hfne
    have hf : isWord f = true := hfw f (by rw [hfd]; exact List.mem_cons_self _ _)
    have hfs : ∀ d ∈ fs, isWord d = true :=
      fun d h => hfw d (by rw [hfd]; exact List.mem_cons_of_mem _ h)
    have hm := matchAt_rgx_name [' '] [' '] c w f fs hsp hsp hc hws hf hfs
    have hdata : ("\x7b\x7b " ++ name ++ "." ++ field ++ " \x7d\x7d").data =
        ['{', '{'] ++ [' '] ++ (c :: w) ++ ['.'] ++ (f :: fs) ++ [' '] ++ ['}', '}'] := by
      simp only [String.data_append, hd, hfd]
      simp
    have hff0 : findFirst rgx
        (['{', '{'] ++ [' '] ++ (c :: w) ++ ['.'] ++ (f :: fs) ++ [' '] ++ ['}', '}']) =
        some (c :: w) := findFirst_of_matchAt rgx '{' _ _ hm
    have hff : firstSubmatch rgx (r.GetCell i).Value = some name := by
      unfold firstSubmatch
      rw [hval, hdata, hff0, hname]
      rfl
    exact getListPropFrom_first r i name hff r.MaxCol 0 (Nat.zero_le _) (by omega)
      (fun j _ hj => hbefore j hj)

/-- C15, witness: the name `emp_1`. -/
theorem scanner_word_names_witness :
    "emp_1".data ≠ [] ∧ (∀ c ∈ "emp_1".data, isWord c = true) ∧
      getRangeProp (textRow ["\x7b\x7b range " ++ "emp_1" ++ " \x7d\x7d"]) = "emp_1" :=
  ⟨by decide, by decide,
    (scanner_word_names "emp_1" (by decide) (by decide)).1
      (textRow ["\x7b\x7b range " ++ "emp_1" ++ " \x7d\x7d"]) (by decide) rfl⟩

/-- C15, counterexample: the name `é` is one Unicode letter (U+00E9), and neither
`{{ range é }}` nor `{{ é.name }}` is classified: Go's `\w` holds ASCII characters only. -/
theorem scanner_unicode_name_counterexample :
    "é".data.map Char.toNat = [233] ∧
      getRangeProp (textRow ["{{ range é }}"]) = "" ∧
      getListProp (textRow ["{{ é.name }}"]) = "" := by
  decide

/-! ## C17: list-field detection -/

/-- C17 (list-field detection returns the first match): `getListProp` scans the cells at
the columns `0 .. MaxCol-1` from left to right and returns the property captured by the
leftmost match of the list-field pattern in the first cell that has a match; it returns
`""` if and only if no scanned cell has a match (an empty cell has none), and the cells to
the right of the first matching cell do not change the result. -/
theorem getListProp_first_match (r : Row) :
    (getListProp r = "" ↔
        ∀ j, j < r.MaxCol → firstSubmatch rgx (r.GetCell j).Value = none) ∧
      (∀ (i : Nat) (p : String), i < r.MaxCol →
        (∀ j, j < i → firstSubmatch rgx (r.GetCell j).Value = none) →
        firstSubmatch rgx (r.GetCell i).Value = some p → getListProp r = p ∧ p ≠ "") ∧
      (∀ (r2 : Row) (i : Nat) (p : String), r2.MaxCol = r.MaxCol → i < r.MaxCol →
        (∀ j, j ≤ i → r2.GetCell j = r.GetCell j) →
        (∀ j, j < i → firstSubmatch rgx (r.GetCell j).Value = none) →
        firstSubmatch rgx (r.GetCell i).Value = some p → getListProp r2 = getListProp r) ∧
      (∀ (c : Cell), c.Value = "" → firstSubmatch rgx c.Value = none) ∧
      ∀ (pre s g : List Char), s ≠ [] →
        (∀ a b, pre = a ++ b → b ≠ [] → matchAt rgx (b ++ s) = none) →
        matchAt rgx s = some g → firstSubmatch rgx (String.mk (pre ++ s)) = some (String.mk g) := by
  have hfirst : ∀ (r : Row) (i : Nat) (p : String), i < r.MaxCol →
      (∀ j, j < i → firstSubmatch rgx (r.GetCell j).Value = none) →
      firstSubmatch rgx (r.GetCell i).Value = some p → getListProp r = p :=
    fun r i p hi hb hp =>
      getListPropFrom_first r i p hp r.MaxCol 0 (Nat.zero_le _) (by omega) (fun j _ hj => hb j hj)
  refine ⟨?_, fun i p hi hb hp => ⟨hfirst r i p hi hb hp, firstSubmatch_rgx_ne_empty _ p hp⟩,
    ?_, ?_, ?_⟩
  · unfold getListProp
    rw [getListPropFrom_eq_empty_iff r r.MaxCol 0]
    constructor
    · intro h j hj
      exact h j (Nat.zero_le _) (by omega)
    · intro h j _ hj
      exact h j (by omega)
  · intro r2 i p hcol hi hsame hb hp
    rw [hfirst r i p hi hb hp]
    apply hfirst r2 i p (by omega)
    · intro j hj
      rw [hsame j (by omega)]
      exact hb j hj
    · rw [hsame i (Nat.le_refl _)]
      exact hp
  · intro c hc
    rw [hc]
    exact firstSubmatch_rgx_empty
  · intro pre s g hs hpre hm
    unfold firstSubmatch
    show Option.map String.mk (findFirst rgx (pre ++ s)) = _
    rw [findFirst_leftmost rgx pre s g hs hpre hm]
    rfl

/-! ## C16: the range matcher characterised -/

theorem least_shift (P Q : Nat → Prop) (h0 : ¬ P 0) (hs : ∀ i, P (i + 1) ↔ Q i)
    (k idx : Nat) :
    (∃ i, k = idx + 1 + i ∧ Q i ∧ ∀ j, j < i → ¬ Q j) ↔
      (∃ i, k = idx + i ∧ P i ∧ ∀ j, j < i → ¬ P j) := by
  constructor
  · rintro ⟨i, hk, hq, hleast⟩
    refine ⟨i + 1, by omega, (hs i).mpr hq, ?_⟩
    intro j hj
    cases j with
    | zero => exact h0
    | succ j => exact fun hp => hleast j (by omega) ((hs j).mp hp)
  · rintro ⟨i, hk, hp, hleast⟩
    cases i with
    | zero => exact absurd hp h0
    | succ i =>
      refine ⟨i, by omega, (hs i).mp hp, ?_⟩
      intro j hj hq
      exact hleast (j + 1) (by omega) ((hs j).mpr hq)

theorem balancedEnd_zero (n : Nat) (r : Row) (rs : List Row) :
    BalancedEnd n (r :: rs) 0 ↔ endCell r = true ∧ n = 0 := by
  unfold BalancedEnd
  simp only [List.getElem?_cons_zero, Option.some.injEq, List.take_zero, List.countP_nil,
    Nat.add_zero]
  constructor
  · rintro ⟨r2, rfl, he, hn⟩
    exact ⟨he, hn⟩
  · rintro ⟨he, hn⟩
    exact ⟨r, rfl, he, hn⟩

theorem balancedEnd_succ (n : Nat) (r : Row) (rs : List Row) (i : Nat) :
    BalancedEnd n (r :: rs) (i + 1) ↔
      ∃ r2, rs[i]? = some r2 ∧ endCell r2 = true ∧
        n + ((rs.take i).countP startCell + if startCell r = true then 1 else 0) =
          (rs.take i).countP endCell + if endCell r = true then 1 else 0 := by
  unfold BalancedEnd
  simp only [List.getElem?_cons_succ, List.take_succ_cons, List.countP_cons]

theorem getRangeEndIndexFrom_spec (rows : List Row) (hcol : ∀ r ∈ rows, r.MaxCol ≠ 0) :
    ∀ (n idx k : Nat), getRangeEndIndexFrom rows n idx = some k ↔
      ∃ i, k = idx + i ∧ BalancedEnd n rows i ∧ ∀ j, j < i → ¬ BalancedEnd n rows j := by
  induction rows with
  | nil =>
    intro n idx k
    simp only [getRangeEndIndexFrom]
    constructor
    · intro h
      exact Option.noConfusion h
    · rintro ⟨i, _, ⟨r, hr, _⟩, _⟩
      simp at hr
  | cons r rs ih =>
    intro n idx k
    have hr := hcol r (List.mem_cons_self _ _)
    have ih2 := ih (fun x hx => hcol x (List.mem_cons_of_mem _ hx))
    rw [getRangeEndIndexFrom, if_neg hr]
    by_cases he : matchString rangeEndRgx (r.GetCell 0).Value = true
    · have hec : endCell r = true := he
      have hsc : startCell r = false := by simp [startCell, hec]
      rw [if_pos he]
      by_cases hn : n = 0
      · rw [if_pos hn]
        subst hn
        have h0 : BalancedEnd 0 (r :: rs) 0 := (balancedEnd_zero 0 r rs).mpr ⟨hec, rfl⟩
        constructor
        · intro hk
          simp only [Option.some.injEq] at hk
          exact ⟨0, by omega, h0, fun j hj => by omega⟩
        · rintro ⟨i, hk, _, hleast⟩
          cases i with
          | zero => simp [hk]
          | succ i => exact absurd h0 (hleast 0 (by omega))
      · rw [if_neg hn, ih2 (n - 1) (idx + 1) k]
        apply least_shift (BalancedEnd n (r :: rs)) (BalancedEnd (n - 1) rs)
        · rw [balancedEnd_zero]
          exact fun h => hn h.2
        · intro i
          rw [balancedEnd_succ]
          unfold BalancedEnd
          simp only [hsc, hec, if_true, Bool.false_eq_true, if_false, Nat.add_zero]
          constructor
          · rintro ⟨r2, h1, h2, h3⟩
            exact ⟨r2, h1, h2, by omega⟩
          · rintro ⟨r2, h1, h2, h3⟩
            exact ⟨r2, h1, h2, by omega⟩
    · have hec : endCell r = false := by simpa [endCell] using he
      rw [if_neg he]
      have h0 : ¬ BalancedEnd n (r :: rs) 0 := by
        rw [balancedEnd_zero, hec]
        exact fun h => Bool.noConfusion h.1
      by_cases hs : matchString rangeRgx (r.GetCell 0).Value = true
      · have hsc : startCell r = true := by simp [startCell, hs, hec]
        rw [if_pos hs, ih2 (n + 1) (idx + 1) k]
        apply least_shift (BalancedEnd n (r :: rs)) (BalancedEnd (n + 1) rs) h0
        intro i
        rw [balancedEnd_succ]
        unfold BalancedEnd
        simp only [hsc, hec, if_true, Bool.false_eq_true, if_false, Nat.add_zero]
        constructor
        · rintro ⟨r2, h1, h2, h3⟩
          exact ⟨r2, h1, h2, by omega⟩
        · rintro ⟨r2, h1, h2, h3⟩
          exact ⟨r2, h1, h2, by omega⟩
      · have hsc : startCell r = false := by simp [startCell, hs]
        rw [if_neg hs, ih2 n (idx + 1) k]
        apply least_shift (BalancedEnd n (r :: rs)) (BalancedEnd n rs) h0
        intro i
        rw [balancedEnd_succ]
        unfold BalancedEnd
        simp only [hsc, hec, Bool.false_eq_true, if_false, Nat.add_zero]

theorem getRangeEndIndexFrom_noCols (rows : List Row) (h : ∀ r ∈ rows, r.MaxCol = 0) :
    ∀ (n idx : Nat), getRangeEndIndexFrom rows n idx = none := by
  induction rows with
  | nil => intro n idx; rfl
  | cons r rs ih =>
    intro n idx
    rw [getRangeEndIndexFrom, if_pos (h r (List.mem_cons_self _ _))]
    exact ih (fun x hx => h x (List.mem_cons_of_mem _ hx)) n (idx + 1)

/-- C16 (range matcher characterisation): on the rows of a sheet with at least one
column, `getRangeEndIndex` returns the least index `i` such that `rows[i]` is an end and
the number of starts in `rows[0..i)` equals the number of ends in `rows[0..i)`; it returns
not-found if and only if there is no such index; and on the rows of a sheet with no column
it returns not-found for every row list. -/
theorem getRangeEndIndex_least_balanced (rows : List Row) (hcol : ∀ r ∈ rows, r.MaxCol ≠ 0) :
    (∀ i, getRangeEndIndex rows = some i ↔
        (BalancedEnd 0 rows i ∧ ∀ j, j < i → ¬ BalancedEnd 0 rows j)) ∧
      (getRangeEndIndex rows = none ↔ ∀ i, ¬ BalancedEnd 0 rows i) ∧
      (∀ i, BalancedEnd 0 rows i ↔
        ∃ r, rows[i]? = some r ∧ endCell r = true ∧
          (rows.take i).countP startCell = (rows.take i).countP endCell) ∧
      ∀ rows0 : List Row, (∀ r ∈ rows0, r.MaxCol = 0) → getRangeEndIndex rows0 = none := by
  have hspec := getRangeEndIndexFrom_spec rows hcol 0 0
  have hsome : ∀ i, getRangeEndIndex rows = some i ↔
      (BalancedEnd 0 rows i ∧ ∀ j, j < i → ¬ BalancedEnd 0 rows j) := by
    intro i
    unfold getRangeEndIndex
    rw [hspec i]
    constructor
    · rintro ⟨i2, hk, hb, hl⟩
      have : i = i2 := by omega
      subst this
      exact ⟨hb, hl⟩
    · rintro ⟨hb, hl⟩
      exact ⟨i, by omega, hb, hl⟩
  refine ⟨hsome, ?_, ?_, fun rows0 h => getRangeEndIndexFrom_noCols rows0 h 0 0⟩
  · constructor
    · intro hnone i hb
      have hex : ∃ i, BalancedEnd 0 rows i := ⟨i, hb⟩
      classical
      have hmin := Nat.find_spec hex
      have hleast : ∀ j, j < Nat.find hex → ¬ BalancedEnd 0 rows j :=
        fun j hj => Nat.find_min hex hj
      have := (hsome (Nat.find hex)).mpr ⟨hmin, hleast⟩
      rw [hnone] at this
      exact Option.noConfusion this
    · intro hno
      cases hg : getRangeEndIndex rows with
      | none => rfl
      | some i => exact absurd ((hsome i).mp hg).1 (hno i)
  · intro i
    unfold BalancedEnd
    simp only [Nat.zero_add]

/-- C16, witness: a nested range, then the end that closes the enclosing range. -/
theorem getRangeEndIndex_least_balanced_witness :
    (∀ r ∈ [rowText, rowRangeB, rowText, rowEnd, rowEnd, rowEnd], r.MaxCol ≠ 0) ∧
      getRangeEndIndex [rowText, rowRangeB, rowText, rowEnd, rowEnd, rowEnd] = some 4 ∧
      BalancedEnd 0 [rowText, rowRangeB, rowText, rowEnd, rowEnd, rowEnd] 4 :=
  have h := getRangeEndIndex_least_balanced
    [rowText, rowRangeB, rowText, rowEnd, rowEnd, rowEnd] (by decide)
  ⟨by decide, by decide, ((h.1 4).mp (by decide)).1⟩

/-! ## The engine only appends to the sheet -/

theorem Res.onto_onto (s1 s2 : List NewRow) (r : Res) :
    Res.onto s1 (Res.onto s2 r) = Res.onto (s1 ++ s2) r := by
  simp [Res.onto, List.append_assoc]

theorem renderOne_onto (env : Env) (o : Options) (row : Row) (ctx : Ctx) (sheet : List NewRow) :
    renderOne env o row ctx sheet = Res.onto sheet (renderOne env o row ctx []) := by
  unfold renderOne Res.onto
  rcases cloneRow env row o with ⟨newRow, _ | e⟩ <;> simp

theorem fanOut_onto (env : Env) (o : Options) (row : Row) (prop : String) (vs : List Value) :
    ∀ (ctx : Ctx) (sheet : List NewRow),
      fanOut env o row prop vs ctx sheet = Res.onto sheet (fanOut env o row prop vs ctx []) := by
  induction vs with
  | nil => intro ctx sheet; simp [fanOut, Res.onto]
  | cons v vs ih =>
    intro ctx sheet
    rw [fanOut, fanOut]
    rcases cloneRow env row o with ⟨newRow, _ | e⟩
    · simp only
      cases ctx.assign prop v with
      | error e => simp [Res.onto]
      | ok ctx1 =>
        simp only
        rcases renderRow env newRow ctx1 with ⟨r, _ | e⟩
        · simp only
          rw [ih ctx1 (sheet ++ [r]), ih ctx1 ([] ++ [r]), Res.onto_onto]
          simp
        · simp [Res.onto]
    · simp [Res.onto]

theorem rowStep_onto (env : Env) (o : Options) (row : Row) (ctx : Ctx) (sheet : List NewRow) :
    rowStep env o row ctx sheet = Res.onto sheet (rowStep env o row ctx []) := by
  unfold rowStep
  by_cases hl : getListProp row = ""
  · rw [if_pos hl, if_pos hl]
    exact renderOne_onto env o row ctx sheet
  · rw [if_neg hl, if_neg hl]
    cases isArray ctx (getListProp row) with
    | error e => simp [Res.onto]
    | ok b =>
      cases b with
      | false => exact renderOne_onto env o row ctx sheet
      | true =>
        simp only
        rw [fanOut_onto env o row _ _ ctx sheet]
        generalize fanOut env o row (getListProp row)
          ((ctx.lookup (getListProp row)).getD Value.null).elems ctx [] = F
        obtain ⟨s1, c1, _ | e⟩ := F
        · simp only [Res.onto]
          cases c1.assign (getListProp row) ((ctx.lookup (getListProp row)).getD Value.null) <;>
            simp
        · simp [Res.onto]

theorem rangeLoop_onto (body : Ctx → List NewRow → Res) (ctx : Ctx)
    (hbody : ∀ c s, body c s = Res.onto s (body c [])) (subs : List Ctx) :
    ∀ sheet : List NewRow, rangeLoop body ctx subs sheet =
      (sheet ++ (rangeLoop body ctx subs []).1, (rangeLoop body ctx subs []).2) := by
  induction subs with
  | nil => intro sheet; simp [rangeLoop]
  | cons sub subs ih =>
    intro sheet
    rw [rangeLoop, rangeLoop, hbody (mergeCtx sub ctx) sheet]
    simp only [Res.onto]
    cases (body (mergeCtx sub ctx) []).err with
    | some e => simp
    | none =>
      simp only
      rw [ih (sheet ++ (body (mergeCtx sub ctx) []).sheet), ih (body (mergeCtx sub ctx) []).sheet]
      simp [List.append_assoc]

theorem renderRows_onto (env : Env) (o : Options) :
    ∀ (n : Nat) (rows : List Row), rows.length = n → ∀ (ctx : Ctx) (sheet : List NewRow),
      renderRows env o rows ctx sheet = Res.onto sheet (renderRows env o rows ctx []) := by
  intro n
  induction n using Nat.strong_induction_on with
  | _ n ih =>
    intro rows hlen ctx sheet
    cases rows with
    | nil => simp [renderRows_nil, Res.onto]
    | cons row rest =>
      simp only [List.length_cons] at hlen
      by_cases hr : getRangeProp row = ""
      · rw [renderRows_nonrange env o row rest ctx sheet hr,
          renderRows_nonrange env o row rest ctx [] hr, rowStep_onto env o row ctx sheet]
        generalize rowStep env o row ctx [] = R
        obtain ⟨s1, c1, _ | e⟩ := R
        · simp only [Res.onto]
          rw [ih rest.length (by omega) rest rfl c1 (sheet ++ s1),
            ih rest.length (by omega) rest rfl c1 s1]
          simp [Res.onto, List.append_assoc]
        · simp [Res.onto]
      · cases he : getRangeEndIndex rest with
        | none =>
          rw [renderRows_notClosed env o row rest ctx sheet hr he,
            renderRows_notClosed env o row rest ctx [] hr he]
          simp [Res.onto]
        | some e =>
          cases hc : getRangeCtx ctx (getRangeProp row) with
          | none =>
            rw [renderRows_invalidCtx env o row rest ctx sheet e hr he hc,
              renderRows_invalidCtx env o row rest ctx [] e hr he hc]
            simp [Res.onto]
          | some subs =>
            rw [renderRows_range env o row rest ctx sheet e subs hr he hc,
              renderRows_range env o row rest ctx [] e subs hr he hc,
              rangeLoop_onto (renderRows env o (List.take e rest)) ctx
                (fun c s => ih (List.take e rest).length
                  (by simp only [List.length_take]; omega) _ rfl c s) subs sheet]
            generalize rangeLoop (renderRows env o (List.take e rest)) ctx subs [] = L
            obtain ⟨s1, _ | err⟩ := L
            · simp only
              rw [ih (rest.drop (e + 1)).length (by simp only [List.length_drop]; omega) _ rfl
                  ctx (sheet ++ s1),
                ih (rest.drop (e + 1)).length (by simp only [List.length_drop]; omega) _ rfl
                  ctx s1]
              simp [Res.onto, List.append_assoc]
            · simp [Res.onto]

/-! ## C18: sequencing of row lists -/

theorem getRangeEndIndexFrom_bounds (rows : List Row) :
    ∀ (n idx k : Nat), getRangeEndIndexFrom rows n idx = some k →
      idx ≤ k ∧ k < idx + rows.length := by
  induction rows with
  | nil => intro n idx k h; simp [getRangeEndIndexFrom] at h
  | cons r rs ih =>
    intro n idx k h
    rw [getRangeEndIndexFrom] at h
    simp only [List.length_cons]
    split at h
    · have := ih _ _ _ h; omega
    · split at h
      · split at h
        · simp only [Option.some.injEq] at h; omega
        · have := ih _ _ _ h; omega
      · split at h
        · have := ih _ _ _ h; omega
        · have := ih _ _ _ h; omega

theorem getRangeEndIndex_lt (rows : List Row) (e : Nat) (h : getRangeEndIndex rows = some e) :
    e < rows.length := by
  have := getRangeEndIndexFrom_bounds rows 0 0 e h
  omega

theorem renderRows_append (env : Env) (o : Options) (ctx : Ctx) (b : List Row) :
    ∀ (n : Nat) (a : List Row), a.length = n → ∀ (sheet : List NewRow),
      (∀ (s : Row) (rest : List Row) (sheet1 : List NewRow),
        Reaches env o ctx a sheet (s :: rest) sheet1 → getRangeProp s ≠ "" →
        getRangeEndIndex rest ≠ none) →
      renderRows env o (a ++ b) ctx sheet =
        match (renderRows env o a ctx sheet).err with
        | some _ => renderRows env o a ctx sheet
        | none => renderRows env o b ctx (renderRows env o a ctx sheet).sheet := by
  intro n
  induction n using Nat.strong_induction_on with
  | _ n ih =>
    intro a hlen sheet hclosed
    cases a with
    | nil => simp [renderRows_nil]
    | cons row rest =>
      simp only [List.length_cons] at hlen
      rw [List.cons_append]
      by_cases hr : getRangeProp row = ""
      · rw [renderRows_nonrange env o row (rest ++ b) ctx sheet hr,
          renderRows_nonrange env o row rest ctx sheet hr]
        have hctx := rowStep_ctx env o row ctx sheet
        have hreach : (rowStep env o row ctx sheet).err = none →
            ∀ (s : Row) (rest1 : List Row) (sheet1 : List NewRow),
            Reaches env o ctx rest (rowStep env o row ctx sheet).sheet (s :: rest1) sheet1 →
            getRangeProp s ≠ "" → getRangeEndIndex rest1 ≠ none :=
          fun hok s rest1 sheet1 h => hclosed s rest1 sheet1 (Reaches.row row rest sheet _ _ hr hok h)
        generalize rowStep env o row ctx sheet = R at hctx hreach
        obtain ⟨s1, c1, _ | e⟩ := R
        · simp only at hctx hreach ⊢
          have := hctx trivial
          subst this
          exact ih rest.length (by omega) rest rfl s1 (hreach trivial)
        · rfl
      · have he0 := hclosed row rest sheet (Reaches.here _ _) hr
        obtain ⟨e, he⟩ := Option.ne_none_iff_exists'.mp he0
        have hlt := getRangeEndIndex_lt rest e he
        have he2 := getRangeEndIndex_append rest b e he
        cases hc : getRangeCtx ctx (getRangeProp row) with
        | none =>
          rw [renderRows_invalidCtx env o row (rest ++ b) ctx sheet e hr he2 hc,
            renderRows_invalidCtx env o row rest ctx sheet e hr he hc]
        | some subs =>
          have ht : List.take e (rest ++ b) = List.take e rest := by
            rw [List.take_append_of_le_length (by omega)]
          have hd : List.drop (e + 1) (rest ++ b) = List.drop (e + 1) rest ++ b := by
            rw [List.drop_append_of_le_length (by omega)]
          rw [renderRows_range env o row (rest ++ b) ctx sheet e subs hr he2 hc,
            renderRows_range env o row rest ctx sheet e subs hr he hc, ht, hd]
          have hreach : ∀ sheet2, rangeLoop (renderRows env o (List.take e rest)) ctx subs sheet =
              (sheet2, none) →
              ∀ (s : Row) (rest1 : List Row) (sheet1 : List NewRow),
              Reaches env o ctx (rest.drop (e + 1)) sheet2 (s :: rest1) sheet1 →
              getRangeProp s ≠ "" → getRangeEndIndex rest1 ≠ none :=
            fun sheet2 hl s rest1 sheet1 h =>
              hclosed s rest1 sheet1 (Reaches.block row rest sheet e subs sheet2 _ _ hr he hc hl h)
          generalize rangeLoop (renderRows env o (List.take e rest)) ctx subs sheet = L at hreach
          obtain ⟨s1, _ | err⟩ := L
          · simp only
            exact ih (rest.drop (e + 1)).length (by simp only [List.length_drop]; omega) _ rfl s1
              (hreach s1 rfl)
          · rfl

/-- C18 (sequencing of row lists): when every range-start row that `renderRows` reaches
while scanning `a` has its matching range-end inside `a`, `renderRows` on `a ++ b` is
`renderRows` on `a` followed, only if that succeeded, by `renderRows` on `b` under the same
context: the error is that of `a` if `a` fails and otherwise that of `b`, and the rows
appended are those of `a` followed by those of `b`. -/
theorem renderRows_sequencing (env : Env) (o : Options) (ctx : Ctx) (a b : List Row)
    (sheet : List NewRow)
    (hclosed : ∀ (s : Row) (rest : List Row) (sheet1 : List NewRow),
      Reaches env o ctx a sheet (s :: rest) sheet1 → getRangeProp s ≠ "" →
      getRangeEndIndex rest ≠ none) :
    (renderRows env o (a ++ b) ctx sheet =
        match (renderRows env o a ctx sheet).err with
        | some _ => renderRows env o a ctx sheet
        | none => renderRows env o b ctx (renderRows env o a ctx sheet).sheet) ∧
      ((renderRows env o a ctx sheet).err = none →
        (renderRows env o (a ++ b) ctx sheet).err = (renderRows env o b ctx []).err ∧
          (renderRows env o (a ++ b) ctx sheet).sheet =
            sheet ++ (renderRows env o a ctx []).sheet ++ (renderRows env o b ctx []).sheet) ∧
      ∀ e, (renderRows env o a ctx sheet).err = some e →
        (renderRows env o (a ++ b) ctx sheet).err = some e ∧
          (renderRows env o (a ++ b) ctx sheet).sheet =
            sheet ++ (renderRows env o a ctx []).sheet := by
  have hseq := renderRows_append env o ctx b a.length a rfl sheet hclosed
  have ha := renderRows_onto env o a.length a rfl ctx sheet
  refine ⟨hseq, ?_, ?_⟩
  · intro hok
    rw [hseq, hok]
    simp only
    rw [renderRows_onto env o b.length b rfl ctx (renderRows env o a ctx sheet).sheet, ha]
    simp [Res.onto]
  · intro e herr
    rw [hseq, herr]
    simp only
    rw [herr, ha]
    simp [Res.onto]

/-- C18, witness: `a` is a closed range with an empty body followed by a plain row. -/
theorem renderRows_sequencing_witness :
    (∀ (s : Row) (rest : List Row) (sheet1 : List NewRow),
        Reaches envId {} ctxEmployees [rowRangeEmployees, rowEnd] [] (s :: rest) sheet1 →
        getRangeProp s ≠ "" → getRangeEndIndex rest ≠ none) ∧
      renderRows envId {} ([rowRangeEmployees, rowEnd] ++ [rowHello]) ctxEmployees [] =
        match (renderRows envId {} [rowRangeEmployees, rowEnd] ctxEmployees []).err with
        | some _ => renderRows envId {} [rowRangeEmployees, rowEnd] ctxEmployees []
        | none => renderRows envId {} [rowHello] ctxEmployees
            (renderRows envId {} [rowRangeEmployees, rowEnd] ctxEmployees []).sheet :=
  have hclosed : ∀ (s : Row) (rest : List Row) (sheet1 : List NewRow),
      Reaches envId {} ctxEmployees [rowRangeEmployees, rowEnd] [] (s :: rest) sheet1 →
      getRangeProp s ≠ "" → getRangeEndIndex rest ≠ none := by
    intro s rest sheet1 h hs
    generalize hrows : [rowRangeEmployees, rowEnd] = rows at h
    generalize htarget : s :: rest = target at h
    cases h with
    | here _ _ =>
      rw [← hrows] at htarget
      simp only [List.cons.injEq] at htarget
      rw [htarget.2]
      decide
    | row r rest2 _ _ _ hr _ _ =>
      simp only [List.cons.injEq] at hrows
      rw [← hrows.1] at hr
      exact absurd hr (by decide)
    | block r rest2 _ e subs sheet2 _ _ hr he hc hl hre =>
      simp only [List.cons.injEq] at hrows
      rw [← hrows.2] at he hre
      have he0 : e = 0 := by
        have : getRangeEndIndex [rowEnd] = some 0 := by decide
        rw [this] at he
        exact (Option.some.inj he).symm
      subst he0
      generalize hnil : List.drop (0 + 1) [rowEnd] = l at hre
      have hl0 : l = [] := by rw [← hnil]; rfl
      subst hl0
      cases hre with
      | here _ _ => exact List.noConfusion htarget
  ⟨hclosed, (renderRows_sequencing envId {} ctxEmployees [rowRangeEmployees, rowEnd] [rowHello]
    [] hclosed).1⟩

/-! ## C19: termination and slice bounds -/

theorem drop_of_getElem? (rows : List Row) (i : Nat) (s : Row) (h : rows[i]? = some s) :
    rows.drop i = s :: rows.drop (i + 1) ∧ i < rows.length := by
  obtain ⟨hlt, hget⟩ := List.getElem?_eq_some.mp h
  refine ⟨?_, hlt⟩
  rw [List.drop_eq_getElem_cons hlt, hget]

/-- C19 (termination and slices in bounds): when the loop of `renderRows` is at a
range-start row `rows[ri0]` and skips it (`ri = ri0 + 1`), `ri <= len(rows)`; when the
matcher finds the end at offset `e` (`rangeEndIndex = ri + e`), then
`1 <= ri <= rangeEndIndex < len(rows)`, the slice `rows[ri:rangeEndIndex]` is the first `e`
rows after the start row and is strictly shorter than the rows being scanned, as are the
rows after the end row; the recursive calls of `renderRows`, a function defined by
well-founded recursion on the number of rows, are made on exactly these slices. -/
theorem renderRows_slices_in_bounds (rows : List Row) (ri0 e : Nat) (s : Row)
    (hs : rows[ri0]? = some s) (he : getRangeEndIndex (rows.drop (ri0 + 1)) = some e) :
    (1 ≤ ri0 + 1 ∧ ri0 + 1 ≤ rows.length) ∧
      (ri0 + 1 ≤ ri0 + 1 + e ∧ ri0 + 1 + e < rows.length) ∧
      (rows.take (ri0 + 1 + e)).drop (ri0 + 1) = (rows.drop (ri0 + 1)).take e ∧
      ((rows.take (ri0 + 1 + e)).drop (ri0 + 1)).length = e ∧
      ((rows.take (ri0 + 1 + e)).drop (ri0 + 1)).length < (rows.drop ri0).length ∧
      (rows.drop (ri0 + 1 + e + 1)).length < (rows.drop ri0).length ∧
      ∀ (env : Env) (o : Options) (ctx : Ctx) (sheet : List NewRow) (subs : List Ctx),
        getRangeProp s ≠ "" → getRangeCtx ctx (getRangeProp s) = some subs →
        renderRows env o (rows.drop ri0) ctx sheet =
          match rangeLoop (renderRows env o ((rows.take (ri0 + 1 + e)).drop (ri0 + 1)))
              ctx subs sheet with
          | (sheet1, some err) => ⟨sheet1, ctx, some err⟩
          | (sheet1, none) => renderRows env o (rows.drop (ri0 + 1 + e + 1)) ctx sheet1 := by
  obtain ⟨hdrop, hlt⟩ := drop_of_getElem? rows ri0 s hs
  have helt := getRangeEndIndex_lt _ e he
  simp only [List.length_drop] at helt
  have hslice : (rows.take (ri0 + 1 + e)).drop (ri0 + 1) = (rows.drop (ri0 + 1)).take e := by
    rw [List.drop_take]
    congr 1
    omega
  refine ⟨⟨by omega, by omega⟩, ⟨by omega, by omega⟩, hslice, ?_, ?_, ?_, ?_⟩
  · rw [hslice, List.length_take, List.length_drop]
    omega
  · rw [hslice, List.length_take, List.length_drop, List.length_drop]
    omega
  · rw [List.length_drop, List.length_drop]
    omega
  · intro env o ctx sheet subs hstart hc
    rw [hdrop, renderRows_range env o s _ ctx sheet e subs hstart he hc, hslice,
      List.drop_drop]
    rfl

/-- C19, witness: a range that starts at row 1 and ends at row 3 of five rows. -/
theorem renderRows_slices_in_bounds_witness :
    [rowText, rowRangeB, rowText, rowEnd, rowText][1]? = some rowRangeB ∧
      getRangeEndIndex ([rowText, rowRangeB, rowText, rowEnd, rowText].drop (1 + 1)) = some 1 ∧
      1 + 1 + 1 < [rowText, rowRangeB, rowText, rowEnd, rowText].length ∧
      ([rowText, rowRangeB, rowText, rowEnd, rowText].take (1 + 1 + 1)).drop (1 + 1) =
        ([rowText, rowRangeB, rowText, rowEnd, rowText].drop (1 + 1)).take 1 :=
  have h := renderRows_slices_in_bounds [rowText, rowRangeB, rowText, rowEnd, rowText] 1 1
    rowRangeB rfl (by decide)
  ⟨rfl, by decide, h.2.1.2, h.2.2.1⟩

/-! ## C20: an end marker with no open range -/

/-- C20 (as amended): a row whose first cell matches the range-end pattern and not the
range-start pattern, met while no range is open at the level being scanned, raises no
range error, although the matcher would take it as an end: it is processed like any row
that is not a range start, and when it carries
no list-field directive and cloning and evaluation succeed, `renderRows` appends exactly
one row for it, its rendering under `ctx`, and goes on with the rows after it; the single
row `{{end}}` is handed to the evaluator as `{{{end}}}`. -/
theorem renderRows_unmatched_end (env : Env) (o : Options) (ctx : Ctx) (rows : List Row)
    (sheet0 : List NewRow) (e : Row) (rest : List Row) (sheet : List NewRow)
    (hreach : Reaches env o ctx rows sheet0 (e :: rest) sheet)
    (he : isRangeEnd e = true) (hr : getRangeProp e = "") :
    getRangeEndIndex (e :: rest) = some 0 ∧
      (∀ err, (renderRows env o [e] ctx sheet).err = some err → err.external) ∧
      renderRows env o [e] ctx sheet = rowStep env o e ctx sheet ∧
      (getListProp e = "" → RendersOk env o e ctx →
        renderRows env o [e] ctx sheet = ⟨sheet ++ [rendering env o e ctx], ctx, none⟩ ∧
          renderRows env o rows ctx sheet0 =
            renderRows env o rest ctx (sheet ++ [rendering env o e ctx])) ∧
      ∀ c : Ctx, renderRows envId {} [rowEnd] c [] =
        ⟨[⟨[⟨"{{{end}}}", false, []⟩], 0⟩], c, none⟩ := by
  have hsingle := renderRows_single env o e ctx sheet hr
  refine ⟨?_, ?_, hsingle, ?_, ?_⟩
  · unfold getRangeEndIndex
    rw [getRangeEndIndexFrom_end e rest 0 0 he]
    rfl
  · intro err herr
    rw [hsingle] at herr
    exact rowStep_err env o e ctx sheet err herr
  · intro hl hok
    have h1 : renderRows env o [e] ctx sheet = ⟨sheet ++ [rendering env o e ctx], ctx, none⟩ := by
      rw [renderRows_plain env o e [] ctx sheet hr hl, renderOne_ok env o e ctx sheet hok]
      simp only [renderRows_nil]
    refine ⟨h1, ?_⟩
    rw [renderRows_of_reaches env o ctx rows sheet0 (e :: rest) sheet hreach,
      renderRows_plain env o e rest ctx sheet hr hl, renderOne_ok env o e ctx sheet hok]
  · intro c
    rw [renderRows_single envId {} rowEnd c [] (by decide)]
    rfl

/-- C20, witness: the row list that consists of one `{{end}}` row. -/
theorem renderRows_unmatched_end_witness :
    isRangeEnd rowEnd = true ∧ getRangeProp rowEnd = "" ∧ getListProp rowEnd = "" ∧
      renderRows envId {} [rowEnd] ctxEmployees [] =
        ⟨[] ++ [rendering envId {} rowEnd ctxEmployees], ctxEmployees, none⟩ :=
  ⟨by decide, by decide, by decide,
    ((renderRows_unmatched_end envId {} ctxEmployees [rowEnd] [] rowEnd [] [] (Reaches.here _ _)
      (by decide) (by decide)).2.2.2.1 (by decide) (by decide)).1⟩

/-- C20, counterexample: the first cell `{{range a}}{{end}}` matches the range-end
pattern, and the row alone makes `renderRows` return the range-not-closed error without
appending a row. -/
theorem renderRows_end_and_start_counterexample :
    isRangeEnd rowRangeEnd = true ∧
      renderRows envId {} [rowRangeEnd] ctxEmployees [] =
        ⟨[], ctxEmployees, some (Err.rangeNotClosed "a")⟩ :=
  ⟨by decide,
    renderRows_notClosed envId {} rowRangeEnd [] ctxEmployees [] (by decide) (by decide)⟩

/-! ## The rows a render clones, and the rows of the report -/

theorem clonedLoop_length (body : Ctx → List Nat) (bodyR : Ctx → List NewRow → Res)
    (ctx : Ctx) (honto : ∀ c s, bodyR c s = Res.onto s (bodyR c []))
    (hlen : ∀ c, (body c).length = (bodyR c []).sheet.length) (subs : List Ctx) :
    (clonedLoop body (fun c => (bodyR c []).err) ctx subs).length =
      (rangeLoop bodyR ctx subs []).1.length := by
  induction subs with
  | nil => rfl
  | cons sub subs ih =>
    rw [clonedLoop, rangeLoop]
    cases (bodyR (mergeCtx sub ctx) []).err with
    | some e => exact hlen _
    | none =>
      simp only
      rw [rangeLoop_onto bodyR ctx honto subs (bodyR (mergeCtx sub ctx) []).sheet]
      simp only [List.length_append, ih, hlen]

/-- The log of cloned rows has one entry for each row of the report. -/
theorem clonedRows_length (env : Env) (o : Options) :
    ∀ (n : Nat) (rows : List Row), rows.length = n → ∀ (ri : Nat) (ctx : Ctx),
      (clonedRows env o ri rows ctx).length = (renderRows env o rows ctx []).sheet.length := by
  intro n
  induction n using Nat.strong_induction_on with
  | _ n ih =>
    intro rows hlen ri ctx
    cases rows with
    | nil => rw [clonedRows_nil, renderRows_nil]; rfl
    | cons row rest =>
      simp only [List.length_cons] at hlen
      by_cases hr : getRangeProp row = ""
      · rw [clonedRows_nonrange env o ri row rest ctx hr,
          renderRows_nonrange env o row rest ctx [] hr]
        generalize rowStep env o row ctx [] = R
        obtain ⟨s1, c1, _ | e⟩ := R
        · simp only [List.length_append, List.length_replicate]
          rw [ih rest.length (by omega) rest rfl (ri + 1) c1,
            renderRows_onto env o rest.length rest rfl c1 s1]
          simp [Res.onto]
        · simp
      · cases he : getRangeEndIndex rest with
        | none =>
          rw [clonedRows_notClosed env o ri row rest ctx hr he,
            renderRows_notClosed env o row rest ctx [] hr he]
          rfl
        | some e =>
          cases hc : getRangeCtx ctx (getRangeProp row) with
          | none =>
            rw [clonedRows_invalidCtx env o ri row rest ctx e hr he hc,
              renderRows_invalidCtx env o row rest ctx [] e hr he hc]
            rfl
          | some subs =>
            have hloop := clonedLoop_length (clonedRows env o (ri + 1) (rest.take e))
              (renderRows env o (rest.take e)) ctx
              (renderRows_onto env o (rest.take e).length _ rfl)
              (ih (rest.take e).length (by simp only [List.length_take]; omega) _ rfl (ri + 1))
              subs
            rw [clonedRows_range env o ri row rest ctx e subs hr he hc,
              renderRows_range env o row rest ctx [] e subs hr he hc, List.length_append, hloop]
            generalize rangeLoop (renderRows env o (List.take e rest)) ctx subs [] = L
            obtain ⟨s1, _ | err⟩ := L
            · simp only
              rw [ih (rest.drop (e + 1)).length (by simp only [List.length_drop]; omega) _ rfl,
                renderRows_onto env o (rest.drop (e + 1)).length _ rfl ctx s1]
              simp [Res.onto]
            · simp

end Xlst
